import Mathlib

/-!
# CAN data-link simulator: frames, bus, node state machine, fault confinement

A shallow embedding of `internal/can/frame.go`, `internal/can/bus.go` and
`internal/can/node.go`.

* Machine integers are natural numbers; where the source relies on a fixed
  width (`uint8`, `uint`) the reduction modulo `2^w` is written out.
* A node's goroutine is a sequential program whose only interaction with the
  rest of the system is `Bus.Write` and `Bus.Read`.  It is embedded as a
  resumption (`Prog`): a tree whose nodes are the bus operations the goroutine
  blocks on.  The bus driver of `Bus.Activate` is embedded as `bitPeriod`: one
  write phase followed by one read phase over all attached programs.
* Loops of the source that are not bounded syntactically take a fuel argument;
  running out of fuel is the distinguished outcome `Prog.spin`.
-/

namespace Can

/-! ## bus.go: bit values -/

/-- Dominant bit value (`Dominant uint8 = 0`). -/
def Dominant : Nat := 0

/-- Recessive bit value (`Recessive uint8 = 1`). -/
def Recessive : Nat := 1

/-! ## frame.go -/

/-- Data frame (`type DataFrame struct`): identifier (`uint16`), data length
code (`uint8`) and payload bytes (`[]uint8`). -/
structure DataFrame where
  id : Nat
  dlc : Nat
  data : List Nat
deriving DecidableEq, Repr

/-- The two errors `NewDataFrame` can return. -/
inductive FrameError where
  | idTooBig
  | tooMuchData
deriving DecidableEq, Repr

/-- Constructor `NewDataFrame(id uint16, data ...uint8)`. -/
def NewDataFrame (id : Nat) (data : List Nat) : Except FrameError DataFrame :=
  if id ≥ 1 <<< 11 then
    .error .idTooBig
  else if data.length > 8 then
    .error .tooMuchData
  else
    .ok { id := id, dlc := data.length % 256, data := data }

/-- Method `Size`: `11 + 4 + int(8*f.dlc)`, the product taken in `uint8`. -/
def DataFrame.Size (f : DataFrame) : Int :=
  11 + 4 + ((8 * f.dlc % 256 : Nat) : Int)

/-- Read of `f.data[k]` followed by `(· >> s) & 1`; `none` is the run-time
panic of an out-of-range slice index. -/
def DataFrame.dataBit (f : DataFrame) (k : Nat) (s : Int) : Option Nat :=
  (f.data.get? k).map fun b => (b >>> s.toNat) &&& 1

/-- Method `Bit(i int) uint8`; `none` is a panic. -/
def DataFrame.Bit (f : DataFrame) (i : Int) : Option Nat :=
  if i < 11 then
    some ((f.id >>> (10 - i).toNat) &&& 1)
  else if i < 15 then
    some ((f.dlc >>> (14 - i).toNat) &&& 1)
  else if i < 23 then
    if f.dlc < 1 then none else f.dataBit 0 (22 - i)
  else if i < 31 then
    if f.dlc < 2 then none else f.dataBit 1 (30 - i)
  else if i < 39 then
    if f.dlc < 3 then none else f.dataBit 2 (38 - i)
  else if i < 47 then
    if f.dlc < 4 then none else f.dataBit 3 (46 - i)
  else if i < 55 then
    if f.dlc < 5 then none else f.dataBit 4 (54 - i)
  else if i < 63 then
    if f.dlc < 6 then none else f.dataBit 5 (62 - i)
  else if i < 71 then
    if f.dlc < 7 then none else f.dataBit 6 (70 - i)
  else if i < 79 then
    if f.dlc < 8 then none else f.dataBit 7 (78 - i)
  else
    none

/-! ## node.go: node data -/

/-- Fault-confinement state (`type NodeState int`). -/
inductive NodeState where
  | StateErrorActive
  | StateErrorPassive
  | StateBusOff
deriving DecidableEq, Repr

open NodeState

/-- The fields of `type Node struct` the state machine reads and writes.

* `rec_` is the field `rec` of the source.
* `busOffFunc` records whether a callback is installed (`busOffFunc != nil`);
  `busOffCalls` is a ghost counter of its invocations.
* `tec`, `rec_` are `uint` (64 bit); the stuffing counters are `int` and are
  only ever reset, set to one or incremented. -/
structure Node where
  uid : Nat
  id : Nat
  tec : Nat
  rec_ : Nat
  state : NodeState
  busOffFunc : Bool
  busOffCalls : Nat
  queue : List DataFrame
  lastBitRead : Nat
  lastBitWrite : Nat
  samePolarityReadCount : Nat
  samePolarityWriteCount : Nat
deriving DecidableEq, Repr

/-- Width of Go's `uint` on the 64-bit targets the simulator runs on. -/
def uintSize : Nat := 2 ^ 64

/-- A node as `NewNode` leaves it: every field but `uid` and `id` is zero. -/
def Node.fresh (uid id : Nat) : Node :=
  { uid := uid, id := id, tec := 0, rec_ := 0, state := StateErrorActive,
    busOffFunc := false, busOffCalls := 0, queue := [],
    lastBitRead := 0, lastBitWrite := 0,
    samePolarityReadCount := 0, samePolarityWriteCount := 0 }

/-- Method `SetBusOffFunc` with a non-nil callback. -/
def Node.SetBusOffFunc (n : Node) : Node := { n with busOffFunc := true }

/-- Method `Enqueue`: build a frame with the node's identifier, append it. -/
def Node.Enqueue (n : Node) (data : List Nat) : Except FrameError Node :=
  match NewDataFrame n.id data with
  | .error e => .error e
  | .ok df => .ok { n with queue := n.queue ++ [df] }

/-- Method `enqueueFront`. -/
def Node.enqueueFront (n : Node) (df : DataFrame) : Node :=
  { n with queue := df :: n.queue }

/-- Method `dequeue`: the head of the queue (`none` is `nil`) and the node
with the head removed. -/
def Node.dequeue (n : Node) : Option DataFrame × Node :=
  match n.queue with
  | [] => (none, n)
  | f :: rest => (some f, { n with queue := rest })

/-- Method `updateState`. -/
def Node.updateState (n : Node) : Node :=
  let n1 : Node :=
    match n.state with
    | StateErrorActive =>
      -- fault confinement rule 9
      if n.tec > 127 ∨ n.rec_ > 127 then { n with state := StateErrorPassive } else n
    | StateErrorPassive =>
      -- fault confinement rule 11
      let n2 : Node :=
        if n.tec < 128 ∧ n.rec_ < 128 then { n with state := StateErrorActive } else n
      -- fault confinement rule 10
      if n2.tec > 255 then { n2 with state := StateBusOff } else n2
    | StateBusOff => n
  if n1.state = StateBusOff ∧ n1.busOffFunc = true then
    { n1 with busOffCalls := n1.busOffCalls + 1 }
  else n1

/-- Method `resetStuffingCounters`. -/
def Node.resetStuffingCounters (n : Node) : Node :=
  { n with samePolarityReadCount := 0, samePolarityWriteCount := 0 }

/-- The deferred counter updates stored in `errorUpdate`: the source has two
closure bodies, `n.rec++; n.updateState()` and `n.tec += 8; n.updateState()`. -/
inductive ErrorUpdate where
  | recInc
  | tecAdd8
deriving DecidableEq, Repr

/-- Statement `n.rec++` followed by `n.updateState()`. -/
def Node.recInc (n : Node) : Node :=
  ({ n with rec_ := (n.rec_ + 1) % uintSize } : Node).updateState

/-- Statement `n.tec += 8` followed by `n.updateState()`. -/
def Node.tecAdd8 (n : Node) : Node :=
  ({ n with tec := (n.tec + 8) % uintSize } : Node).updateState

/-- Statement `n.rec += 8` followed by `n.updateState()`. -/
def Node.recAdd8 (n : Node) : Node :=
  ({ n with rec_ := (n.rec_ + 8) % uintSize } : Node).updateState

/-- Call of the closure held in `errorUpdate`. -/
def ErrorUpdate.apply : ErrorUpdate → Node → Node
  | .recInc, n => n.recInc
  | .tecAdd8, n => n.tecAdd8

/-! ## Goroutines as resumptions -/

/-- A goroutine that talks to the bus: finished with a value, blocked on
`Bus.Write` with the bit to contribute, blocked on `Bus.Read` waiting for the
bus state, stopped by a panic (`crash`), or out of fuel (`spin`). -/
inductive Prog (α : Type) where
  | done (a : α)
  | write (bit : Nat) (k : Prog α)
  | read (k : Nat → Prog α)
  | crash
  | spin

/-- Sequential composition. -/
def Prog.bind {α β : Type} : Prog α → (α → Prog β) → Prog β
  | .done a, f => f a
  | .write b k, f => .write b (Prog.bind k f)
  | .read k, f => .read fun x => Prog.bind (k x) f
  | .crash, _ => .crash
  | .spin, _ => .spin

instance : Monad Prog where
  pure := Prog.done
  bind := Prog.bind

/-- The value a finished goroutine returned. -/
def Prog.result {α : Type} : Prog α → Option α
  | .done a => some a
  | _ => none

/-- Whether the goroutine performs no further bus operation. -/
def Prog.halted {α : Type} : Prog α → Bool
  | .write _ _ => false
  | .read _ => false
  | _ => true

/-! ## bus.go: the bit-period loop of `Bus.Activate` -/

/-- Write phase: every goroutine blocked on `Bus.Write(uid, bit)` is released
once and performs `b.state.And(uint32(bit))`. -/
def writePhase {α : Type} : Nat → List (Prog α) → Nat × List (Prog α)
  | s, [] => (s, [])
  | s, .write b k :: ps =>
    let r := writePhase (s &&& b) ps
    (r.1, k :: r.2)
  | s, p :: ps =>
    let r := writePhase s ps
    (r.1, p :: r.2)

/-- Read phase: every goroutine blocked on `Bus.Read(uid)` is released once
and receives `b.state.Load()`. -/
def readPhase {α : Type} (s : Nat) : List (Prog α) → List (Prog α)
  | [] => []
  | .read k :: ps => k s :: readPhase s ps
  | p :: ps => p :: readPhase s ps

/-- One iteration of the loop of `Bus.Activate`: reset the state to
`Recessive`, write phase, read phase.  Returns the bus state of the period. -/
def bitPeriod {α : Type} (ps : List (Prog α)) : Nat × List (Prog α) :=
  let w := writePhase Recessive ps
  (w.1, readPhase w.1 w.2)

/-- Bit periods are driven until every goroutine has halted, at most `t` of
them; returns the bus state of each period and the goroutines at the end. -/
def busRun {α : Type} : Nat → List (Prog α) → List Nat × List (Prog α)
  | 0, ps => ([], ps)
  | t + 1, ps =>
    if ps.all Prog.halted then ([], ps)
    else
      let r := bitPeriod ps
      let rest := busRun t r.2
      (r.1 :: rest.1, rest.2)

/-- A goroutine that only listens: each `Bus.Read` returns the next bit of
`wire`.  Returns the result and the unread rest of the wire; `none` when the
goroutine writes, panics, spins or the wire ends first. -/
def Prog.listen {α : Type} : Prog α → List Nat → Option (α × List Nat)
  | .done a, wire => some (a, wire)
  | .read k, b :: wire => Prog.listen (k b) wire
  | _, _ => none

/-- The bits a goroutine passes to `Bus.Write` when its successive `Bus.Read`
calls return `reads`; it stops at the first read that has no answer. -/
def Prog.writes {α : Type} : Prog α → List Nat → List Nat
  | .write b k, reads => b :: Prog.writes k reads
  | .read k, r :: reads => Prog.writes (k r) reads
  | _, _ => []

/-! ## node.go: bus access and bit stuffing -/

/-- Method `busRead`. -/
def Node.busRead (_n : Node) : Prog Nat := .read .done

/-- Method `busWrite`: a node in bus-off returns without touching the bus. -/
def Node.busWrite (n : Node) (bit : Nat) : Prog Unit :=
  if n.state = StateBusOff then .done () else .write bit (.done ())

/-- Method `readBit`. -/
def Node.readBit (n : Node) : Prog (Nat × Node) := do
  let bit ← n.busRead
  pure (bit,
    { n with
      samePolarityReadCount :=
        if n.samePolarityReadCount = 0 ∨ n.lastBitRead = bit then
          n.samePolarityReadCount + 1
        else 1,
      lastBitRead := bit })

/-- Method `writeBit`. -/
def Node.writeBit (n : Node) (bit : Nat) : Prog Node := do
  n.busWrite bit
  pure
    { n with
      samePolarityWriteCount :=
        if n.samePolarityWriteCount = 0 ∨ n.lastBitWrite = bit then
          n.samePolarityWriteCount + 1
        else 1,
      lastBitWrite := bit }

/-- Method `maybeReadStuff`. -/
def Node.maybeReadStuff (n : Node) : Prog (Bool × Node) :=
  if n.samePolarityReadCount = 5 then do
    let prev := n.lastBitRead
    let r ← n.readBit
    pure (decide (r.1 ≠ prev), r.2)
  else
    pure (true, n)

/-- Method `maybeWriteStuff`; `^n.lastBitWrite & 1` on `uint8`. -/
def Node.maybeWriteStuff (n : Node) : Prog (Bool × Node) :=
  if n.samePolarityWriteCount = 5 then do
    let bit := (n.lastBitWrite ^^^ 255) &&& 1
    let n1 ← n.writeBit bit
    pure (true, n1)
  else
    pure (false, n)

/-! ## node.go: the state machine of `activate` -/

/-- Protocol state (`type fsmState int`). -/
inductive fsmState where
  | fsmIntermission
  | fsmSuspendTransmission
  | fsmBusIdle
  | fsmArbitration
  | fsmDLC
  | fsmData
  | fsmEOF
  | fsmError
deriving DecidableEq, Repr

/-- Role of the node in the current frame (`type nodeRole int`). -/
inductive nodeRole where
  | roleReceiver
  | roleTransmitter
deriving DecidableEq, Repr

open fsmState nodeRole

/-- The `slog.Info` records `activate` emits about the frame in progress. -/
inductive LogEvent where
  | dataFrameDequeue (df : DataFrame)
  | lostArbitration (i : Nat)
  | wonArbitration
  | readDLC (dlc : Nat)
  | sentDLC (dlc : Nat)
  | readData (data : List Nat)
  | sentData (queueLen : Nat)
deriving DecidableEq, Repr

/-- The local variables of `activate`, with two history variables that do not
influence control flow: `info` collects the `slog.Info` records, `idBits` the
values returned by the `n.readBit()` calls of the Arbitration state (the
source discards them). -/
structure Locals where
  previousRole : nodeRole
  currentState : fsmState
  currentRole : nodeRole
  currentFrame : Option DataFrame
  receivedDLC : Nat
  sentDLC : Nat
  errorUpdate : Option ErrorUpdate
  info : List LogEvent
  idBits : List Nat
deriving DecidableEq, Repr

/-- The locals when `activate` enters its loop: zero values and
`currentState = fsmBusIdle`. -/
def Locals.init : Locals :=
  { previousRole := roleReceiver, currentState := fsmBusIdle,
    currentRole := roleReceiver, currentFrame := none,
    receivedDLC := 0, sentDLC := 0, errorUpdate := none,
    info := [], idBits := [] }

/-- Stuff or form error seen by a receiver: `errorUpdate = rec++`, go to `fsmError`. -/
def Locals.rxError (l : Locals) : Locals :=
  { l with errorUpdate := some .recInc, currentState := fsmError }

/-- Stuff or bit error seen by a transmitter: `errorUpdate = tec += 8`, go to
`fsmError`. -/
def Locals.txError (l : Locals) : Locals :=
  { l with errorUpdate := some .tecAdd8, currentState := fsmError }

/-- State `fsmBusIdle`. -/
def stateBusIdle (n : Node) (l : Locals) : Prog (Node × Locals) :=
  let d := n.dequeue
  let l := { l with currentFrame := d.1 }
  match d.1 with
  | some f => do
    let l := { l with info := l.info ++ [LogEvent.dataFrameDequeue f],
                      currentRole := roleTransmitter }
    let n1 ← d.2.writeBit Dominant
    let r ← n1.readBit
    pure (r.2, { l with currentState := fsmArbitration })
  | none => do
    let r ← d.2.readBit
    if r.1 = Dominant then
      pure (r.2, { l with currentRole := roleReceiver, currentState := fsmArbitration })
    else
      pure (r.2, l)

/-- Receiver loop of `fsmArbitration`, `k` iterations left
(`for i := 0; i < 11; i++`, and the tail loop `for i = i + 1; i < 11; i++` of
a transmitter, whose body is the same). -/
def arbitrationRxLoop : Nat → Node → Locals → Prog (Node × Locals)
  | 0, n, l => pure (n, l)
  | k + 1, n, l => do
    let s ← n.maybeReadStuff
    if !s.1 then
      pure (s.2, l.rxError)
    else do
      let r ← s.2.readBit
      arbitrationRxLoop k r.2 { l with idBits := l.idBits ++ [r.1] }

/-- Transmitter loop of `fsmArbitration` at index `i`; returns the index at
which the loop was left.  `i--; continue` re-enters the body with the same
`i`. -/
def arbitrationTxLoop : Nat → Nat → Node → Locals → Prog (Nat × Node × Locals)
  | 0, _, _, _ => .spin
  | fuel + 1, i, n, l =>
    if i < 11 then do
      let w ← n.maybeWriteStuff
      if w.1 then
        arbitrationTxLoop fuel i w.2 l
      else do
        let s ← w.2.maybeReadStuff
        if !s.1 then
          pure (i, s.2, l.txError)
        else
          match l.currentFrame.bind fun f => f.Bit i with
          | none => .crash
          | some sent => do
            let n1 ← s.2.writeBit sent
            let r ← n1.readBit
            let l := { l with idBits := l.idBits ++ [r.1] }
            if r.1 ≠ sent then
              pure (i, r.2, { l with info := l.info ++ [LogEvent.lostArbitration i],
                                     currentRole := roleReceiver })
            else
              arbitrationTxLoop fuel (i + 1) r.2 l
    else
      pure (i, n, l)

/-- State `fsmArbitration`. -/
def stateArbitration (n : Node) (l : Locals) : Prog (Node × Locals) := do
  let r ←
    match l.currentRole with
    | roleReceiver => arbitrationRxLoop 11 n l
    | roleTransmitter => do
      let t ← arbitrationTxLoop 23 0 n l
      if t.2.2.currentState ≠ fsmError then
        let l1 : Locals :=
          if t.1 = 11 then { t.2.2 with info := t.2.2.info ++ [LogEvent.wonArbitration] }
          else t.2.2
        arbitrationRxLoop (11 - (t.1 + 1)) t.2.1 l1
      else
        pure t.2
  pure (r.1, if r.2.currentState ≠ fsmError then { r.2 with currentState := fsmDLC }
             else r.2)

/-- Receiver loop of `fsmDLC` at index `i`, `k` iterations left;
`receivedDLC += dlcBit << (3 - i)` on `uint8`. -/
def dlcRxLoop : Nat → Nat → Node → Locals → Prog (Node × Locals)
  | 0, _, n, l => pure (n, l)
  | k + 1, i, n, l => do
    let s ← n.maybeReadStuff
    if !s.1 then
      pure (s.2, l.rxError)
    else do
      let r ← s.2.readBit
      dlcRxLoop k (i + 1) r.2
        { l with receivedDLC := (l.receivedDLC + (r.1 <<< (3 - i)) % 256) % 256 }

/-- Transmitter loop of `fsmDLC` at index `i`;
`sentDLC += sent << (14 - i)` on `uint8`. -/
def dlcTxLoop : Nat → Nat → Node → Locals → Prog (Nat × Node × Locals)
  | 0, _, _, _ => .spin
  | fuel + 1, i, n, l =>
    if i < 15 then do
      let w ← n.maybeWriteStuff
      if w.1 then
        dlcTxLoop fuel i w.2 l
      else do
        let s ← w.2.maybeReadStuff
        if !s.1 then
          pure (i, s.2, l.txError)
        else
          match l.currentFrame.bind fun f => f.Bit i with
          | none => .crash
          | some sent => do
            let l := { l with sentDLC := (l.sentDLC + (sent <<< (14 - i)) % 256) % 256 }
            let n1 ← s.2.writeBit sent
            let r ← n1.readBit
            if r.1 ≠ sent then
              pure (i, r.2, l.txError)
            else
              dlcTxLoop fuel (i + 1) r.2 l
    else
      pure (i, n, l)

/-- State `fsmDLC`. -/
def stateDLC (n : Node) (l : Locals) : Prog (Node × Locals) := do
  let r ←
    match l.currentRole with
    | roleReceiver => do
      let r ← dlcRxLoop 4 0 n { l with receivedDLC := 0 }
      pure (r.1, if r.2.currentState ≠ fsmError then
                   { r.2 with info := r.2.info ++ [LogEvent.readDLC r.2.receivedDLC] }
                 else r.2)
    | roleTransmitter => do
      let t ← dlcTxLoop 9 11 n { l with sentDLC := 0 }
      pure (t.2.1, if t.1 = 15 then
                     { t.2.2 with info := t.2.2.info ++ [LogEvent.sentDLC t.2.2.sentDLC] }
                   else t.2.2)
  pure (r.1, if r.2.currentState ≠ fsmError then { r.2 with currentState := fsmData }
             else r.2)

/-- Inner receiver loop of `fsmData` at bit `j` of a byte, `k` iterations
left; `dataByte += bit << (7 - j)` on `uint8`.  A failed stuff check leaves
this loop only. -/
def dataRxByteLoop : Nat → Nat → Node → Locals → Nat → Prog (Nat × Node × Locals)
  | 0, _, n, l, dataByte => pure (dataByte, n, l)
  | k + 1, j, n, l, dataByte => do
    let s ← n.maybeReadStuff
    if !s.1 then
      pure (dataByte, s.2, l.rxError)
    else do
      let r ← s.2.readBit
      dataRxByteLoop k (j + 1) r.2 l ((dataByte + (r.1 <<< (7 - j)) % 256) % 256)

/-- Outer receiver loop of `fsmData` (`for i := range receivedDLC`), `k`
iterations left; `data` holds the bytes stored so far. -/
def dataRxLoop : Nat → Node → Locals → List Nat → Prog (List Nat × Node × Locals)
  | 0, n, l, data => pure (data, n, l)
  | k + 1, n, l, data => do
    let b ← dataRxByteLoop 8 0 n l 0
    dataRxLoop k b.2.1 b.2.2 (data ++ [b.1])

/-- Transmitter loop of `fsmData` at index `i`. -/
def dataTxLoop (lastBitNum : Nat) : Nat → Nat → Node → Locals → Prog (Nat × Node × Locals)
  | 0, _, _, _ => .spin
  | fuel + 1, i, n, l =>
    if i < lastBitNum then do
      let w ← n.maybeWriteStuff
      if w.1 then
        dataTxLoop lastBitNum fuel i w.2 l
      else do
        let s ← w.2.maybeReadStuff
        if !s.1 then
          pure (i, s.2, l.txError)
        else
          match l.currentFrame.bind fun f => f.Bit i with
          | none => .crash
          | some sent => do
            let n1 ← s.2.writeBit sent
            let r ← n1.readBit
            if r.1 ≠ sent then
              pure (i, r.2, l.txError)
            else
              dataTxLoop lastBitNum fuel (i + 1) r.2 l
    else
      pure (i, n, l)

/-- State `fsmData`.  `lastBitNum := int(15 + 8*sentDLC)` is computed in
`uint8`.  A transmitter always holds a frame here, so `enqueueFront` never
receives `nil`. -/
def stateData (n : Node) (l : Locals) : Prog (Node × Locals) := do
  let r ←
    match l.currentRole with
    | roleReceiver => do
      let r ← dataRxLoop l.receivedDLC n l []
      pure (r.2.1, { r.2.2 with info := r.2.2.info ++ [LogEvent.readData r.1] })
    | roleTransmitter => do
      let lastBitNum := (15 + 8 * l.sentDLC % 256) % 256
      let t ← dataTxLoop lastBitNum (2 * (lastBitNum - 15) + 1) 15 n l
      if t.1 = lastBitNum then
        pure (t.2.1, { t.2.2 with info := t.2.2.info ++ [LogEvent.sentData t.2.1.queue.length] })
      else
        match t.2.2.currentFrame with
        | some f => pure (t.2.1.enqueueFront f, t.2.2)
        | none => pure t.2
  pure (r.1, if r.2.currentState ≠ fsmError then { r.2 with currentState := fsmEOF }
             else r.2)

/-- Receiver loop of `fsmEOF`, `k` iterations left. -/
def eofRxLoop : Nat → Node → Locals → Prog (Node × Locals)
  | 0, n, l => pure (n, l)
  | k + 1, n, l => do
    let b ← n.busRead
    if b ≠ Recessive then
      pure (n, l.rxError)
    else
      eofRxLoop k n l

/-- Transmitter loop of `fsmEOF`, `k` iterations left. -/
def eofTxLoop : Nat → Node → Locals → Prog (Node × Locals)
  | 0, n, l => pure (n, l)
  | k + 1, n, l => do
    n.busWrite Recessive
    let b ← n.busRead
    if b ≠ Recessive then
      pure (n, l.txError)
    else
      eofTxLoop k n l

/-- Fault confinement rule 8 as coded in `fsmEOF`: `rec = 126` above 127,
`rec--` otherwise, then `updateState`. -/
def Node.rule8 (n : Node) : Node :=
  ({ n with rec_ := if n.rec_ > 127 then 126 else n.rec_ - 1 } : Node).updateState

/-- Fault confinement rule 7 as coded in `fsmEOF`: `tec--`, then
`updateState`. -/
def Node.rule7 (n : Node) : Node :=
  ({ n with tec := n.tec - 1 } : Node).updateState

/-- State `fsmEOF`. -/
def stateEOF (n : Node) (l : Locals) : Prog (Node × Locals) := do
  let r ←
    match l.currentRole with
    | roleReceiver => do
      let r ← eofRxLoop 7 n l
      if r.2.currentState ≠ fsmError ∧ r.1.rec_ > 0 then
        pure (r.1.rule8, r.2)
      else
        pure r
    | roleTransmitter => do
      let r ← eofTxLoop 7 n l
      if r.2.currentState ≠ fsmError ∧ r.1.tec > 0 then
        pure (r.1.rule7, r.2)
      else
        pure r
  pure (r.1, if r.2.currentState ≠ fsmError then
               { r.2 with previousRole := r.2.currentRole, currentState := fsmIntermission }
             else r.2)

/-- Active error flag of `fsmError`, `k` bits left: write `Dominant`, charge
`charge` (`rec += 8` for a receiver, `tec += 8` for a transmitter) whenever
`Recessive` is read back. -/
def errorFlagActive (charge : Node → Node) : Nat → Node → Prog Node
  | 0, n => pure n
  | k + 1, n => do
    n.busWrite Dominant
    let b ← n.busRead
    errorFlagActive charge k (if b = Recessive then charge n else n)

/-- Passive error flag of a receiver in `fsmError` at index `i`;
`i = -1; continue` re-enters the loop at index 0. -/
def errorFlagPassiveRx : Nat → Nat → Bool → Node → Prog Node
  | 0, _, _, _ => .spin
  | fuel + 1, i, isFirstBit, n =>
    if i < 6 then do
      n.busWrite Recessive
      let b ← n.busRead
      if b = Dominant then
        if isFirstBit then
          errorFlagPassiveRx fuel 0 false n.recAdd8
        else
          errorFlagPassiveRx fuel 0 isFirstBit n
      else
        errorFlagPassiveRx fuel (i + 1) isFirstBit n
    else
      pure n

/-- Passive error flag of a transmitter in `fsmError` at index `i`. -/
def errorFlagPassiveTx : Nat → Nat → Node → Prog Node
  | 0, _, _ => .spin
  | fuel + 1, i, n =>
    if i < 6 then do
      n.busWrite Recessive
      let b ← n.busRead
      if b = Dominant then
        errorFlagPassiveTx fuel 0 n
      else
        errorFlagPassiveTx fuel (i + 1) n
    else
      pure n

/-- First loop after the error flag: write `Recessive` until `Recessive` is
read. -/
def errorDelimiterWait : Nat → Node → Prog Unit
  | 0, _ => .spin
  | fuel + 1, n => do
    n.busWrite Recessive
    let b ← n.busRead
    if b = Recessive then pure () else errorDelimiterWait fuel n

/-- Second loop after the error flag: `k` more periods of writing `Recessive`
and reading for synchronisation. -/
def errorDelimiterRest : Nat → Node → Prog Unit
  | 0, _ => pure ()
  | k + 1, n => do
    n.busWrite Recessive
    let _ ← n.busRead
    errorDelimiterRest k n

/-- State `fsmError`. -/
def stateError (fuel : Nat) (n : Node) (l : Locals) : Prog (Node × Locals) := do
  let n1 ←
    match l.currentRole, n.state with
    | roleReceiver, StateErrorActive => errorFlagActive Node.recAdd8 6 n
    | roleReceiver, StateErrorPassive => errorFlagPassiveRx fuel 0 true n
    | roleTransmitter, StateErrorActive => errorFlagActive Node.tecAdd8 6 n
    | roleTransmitter, StateErrorPassive => errorFlagPassiveTx fuel 0 n
    | _, StateBusOff => pure n
  errorDelimiterWait fuel n1
  errorDelimiterRest 7 n1
  let n2 : Node :=
    match l.errorUpdate with
    | some u => u.apply n1
    | none => n1
  pure (n2, { l with previousRole := l.currentRole, currentState := fsmIntermission })

/-- Loop of `fsmIntermission` at index `i`. -/
def intermissionLoop : Nat → Nat → Node → Prog Unit
  | 0, _, _ => .spin
  | fuel + 1, i, n =>
    if i < 3 then do
      n.busWrite Recessive
      let b ← n.busRead
      if b = Dominant then
        intermissionLoop fuel 0 n
      else
        intermissionLoop fuel (i + 1) n
    else
      pure ()

/-- State `fsmIntermission`. -/
def stateIntermission (fuel : Nat) (n : Node) (l : Locals) : Prog (Node × Locals) := do
  let n := n.resetStuffingCounters
  let l := { l with currentFrame := none, errorUpdate := none }
  intermissionLoop fuel 0 n
  if n.state = StateErrorPassive ∧ l.previousRole = roleTransmitter then
    pure (n, { l with currentState := fsmSuspendTransmission })
  else
    pure (n, { l with currentState := fsmBusIdle })

/-- Loop of `fsmSuspendTransmission`, `k` iterations left; returns
`isImmediateReceiver`. -/
def suspendLoop : Nat → Node → Prog (Bool × Node)
  | 0, n => pure (false, n)
  | k + 1, n => do
    n.busWrite Recessive
    let b ← n.busRead
    if b = Dominant then
      pure (true,
        { n with
          samePolarityReadCount :=
            if n.samePolarityReadCount = 0 ∨ n.lastBitRead = Dominant then
              n.samePolarityReadCount + 1
            else 1,
          lastBitRead := Dominant })
    else
      suspendLoop k n

/-- State `fsmSuspendTransmission`. -/
def stateSuspendTransmission (n : Node) (l : Locals) : Prog (Node × Locals) := do
  let r ← suspendLoop 8 n
  if r.1 then
    pure (r.2, { l with currentRole := roleReceiver, currentState := fsmArbitration })
  else
    pure (r.2, { l with currentState := fsmBusIdle })

/-- One iteration of the `for { switch currentState ... }` loop of
`activate`. -/
def fsmStep (fuel : Nat) (n : Node) (l : Locals) : Prog (Node × Locals) :=
  match l.currentState with
  | fsmIntermission => stateIntermission fuel n l
  | fsmSuspendTransmission => stateSuspendTransmission n l
  | fsmBusIdle => stateBusIdle n l
  | fsmArbitration => stateArbitration n l
  | fsmDLC => stateDLC n l
  | fsmData => stateData n l
  | fsmEOF => stateEOF n l
  | fsmError => stateError fuel n l

/-- The first `k` iterations of the loop of `activate`. -/
def activateLoop (fuel : Nat) : Nat → Node → Locals → Prog (Node × Locals)
  | 0, n, l => pure (n, l)
  | k + 1, n, l => do
    let r ← fsmStep fuel n l
    activateLoop fuel k r.1 r.2

/-- Method `activate`, cut after `k` iterations of its loop.  The workload
goroutine `behavior` is not part of the embedding: frames are in the queue
before the node runs. -/
def Node.activate (fuel k : Nat) (n : Node) : Prog (Node × Locals) :=
  activateLoop fuel k n Locals.init

/-! ## Scenario definitions used by the statements below -/

/-- The node after `k` consecutive transmit-error updates
(`n.tec += 8; n.updateState()`). -/
def Node.tecErrors (k : Nat) (n : Node) : Node := Node.tecAdd8^[k] n

/-- A node in bus-off with the callback installed; `updateState` can be called
on it by a later error or a later clean reception. -/
def busOffNode : Node :=
  { Node.fresh 0 0 with state := StateBusOff, tec := 256, busOffFunc := true }

/-- States of the part of a frame that is subject to bit stuffing, together
with `fsmBusIdle`, where the start-of-frame bit is written or read. -/
def fsmState.inFrame : fsmState → Bool
  | fsmBusIdle => true
  | fsmArbitration => true
  | fsmDLC => true
  | fsmData => true
  | _ => false

/-- Iterations of the loop of `activate` while `p` holds of `currentState`,
at most `k` of them. -/
def activateWhile (p : fsmState → Bool) (fuel : Nat) : Nat → Node → Locals → Prog (Node × Locals)
  | 0, n, l => pure (n, l)
  | k + 1, n, l =>
    if p l.currentState then do
      let r ← fsmStep fuel n l
      activateWhile p fuel k r.1 r.2
    else
      pure (n, l)

/-- From `fsmBusIdle` through the end of `fsmData` (or up to the state in
which the frame was abandoned): four iterations of the loop of `activate`,
none of which uses fuel. -/
def Node.frameStages (n : Node) (l : Locals) : Prog (Node × Locals) :=
  activateWhile fsmState.inFrame 0 4 n l

/-- The values `samePolarityWriteCount` takes when the bits of `w` are passed
to `writeBit` one after the other, starting with `lastBitWrite = last` and
`samePolarityWriteCount = cnt`. -/
def writeCounts : Nat → Nat → List Nat → List Nat
  | _, _, [] => []
  | last, cnt, b :: w =>
    (if cnt = 0 ∨ last = b then cnt + 1 else 1) ::
      writeCounts b (if cnt = 0 ∨ last = b then cnt + 1 else 1) w

/-- Proof device: along every run of `p` the write counter, replayed from
`(last, cnt)`, stays at most 5, and `post` holds of the result and the final
tracker. -/
def Prog.stuffSafe {α : Type} : Prog α → Nat → Nat → (α → Nat → Nat → Prop) → Prop
  | .done a, last, cnt, post => post a last cnt
  | .write b k, last, cnt, post =>
    (if cnt = 0 ∨ last = b then cnt + 1 else 1) ≤ 5 ∧
      Prog.stuffSafe k b (if cnt = 0 ∨ last = b then cnt + 1 else 1) post
  | .read k, last, cnt, post => ∀ r, Prog.stuffSafe (k r) last cnt post
  | .crash, _, _, _ => True
  | .spin, _, _, _ => True

/-- Proof device: the write tracker of `n` is `(last, cnt)`, within bounds,
and `n` may write to the bus. -/
def Node.tracksWrite (n : Node) (last cnt : Nat) : Prop :=
  n.lastBitWrite = last ∧ n.samePolarityWriteCount = cnt ∧ cnt ≤ 5 ∧ n.state ≠ StateBusOff

/-- The frame of the bit-stuffing scenario of the specification: `id = 0x000`,
`data = [0x00]`. -/
def frame00 : DataFrame := { id := 0, dlc := 1, data := [0] }

/-- A fresh node with `frame00` queued. -/
def txNode00 : Node := { Node.fresh 0 0 with queue := [frame00] }

/-- A fresh node with an empty queue. -/
def rxNode00 : Node := Node.fresh 1 0

/-- The bus states while `txNode00` alone transmits `frame00` from BusIdle
through the last data bit. -/
def wire00 : List Nat := (busRun 128 [txNode00.frameStages Locals.init]).1

/-- The empty frame with `id = 0x000`. -/
def frameEmpty : DataFrame := { id := 0, dlc := 0, data := [] }

/-- A second fresh node on the same bus, identifier `0x000`, with the empty
frame queued. -/
def txNodeEmpty : Node := { Node.fresh 1 0 with queue := [frameEmpty] }

/-- What is observed of a node when its goroutine is stopped. -/
structure Observation where
  queue : List DataFrame
  tec : Nat
  currentState : fsmState
  previousRole : nodeRole
  currentFrame : Option DataFrame
  info : List LogEvent
deriving DecidableEq, Repr

/-- Observation of a stopped goroutine of `activate`; `none` while it is
still blocked on the bus. -/
def Prog.observe (p : Prog (Node × Locals)) : Option Observation :=
  p.result.map fun r =>
    { queue := r.1.queue, tec := r.1.tec, currentState := r.2.currentState,
      previousRole := r.2.previousRole, currentFrame := r.2.currentFrame, info := r.2.info }

/-- The bus states while the programs `ps` run, until all have halted (at
most 256 bit periods). -/
def busWire {α : Type} (ps : List (Prog α)) : List Nat := (busRun 256 ps).1

/-- The bits of the identifier field, most significant first. -/
def idBitsOf (id : Nat) : List Nat := (List.range 11).map fun i => (id >>> (10 - i)) &&& 1

/-- The bits of the DLC field, most significant first. -/
def dlcBitsOf (dlc : Nat) : List Nat := (List.range 4).map fun i => (dlc >>> (3 - i)) &&& 1

/-- The bits of a data byte, most significant first. -/
def byteBits (b : Nat) : List Nat := (List.range 8).map fun j => (b >>> (7 - j)) &&& 1

/-- The bits of the data field. -/
def dataBitsOf : List Nat → List Nat
  | [] => []
  | b :: bs => byteBits b ++ dataBitsOf bs

/-- Proof device: the programs `ps` reach `ps2` in `w.length` bit periods
during which the bus takes the states `w`; before each period some goroutine
is still live. -/
inductive Runs {α : Type} : List (Prog α) → List Nat → List (Prog α) → Prop where
  | refl (ps : List (Prog α)) : Runs ps [] ps
  | step (ps ps1 ps2 : List (Prog α)) (s : Nat) (w : List Nat) :
      ps.all Prog.halted = false → bitPeriod ps = (s, ps1) → Runs ps1 w ps2 →
      Runs ps (s :: w) ps2

/-- Proof device: the goroutine `p` reads exactly the bits `w`, without
writing, and continues as `q`. -/
inductive Listens {α : Type} : Prog α → List Nat → Prog α → Prop where
  | refl (p : Prog α) : Listens p [] p
  | step (k : Nat → Prog α) (b : Nat) (w : List Nat) (q : Prog α) :
      Listens (k b) w q → Listens (.read k) (b :: w) q

/-- Proof device: the update of a stuffing counter by `readBit`/`writeBit`. -/
def track (last cnt bit : Nat) : Nat := if cnt = 0 ∨ last = bit then cnt + 1 else 1

/-- Proof device: the stuff bit `^last & 1`. -/
def stuffBit (last : Nat) : Nat := (last ^^^ 255) &&& 1

/-- Proof device: the wire image of the frame bits `bits` sent with the
tracker at `(last, cnt)`: a stuff bit precedes a frame bit whenever the
counter stands at 5. -/
def stuffed : Nat → Nat → List Nat → List Nat
  | _, _, [] => []
  | last, cnt, b :: bs =>
    if cnt = 5 then
      stuffBit last :: b :: stuffed b (track (stuffBit last) 1 b) bs
    else
      b :: stuffed b (track last cnt b) bs

/-- Proof device: the tracker after the frame bits `bits` went over the
wire. -/
def trackEnd : Nat → Nat → List Nat → Nat × Nat
  | last, cnt, [] => (last, cnt)
  | last, cnt, b :: bs =>
    if cnt = 5 then trackEnd b (track (stuffBit last) 1 b) bs
    else trackEnd b (track last cnt b) bs

/-- Proof device: a `uint8` accumulated from bits, `acc += bit << (top - i)`
for successive `i`. -/
def accum (top : Nat) : Nat → Nat → List Nat → Nat
  | _, acc, [] => acc
  | i, acc, b :: bs => accum top (i + 1) ((acc + (b <<< (top - i)) % 256) % 256) bs

/-- Proof device: a node with its read tracker `(rl, rc)` and write tracker
`(wl, wc)` replaced. -/
def Node.withTrackers (n : Node) (rl rc wl wc : Nat) : Node :=
  { n with lastBitRead := rl, samePolarityReadCount := rc,
           lastBitWrite := wl, samePolarityWriteCount := wc }

/-- The bits of the stuffed part of a frame: identifier, DLC, data. -/
def frameBits (f : DataFrame) : List Nat :=
  idBitsOf f.id ++ dlcBitsOf f.dlc ++ dataBitsOf f.data

/-- BusIdle followed by Arbitration: the first two iterations of the loop of
`activate` of a node that finds a frame in its queue. -/
def Node.contend (n : Node) (l : Locals) : Prog (Node × Locals) :=
  activateLoop 0 2 n l

/-- A frame with identifier `0x123`. -/
def frameA : DataFrame := { id := 0x123, dlc := 1, data := [0xAA] }

/-- A frame with identifier `0x124`. -/
def frameB : DataFrame := { id := 0x124, dlc := 1, data := [0x55] }

/-- A fresh node with `frameA` queued. -/
def nodeA : Node := { Node.fresh 0 0x123 with queue := [frameA] }

/-- A fresh node with `frameB` queued. -/
def nodeB : Node := { Node.fresh 1 0x124 with queue := [frameB] }

/-- The value of a bit string read most significant bit first (the reading of
a field in the specification's addressing convention). -/
def msbFirst (bits : List Nat) : Nat := bits.foldl (fun acc b => 2 * acc + b) 0

/-- The bits `Bit(start), …, Bit(start + len − 1)` of a frame, as far as `Bit`
returns. -/
def DataFrame.field (f : DataFrame) (start len : Nat) : List Nat :=
  (List.range len).filterMap fun j => f.Bit ((start + j : Nat) : Int)

/-- A frame whose eleven identifier bits and eight data bits are all
Recessive. -/
def frameOnes : DataFrame := { id := 0x7FF, dlc := 1, data := [0xFF] }

/-! ## bus.go: the bus object -/

/-- The fields of `type Bus struct` that `Attach`, `Read` and `Write` use:
the atomic `state`, the attached nodes and the `active` flag.  The slice
`nodes` holds pointers; here it holds the nodes they point to. -/
structure Bus where
  state : Nat
  nodes : List Node
  active : Bool
deriving DecidableEq, Repr

/-- Constructor `NewBus`: inactive, no nodes, state `Recessive`. -/
def NewBus : Bus := { state := Recessive, nodes := [], active := false }

/-- The errors of `Attach` and `Activate`. -/
inductive BusError where
  | busIsActive
  | busAlreadyActive
deriving DecidableEq, Repr

/-- Method `Attach`: the returned value and the bus afterwards. -/
def Bus.Attach (b : Bus) (node : Node) : Except BusError Nat × Bus :=
  if b.active then
    (.error .busIsActive, b)
  else
    (.ok b.nodes.length, { b with nodes := b.nodes ++ [node] })

/-- Constructor `NewNode(bus, id)`: the returned value and the bus
afterwards.  The assignment `n.uid = uid` writes through the pointer that
`Attach` stored in `nodes`. -/
def NewNode (b : Bus) (id : Nat) : Except BusError Node × Bus :=
  match b.Attach (Node.fresh 0 id) with
  | (.error e, b1) => (.error e, b1)
  | (.ok uid, b1) =>
    (.ok (Node.fresh uid id), { b1 with nodes := b1.nodes.set uid (Node.fresh uid id) })

/-- Successive calls of `NewNode` on one bus, one per identifier. -/
def newNodes : Bus → List Nat → List (Except BusError Node) × Bus
  | b, [] => ([], b)
  | b, id :: ids =>
    let r := NewNode b id
    let rs := newNodes r.2 ids
    (r.1 :: rs.1, rs.2)

/-- Method `Write` once the goroutine holds its write-phase token: a panic
(`none`) on an inactive bus, otherwise `b.state.And(uint32(bit))`. -/
def Bus.Write (b : Bus) (bit : Nat) : Option Bus :=
  if !b.active then none else some { b with state := b.state &&& bit }

/-- Method `Read` once the goroutine holds its read-phase token: a panic
(`none`) on an inactive bus, otherwise `uint8(b.state.Load())`. -/
def Bus.Read (b : Bus) : Option Nat :=
  if !b.active then none else some (b.state % 256)

/-- The reset `b.state.Store(uint32(Recessive))` of a bit period followed by
the `Write` calls of its write phase, in the order in which they take
effect. -/
def Bus.resetAndWrite (b : Bus) (bits : List Nat) : Option Bus :=
  bits.foldlM (fun b1 bit => b1.Write bit) { b with state := Recessive }

/-- The bits of the goroutines that are blocked on `Bus.Write`. -/
def pendingWrites {α : Type} : List (Prog α) → List Nat
  | [] => []
  | .write b _ :: ps => b :: pendingWrites ps
  | _ :: ps => pendingWrites ps

/-- An active bus with two attached nodes. -/
def activeBus : Bus :=
  { state := Recessive, nodes := [Node.fresh 0 0x123, Node.fresh 1 0x124], active := true }

/-- Proof device: the nodes that successive `NewNode` calls return when the
first of them gets the unique id `start`. -/
def freshNodes : Nat → List Nat → List Node
  | _, [] => []
  | start, id :: ids => Node.fresh start id :: freshNodes (start + 1) ids

/-! ## node.go: the counter updates of fault confinement -/

/-- The counter updates `activate` performs, each followed by `updateState`:
`tec += 8` (rules 3 and 4), `rec++` (rule 1), `rec += 8` (rules 2 and 5),
`tec--` under the guard `tec > 0` (rule 7) and rule 8 under the guard
`rec > 0`. -/
inductive CounterUpdate where
  | tecAdd8
  | recInc
  | recAdd8
  | rule7
  | rule8
deriving DecidableEq, Repr

/-- The node after one counter update; where the guard of rule 7 or rule 8
fails the code changes nothing and does not call `updateState`. -/
def CounterUpdate.apply : CounterUpdate → Node → Node
  | .tecAdd8, n => n.tecAdd8
  | .recInc, n => n.recInc
  | .recAdd8, n => n.recAdd8
  | .rule7, n => if n.tec > 0 then n.rule7 else n
  | .rule8, n => if n.rec_ > 0 then n.rule8 else n

/-- The node after the counter updates `us`, first to last. -/
def Node.updates (n : Node) (us : List CounterUpdate) : Node :=
  us.foldl (fun m u => u.apply m) n

/-- The invariant of fault confinement: outside bus-off `tec ≤ 255`, and the
node is error-active exactly when both counters are at most 127. -/
def Node.confined (n : Node) : Prop :=
  n.state ≠ StateBusOff →
    n.tec ≤ 255 ∧ (n.state = StateErrorActive ↔ n.tec ≤ 127 ∧ n.rec_ ≤ 127)

/-- Sixteen transmit errors, one stuff error at reception and one successful
transmission. -/
def sampleUpdates : List CounterUpdate :=
  List.replicate 16 CounterUpdate.tecAdd8 ++ [CounterUpdate.recInc, CounterUpdate.rule7]

/-! ## Scenarios: passive error flag, stuff error in the data field -/

/-- The other nodes of a bus taken together: in successive bit periods they
drive `bits` onto the bus and then stay silent; `a` is the value the goroutine
ends with. -/
def busDriver {α : Type} (a : α) : List Nat → Prog α
  | [] => .done a
  | b :: bs => .write b (.read fun _ => busDriver a bs)

/-- A receiver in ErrorPassive with `rec = 128`. -/
def passiveRx : Node := { Node.fresh 0 0 with rec_ := 128, state := StateErrorPassive }

/-- The locals of a receiver that has just detected a stuff error. -/
def rxErrorLocals : Locals := Locals.init.rxError

/-- What is observed of a receiver when its goroutine is stopped. -/
structure RxObservation where
  rec_ : Nat
  state : NodeState
  currentState : fsmState
  info : List LogEvent
deriving DecidableEq, Repr

/-- Observation of a stopped goroutine of `activate`. -/
def Prog.observeRx (p : Prog (Node × Locals)) : Option RxObservation :=
  p.result.map fun r =>
    { rec_ := r.1.rec_, state := r.1.state, currentState := r.2.currentState, info := r.2.info }

/-- A wire with a stuff error in the first of two data bytes: start of frame,
identifier `0x555`, DLC 2, then five more Dominant bits, which with the last
DLC bit make six Dominant bits in a row. -/
def stuffErrorWire : List Nat :=
  [0] ++ [1, 0, 1, 0, 1, 0, 1, 0, 1, 0, 1] ++ [0, 0, 1, 0] ++ [0, 0, 0, 0, 0]

/-! ## One goroutine against a given sequence of bus states -/

/-- The run of one goroutine when the bus states returned by its successive
`Bus.Read` calls are `reads` (one per bit period in which it reads); its
`Bus.Write` calls are performed and not recorded.  Returns the result and the
bus states not read; `none` when the goroutine panics, runs out of fuel, or is
still blocked on a read when `reads` is used up. -/
def Prog.replay {α : Type} : Prog α → List Nat → Option (α × List Nat)
  | .done a, reads => some (a, reads)
  | .write _ k, reads => Prog.replay k reads
  | .read k, r :: reads => Prog.replay (k r) reads
  | _, _ => none

/-- Proof device: `post` holds of the result of every run of `p` that
finishes, whatever the bus states it reads. -/
def Prog.always {α : Type} : Prog α → (α → Prop) → Prop
  | .done a, post => post a
  | .write _ k, post => Prog.always k post
  | .read k, post => ∀ r, Prog.always (k r) post
  | .crash, _ => True
  | .spin, _ => True

/-- A node in ErrorPassive that has just transmitted: the state and locals
with which `activate` enters Intermission after the error frame of a failed
transmission. -/
def passiveTx : Node :=
  { Node.fresh 0 0x123 with tec := 128, state := StateErrorPassive, lastBitRead := Recessive,
                            samePolarityReadCount := 3 }

/-- The locals of `passiveTx` on entry to Intermission. -/
def passiveTxLocals : Locals :=
  { Locals.init with previousRole := roleTransmitter, currentRole := roleTransmitter,
                     currentState := fsmIntermission }

/-- States other than `fsmBusIdle`: the node is still busy with the frame (or
the error frame, intermission or suspension) that followed its last visit to
BusIdle. -/
def fsmState.inProgress : fsmState → Bool
  | fsmBusIdle => false
  | _ => true

/-- Proof device: the node of a receiver that carries the queue `q`; in the
states entered after Intermission the frame reference has been cleared. -/
def receiving (q : List DataFrame) (r : Node × Locals) : Prop :=
  r.1.queue = q ∧ r.2.currentRole = roleReceiver ∧
    (r.2.currentState = fsmSuspendTransmission ∨ r.2.currentState = fsmBusIdle →
      r.2.currentFrame = none)

/-- Proof device: what is known of a node that dequeued `f` (leaving `q`) and
has left Arbitration: it still holds `f`, and it is Receiver exactly when it
logged that it lost arbitration. -/
def contended (q : List DataFrame) (f : DataFrame) (inf : List LogEvent)
    (r : Node × Locals) : Prop :=
  r.1.queue = q ∧ r.2.currentFrame = some f ∧
  ((r.2.currentRole = roleTransmitter ∧
      (r.2.info = inf ∨ r.2.info = inf ++ [LogEvent.wonArbitration])) ∨
   (r.2.currentRole = roleReceiver ∧ ∃ j, r.2.info = inf ++ [LogEvent.lostArbitration j])) ∧
  r.2.currentState ≠ fsmSuspendTransmission ∧ r.2.currentState ≠ fsmBusIdle

/-! # Theorems -/

/-! ## The resumption monad -/

@[simp] theorem Prog.pure_eq {α : Type} (a : α) : (pure a : Prog α) = Prog.done a := rfl

@[simp] theorem Prog.bind_eq {α β : Type} (m : Prog α) (f : α → Prog β) :
    (m >>= f) = Prog.bind m f := rfl

@[simp] theorem Prog.done_bind {α β : Type} (a : α) (f : α → Prog β) :
    Prog.bind (Prog.done a) f = f a := rfl

@[simp] theorem Prog.write_bind {α β : Type} (b : Nat) (k : Prog α) (f : α → Prog β) :
    Prog.bind (Prog.write b k) f = Prog.write b (Prog.bind k f) := rfl

@[simp] theorem Prog.read_bind {α β : Type} (k : Nat → Prog α) (f : α → Prog β) :
    Prog.bind (Prog.read k) f = Prog.read fun x => Prog.bind (k x) f := rfl

@[simp] theorem Prog.crash_bind {α β : Type} (f : α → Prog β) :
    Prog.bind (Prog.crash : Prog α) f = Prog.crash := rfl

@[simp] theorem Prog.spin_bind {α β : Type} (f : α → Prog β) :
    Prog.bind (Prog.spin : Prog α) f = Prog.spin := rfl

theorem Prog.bind_assoc {α β γ : Type} (m : Prog α) (f : α → Prog β) (g : β → Prog γ) :
    Prog.bind (Prog.bind m f) g = Prog.bind m fun a => Prog.bind (f a) g := by
  induction m with
  | done a => rfl
  | write b k ih => simp [ih]
  | read k ih => simp [ih]
  | crash => rfl
  | spin => rfl

@[simp] theorem Prog.bind_done {α : Type} (m : Prog α) : Prog.bind m Prog.done = m := by
  induction m with
  | done a => rfl
  | write b k ih => simp [ih]
  | read k ih => simp [ih]
  | crash => rfl
  | spin => rfl

/-! ## Frame construction -/

/-- A frame returned by `NewDataFrame` carries the arguments and is well formed. -/
theorem NewDataFrame_ok (id : Nat) (data : List Nat) (f : DataFrame)
    (hf : NewDataFrame id data = .ok f) :
    f.id = id ∧ f.data = data ∧ f.id < 2 ^ 11 ∧ f.dlc = f.data.length ∧ f.dlc ≤ 8 := by
  have h11 : (1 <<< 11 : Nat) = 2048 := by decide
  have h2 : (2 : Nat) ^ 11 = 2048 := by norm_num
  simp only [NewDataFrame, h11, h2, ge_iff_le, gt_iff_lt] at hf ⊢
  by_cases hid : 2048 ≤ id
  · simp [hid] at hf
  · by_cases hlen : 8 < data.length
    · simp [hid, hlen] at hf
    · have hmod : data.length % 256 = data.length := Nat.mod_eq_of_lt (by omega)
      simp only [hid, hlen, if_false, hmod] at hf
      cases hf
      simp only [true_and]
      omega

/-- C10: `NewDataFrame(id, data)` fails exactly when `id ≥ 2^11` or
`len(data) > 8`; otherwise it returns the frame with identifier `id`, DLC
`len(data)` and payload `data`; every constructed frame has `id < 2^11` and
DLC = payload length ≤ 8. -/
theorem NewDataFrame_spec (id : Nat) (data : List Nat) :
    ((∃ e, NewDataFrame id data = .error e) ↔ (id ≥ 2 ^ 11 ∨ data.length > 8)) ∧
    (¬ (id ≥ 2 ^ 11 ∨ data.length > 8) →
      NewDataFrame id data = .ok { id := id, dlc := data.length, data := data }) ∧
    (∀ f, NewDataFrame id data = .ok f →
      f.id = id ∧ f.data = data ∧ f.id < 2 ^ 11 ∧ f.dlc = f.data.length ∧ f.dlc ≤ 8) := by
  have h11 : (1 <<< 11 : Nat) = 2048 := by decide
  have h2 : (2 : Nat) ^ 11 = 2048 := by norm_num
  simp only [NewDataFrame, h11, h2, ge_iff_le, gt_iff_lt]
  by_cases hid : 2048 ≤ id
  · simp [hid]
  · by_cases hlen : 8 < data.length
    · simp [hid, hlen]
    · have hmod : data.length % 256 = data.length := Nat.mod_eq_of_lt (by omega)
      simp only [hid, hlen, if_false, hmod, or_self, not_false_eq_true, true_implies]
      refine ⟨by simp, trivial, ?_⟩
      intro f hf
      cases hf
      simp only [true_and]
      omega

/-- Instance of `NewDataFrame_spec`: `NewDataFrame(0x123, [0xAB, 0xCD])` returns
the frame with identifier `0x123`, DLC 2 and that payload. -/
theorem NewDataFrame_spec_witness :
    ¬ (0x123 ≥ 2 ^ 11 ∨ [0xAB, 0xCD].length > 8) ∧
    NewDataFrame 0x123 [0xAB, 0xCD]
      = .ok { id := 0x123, dlc := [0xAB, 0xCD].length, data := [0xAB, 0xCD] } :=
  ⟨by decide, (NewDataFrame_spec 0x123 [0xAB, 0xCD]).2.1 (by decide)⟩

/-! ## Fault confinement -/

/-- The counters `tec` and `rec` are not written by `updateState`. -/
theorem Node.updateState_counters (n : Node) :
    n.updateState.tec = n.tec ∧ n.updateState.rec_ = n.rec_ := by
  cases n with
  | mk uid id tec rec_ state bof calls queue lr lw cr cw =>
    cases state <;> simp only [Node.updateState] <;> (repeat' split) <;> simp_all

/-- C5: `updateState` as a function of `(state, tec, rec)`: from ErrorActive
to ErrorPassive iff `tec > 127` or `rec > 127`; from ErrorPassive to
ErrorActive if `tec < 128` and `rec < 128`, to BusOff if `tec > 255`, else
unchanged; BusOff stays; `tec` and `rec` are not modified. -/
theorem updateState_table (n : Node) :
    (n.state = StateErrorActive →
      n.updateState.state =
        if n.tec > 127 ∨ n.rec_ > 127 then StateErrorPassive else StateErrorActive) ∧
    (n.state = StateErrorPassive →
      n.updateState.state =
        if n.tec < 128 ∧ n.rec_ < 128 then StateErrorActive
        else if n.tec > 255 then StateBusOff
        else StateErrorPassive) ∧
    (n.state = StateBusOff → n.updateState.state = StateBusOff) ∧
    n.updateState.tec = n.tec ∧ n.updateState.rec_ = n.rec_ := by
  cases n with
  | mk uid id tec rec_ state bof calls queue lr lw cr cw =>
    cases state <;> simp only [Node.updateState] <;>
      refine ⟨?_, ?_, ?_, ?_, ?_⟩ <;> intros <;> (try contradiction) <;>
      (repeat' split) <;> simp_all <;> omega

/-- Instance of `updateState_table`: an ErrorPassive node with `tec = 256`
goes to BusOff. -/
theorem updateState_table_witness :
    ({ Node.fresh 0 0 with state := StateErrorPassive, tec := 256 } : Node).state
      = StateErrorPassive ∧
    ({ Node.fresh 0 0 with state := StateErrorPassive, tec := 256 } : Node).updateState.state
      = StateBusOff :=
  ⟨rfl, (updateState_table { Node.fresh 0 0 with state := StateErrorPassive, tec := 256 }).2.1 rfl⟩

/-- C6: after `updateState` returns, `state = ErrorActive` implies
`tec ≤ 127` and `rec ≤ 127`; and if the call changed the state to BusOff then
`tec > 255` held at the call. -/
theorem updateState_post (n : Node) :
    (n.updateState.state = StateErrorActive →
      n.updateState.tec ≤ 127 ∧ n.updateState.rec_ ≤ 127) ∧
    (n.state ≠ StateBusOff → n.updateState.state = StateBusOff → n.tec > 255) := by
  cases n with
  | mk uid id tec rec_ state bof calls queue lr lw cr cw =>
    cases state <;> simp only [Node.updateState] <;>
      refine ⟨?_, ?_⟩ <;> (repeat' split) <;> (simp_all; try omega)

/-- Instance of `updateState_post`: an ErrorPassive node with `tec = 300` is
moved to BusOff, and `tec > 255` held at the call. -/
theorem updateState_post_witness :
    ({ Node.fresh 0 0 with state := StateErrorPassive, tec := 300 } : Node).state
      ≠ StateBusOff ∧
    ({ Node.fresh 0 0 with state := StateErrorPassive, tec := 300 } : Node).updateState.state
      = StateBusOff ∧
    ({ Node.fresh 0 0 with state := StateErrorPassive, tec := 300 } : Node).tec > 255 :=
  ⟨by decide, by decide,
    (updateState_post { Node.fresh 0 0 with state := StateErrorPassive, tec := 300 }).2
      (by decide) (by decide)⟩

/-- C7 (as stated, refuted): a node that is already in BusOff, with the
callback installed, has `busOffFunc` invoked again by `updateState`, although
the call does not move the node into BusOff. -/
theorem updateState_busOffFunc_already_busOff :
    busOffNode.state = StateBusOff ∧ busOffNode.busOffFunc = true ∧
    busOffNode.updateState.state = StateBusOff ∧
    busOffNode.updateState.busOffCalls = busOffNode.busOffCalls + 1 := by
  decide

/-- C7 (amended): with `busOffFunc` set, a call of `updateState` invokes it
exactly once when the node's state after the call is BusOff and not at all
otherwise; the state after the call is BusOff exactly when the node was
already in BusOff or was ErrorPassive with `tec > 255`. -/
theorem updateState_busOffFunc (n : Node) (h : n.busOffFunc = true) :
    n.updateState.busOffCalls =
      n.busOffCalls + (if n.updateState.state = StateBusOff then 1 else 0) ∧
    (n.updateState.state = StateBusOff ↔
      n.state = StateBusOff ∨ (n.state = StateErrorPassive ∧ n.tec > 255)) := by
  cases n with
  | mk uid id tec rec_ state bof calls queue lr lw cr cw =>
    simp only at h
    subst h
    cases state <;> simp only [Node.updateState] <;>
      refine ⟨?_, ?_⟩ <;> (repeat' split) <;> simp_all

/-- Witness of `updateState_busOffFunc` at a fresh node with a callback. -/
theorem updateState_busOffFunc_witness :
    (Node.fresh 0 0).SetBusOffFunc.updateState.busOffCalls =
      (Node.fresh 0 0).SetBusOffFunc.busOffCalls +
        (if (Node.fresh 0 0).SetBusOffFunc.updateState.state = StateBusOff then 1 else 0) ∧
    ((Node.fresh 0 0).SetBusOffFunc.updateState.state = StateBusOff ↔
      (Node.fresh 0 0).SetBusOffFunc.state = StateBusOff ∨
        ((Node.fresh 0 0).SetBusOffFunc.state = StateErrorPassive ∧
          (Node.fresh 0 0).SetBusOffFunc.tec > 255)) :=
  updateState_busOffFunc (Node.fresh 0 0).SetBusOffFunc (by decide)

/-- Closed form of `k ≤ 32` consecutive transmit-error updates of a node that
starts ErrorActive with both counters zero. -/
theorem tecErrors_eq (n : Node) (h1 : n.state = StateErrorActive) (h2 : n.tec = 0)
    (h3 : n.rec_ = 0) (hb : n.busOffFunc = true) (k : Nat) (hk : k ≤ 32) :
    n.tecErrors k =
      { n with
        tec := 8 * k,
        state := if k < 16 then StateErrorActive
                 else if k < 32 then StateErrorPassive else StateBusOff,
        busOffCalls := n.busOffCalls + if k = 32 then 1 else 0 } := by
  induction k with
  | zero =>
    cases n
    simp_all [Node.tecErrors]
  | succ k ih =>
    have ih := ih (by omega)
    unfold Node.tecErrors at ih ⊢
    rw [Function.iterate_succ_apply', ih]
    have hm : (8 * k + 8) % uintSize = 8 * k + 8 :=
      Nat.mod_eq_of_lt (by unfold uintSize; omega)
    simp only [Node.tecAdd8, hm]
    cases n with
    | mk uid id tec rec_ state bof calls queue lr lw cr cw =>
      simp only at h1 h2 h3 hb
      subst h1 h2 h3 hb
      rcases (by omega : k < 15 ∨ k = 15 ∨ (16 ≤ k ∧ k < 31) ∨ k = 31) with h | h | h | h
      · have a1 : k < 16 := by omega
        have a2 : k + 1 < 16 := by omega
        have a3 : ¬ (8 * k + 8 > 127) := by omega
        have a4 : ¬ k = 32 := by omega
        have a5 : ¬ k + 1 = 32 := by omega
        simp [Node.updateState, a1, a2, a3, a4, a5]
        omega
      · subst h
        simp [Node.updateState]
      · have a1 : ¬ k < 16 := by omega
        have a2 : ¬ k + 1 < 16 := by omega
        have a3 : k < 32 := by omega
        have a4 : k + 1 < 32 := by omega
        have a5 : ¬ (8 * k + 8 < 128) := by omega
        have a6 : ¬ (8 * k + 8 > 255) := by omega
        have a7 : ¬ k = 32 := by omega
        have a8 : ¬ k + 1 = 32 := by omega
        simp [Node.updateState, a1, a2, a3, a4, a5, a6, a7, a8]
        omega
      · subst h
        simp [Node.updateState]

/-- C8: from a fresh node (ErrorActive, `tec = 0`, `rec = 0`, callback set),
after `k` consecutive transmit-error updates the node is ErrorActive for
`k < 16`, ErrorPassive for `16 ≤ k < 32` and BusOff at `k = 32`; `busOffFunc`
is not invoked by the first 31 updates and is invoked by the 32nd. -/
theorem busOff_attack_trajectory (n : Node) (h1 : n.state = StateErrorActive)
    (h2 : n.tec = 0) (h3 : n.rec_ = 0) (hb : n.busOffFunc = true) :
    (∀ k, k < 16 → (n.tecErrors k).state = StateErrorActive) ∧
    (∀ k, 16 ≤ k → k < 32 → (n.tecErrors k).state = StateErrorPassive) ∧
    (n.tecErrors 32).state = StateBusOff ∧
    (∀ k, k < 32 → (n.tecErrors k).busOffCalls = n.busOffCalls) ∧
    (n.tecErrors 32).busOffCalls = n.busOffCalls + 1 := by
  refine ⟨?_, ?_, ?_, ?_, ?_⟩
  · intro k hk
    rw [tecErrors_eq n h1 h2 h3 hb k (by omega)]
    simp [hk]
  · intro k hk hk2
    rw [tecErrors_eq n h1 h2 h3 hb k (by omega)]
    simp [hk2, Nat.not_lt.mpr hk]
  · rw [tecErrors_eq n h1 h2 h3 hb 32 (by omega)]
    simp
  · intro k hk
    rw [tecErrors_eq n h1 h2 h3 hb k (by omega)]
    simp [Nat.ne_of_lt hk]
  · rw [tecErrors_eq n h1 h2 h3 hb 32 (by omega)]
    simp

/-- Witness of `busOff_attack_trajectory` at a fresh node with a callback. -/
theorem busOff_attack_trajectory_witness :
    (∀ k, k < 16 → ((Node.fresh 0 0).SetBusOffFunc.tecErrors k).state = StateErrorActive) ∧
    (∀ k, 16 ≤ k → k < 32 →
      ((Node.fresh 0 0).SetBusOffFunc.tecErrors k).state = StateErrorPassive) ∧
    ((Node.fresh 0 0).SetBusOffFunc.tecErrors 32).state = StateBusOff ∧
    (∀ k, k < 32 → ((Node.fresh 0 0).SetBusOffFunc.tecErrors k).busOffCalls
      = (Node.fresh 0 0).SetBusOffFunc.busOffCalls) ∧
    ((Node.fresh 0 0).SetBusOffFunc.tecErrors 32).busOffCalls
      = (Node.fresh 0 0).SetBusOffFunc.busOffCalls + 1 :=
  busOff_attack_trajectory (Node.fresh 0 0).SetBusOffFunc (by decide) (by decide) (by decide)
    (by decide)

/-! ## Listening to a wire -/

@[simp] theorem Prog.listen_done {α : Type} (a : α) (w : List Nat) :
    Prog.listen (Prog.done a) w = some (a, w) := by
  cases w <;> rfl

@[simp] theorem Prog.listen_read {α : Type} (k : Nat → Prog α) (b : Nat) (w : List Nat) :
    Prog.listen (Prog.read k) (b :: w) = Prog.listen (k b) w := rfl

/-- A receiver in EOF that is offered `k` Recessive bits passes its loop. -/
theorem eofRxLoop_clean (n : Node) (l : Locals) (k : Nat) {β : Type}
    (f : Node × Locals → Prog β) (w : List Nat) :
    Prog.listen (Prog.bind (eofRxLoop k n l) f) (List.replicate k Recessive ++ w)
      = Prog.listen (f (n, l)) w := by
  induction k with
  | zero => simp [eofRxLoop]
  | succ k ih =>
    simp only [eofRxLoop, Node.busRead, List.replicate_succ, List.cons_append, Prog.bind_eq,
      Prog.read_bind, Prog.listen_read, Prog.done_bind, ne_eq, not_true_eq_false, if_false]
    exact ih

/-- C9: a receiver that reads 7 Recessive bits in EOF leaves EOF for
Intermission with `rec` equal to 126 if it was above 127, `rec − 1` if
`0 < rec ≤ 127`, and 0 if it was 0; the result is at most 126, and 200
becomes 126. -/
theorem rule8_clean_reception (fuel : Nat) (n : Node) (l : Locals)
    (hs : l.currentState = fsmEOF) (hr : l.currentRole = roleReceiver) :
    ∃ n1 l1,
      Prog.listen (fsmStep fuel n l) (List.replicate 7 Recessive) = some ((n1, l1), []) ∧
      l1.currentState = fsmIntermission ∧
      n1.rec_ = (if n.rec_ > 127 then 126 else if 0 < n.rec_ then n.rec_ - 1 else 0) ∧
      n1.rec_ ≤ 126 ∧ (n.rec_ = 200 → n1.rec_ = 126) := by
  have h := fun {β : Type} (f : Node × Locals → Prog β) => eofRxLoop_clean n l 7 f []
  simp only [List.append_nil] at h
  have hne : l.currentState ≠ fsmError := by rw [hs]; decide
  simp only [fsmStep, hs, stateEOF, hr, Prog.bind_eq, Prog.bind_assoc, h, Prog.pure_eq,
    Prog.done_bind]
  by_cases h0 : n.rec_ > 0
  · simp only [hne, ne_eq, not_false_eq_true, h0, and_self, if_true, Prog.done_bind,
      Prog.listen_done]
    refine ⟨_, _, rfl, rfl, ?_⟩
    have ht :=
      (Node.updateState_counters
        { n with rec_ := if n.rec_ > 127 then 126 else n.rec_ - 1 }).2
    simp only [Node.rule8, ht]
    refine ⟨trivial, ?_, ?_⟩ <;> split <;> omega
  · simp only [hne, ne_eq, not_false_eq_true, h0, and_false, if_false, Prog.done_bind,
      Prog.listen_done]
    refine ⟨_, _, rfl, rfl, ?_⟩
    refine ⟨?_, ?_, ?_⟩ <;> (try split) <;> omega

/-- Witness of `rule8_clean_reception`: a receiver seeded with `rec = 200`. -/
theorem rule8_clean_reception_witness :
    ∃ n1 l1,
      Prog.listen
          (fsmStep 0 { Node.fresh 0 0 with rec_ := 200, state := StateErrorPassive }
            { Locals.init with currentState := fsmEOF })
          (List.replicate 7 Recessive) = some ((n1, l1), []) ∧
      l1.currentState = fsmIntermission ∧
      n1.rec_ = (if (200 : Nat) > 127 then 126 else if 0 < 200 then 200 - 1 else 0) ∧
      n1.rec_ ≤ 126 ∧ ((200 : Nat) = 200 → n1.rec_ = 126) :=
  rule8_clean_reception 0 { Node.fresh 0 0 with rec_ := 200, state := StateErrorPassive }
    { Locals.init with currentState := fsmEOF } (by decide) (by decide)

/-! ## Stuffing invariant of the transmitter -/

theorem Prog.stuffSafe_bind {α β : Type} (m : Prog α) (f : α → Prog β) (last cnt : Nat)
    (post : β → Nat → Nat → Prop) :
    Prog.stuffSafe (Prog.bind m f) last cnt post ↔
      Prog.stuffSafe m last cnt fun a l c => Prog.stuffSafe (f a) l c post := by
  induction m generalizing last cnt with
  | done a => simp [Prog.stuffSafe]
  | write b k ih => simp [Prog.stuffSafe, ih]
  | read k ih => simp [Prog.stuffSafe, ih]
  | crash => simp [Prog.stuffSafe]
  | spin => simp [Prog.stuffSafe]

theorem Prog.stuffSafe_mono {α : Type} (m : Prog α) (last cnt : Nat)
    (post post2 : α → Nat → Nat → Prop) (h : ∀ a l c, post a l c → post2 a l c) :
    Prog.stuffSafe m last cnt post → Prog.stuffSafe m last cnt post2 := by
  induction m generalizing last cnt with
  | done a => exact h a last cnt
  | write b k ih => exact fun hm => ⟨hm.1, ih _ _ hm.2⟩
  | read k ih => exact fun hm r => ih r _ _ (hm r)
  | crash => exact id
  | spin => exact id

theorem Prog.stuffSafe_writes {α : Type} (m : Prog α) (last cnt : Nat)
    (post : α → Nat → Nat → Prop) (h : Prog.stuffSafe m last cnt post) (reads : List Nat) :
    ∀ c ∈ writeCounts last cnt (m.writes reads), c ≤ 5 := by
  induction m generalizing last cnt reads with
  | done a => simp [Prog.writes, writeCounts]
  | write b k ih =>
    intro c hc
    simp only [Prog.writes, writeCounts, List.mem_cons] at hc
    rcases hc with hc | hc
    · rw [hc]; exact h.1
    · exact ih _ _ h.2 reads c hc
  | read k ih =>
    cases reads with
    | nil => simp [Prog.writes, writeCounts]
    | cons r rs => exact ih r _ _ (h r) rs
  | crash => simp [Prog.writes, writeCounts]
  | spin => simp [Prog.writes, writeCounts]

theorem stuffBit_ne (x : Nat) : x ≠ (x ^^^ 255) &&& 1 := by
  rw [Nat.and_one_is_mod, Nat.xor_mod_two_eq]
  omega

theorem safe_readBit {α : Type} (n : Node) (last cnt : Nat) (K : Nat × Node → Prog α)
    (post : α → Nat → Nat → Prop) (ht : n.tracksWrite last cnt)
    (hK : ∀ r : Nat × Node, r.2.tracksWrite last cnt → Prog.stuffSafe (K r) last cnt post) :
    Prog.stuffSafe (Prog.bind n.readBit K) last cnt post := by
  simp only [Node.readBit, Node.busRead, Prog.bind_eq, Prog.pure_eq, Prog.read_bind,
    Prog.done_bind, Prog.stuffSafe]
  intro r
  exact hK _ ht

theorem safe_maybeReadStuff {α : Type} (n : Node) (last cnt : Nat) (K : Bool × Node → Prog α)
    (post : α → Nat → Nat → Prop) (ht : n.tracksWrite last cnt)
    (hK : ∀ r : Bool × Node, r.2.tracksWrite last cnt → Prog.stuffSafe (K r) last cnt post) :
    Prog.stuffSafe (Prog.bind n.maybeReadStuff K) last cnt post := by
  unfold Node.maybeReadStuff
  split
  · simp only [Prog.bind_eq, Prog.pure_eq, Prog.bind_assoc, Prog.done_bind]
    exact safe_readBit n last cnt _ post ht fun r hr => hK _ hr
  · simp only [Prog.pure_eq, Prog.done_bind]
    exact hK _ ht

theorem safe_writeBit {α : Type} (n : Node) (last cnt b : Nat) (K : Node → Prog α)
    (post : α → Nat → Nat → Prop) (ht : n.tracksWrite last cnt)
    (hc : (if cnt = 0 ∨ last = b then cnt + 1 else 1) ≤ 5)
    (hK : ∀ n1 : Node, n1.tracksWrite b (if cnt = 0 ∨ last = b then cnt + 1 else 1) →
      Prog.stuffSafe (K n1) b (if cnt = 0 ∨ last = b then cnt + 1 else 1) post) :
    Prog.stuffSafe (Prog.bind (n.writeBit b) K) last cnt post := by
  obtain ⟨h1, h2, h3, h4⟩ := ht
  subst h1 h2
  simp only [Node.writeBit, Node.busWrite, h4, if_false, Prog.bind_eq, Prog.pure_eq,
    Prog.write_bind, Prog.done_bind, Prog.stuffSafe]
  exact ⟨hc, hK _ ⟨rfl, rfl, hc, h4⟩⟩

theorem safe_maybeWriteStuff {α : Type} (n : Node) (last cnt : Nat) (K : Bool × Node → Prog α)
    (post : α → Nat → Nat → Prop) (ht : n.tracksWrite last cnt)
    (hK : ∀ (r : Bool × Node) (la c : Nat), r.2.tracksWrite la c → (r.1 = false → c ≤ 4) →
      Prog.stuffSafe (K r) la c post) :
    Prog.stuffSafe (Prog.bind n.maybeWriteStuff K) last cnt post := by
  unfold Node.maybeWriteStuff
  split
  · rename_i h5
    simp only [Prog.bind_eq, Prog.pure_eq, Prog.bind_assoc, Prog.done_bind]
    have hcnt : cnt = 5 := by rw [← ht.2.1]; exact h5
    have hne := stuffBit_ne n.lastBitWrite
    rw [ht.1] at hne
    have hc : (if cnt = 0 ∨ last = (n.lastBitWrite ^^^ 255) &&& 1 then cnt + 1 else 1) = 1 := by
      rw [ht.1, if_neg]
      rintro (h | h)
      · omega
      · exact hne h
    apply safe_writeBit n last cnt _ _ post ht
    · rw [hc]; omega
    · intro n1 h1
      exact hK _ _ _ h1 (by simp)
  · rename_i h5
    simp only [Prog.pure_eq, Prog.done_bind]
    exact hK _ _ _ ht (fun _ => by have := ht.2.1; have := ht.2.2.1; omega)

theorem arbitrationTxLoop_safe (fuel : Nat) : ∀ (i : Nat) (n : Node) (l : Locals) (last cnt : Nat),
    n.tracksWrite last cnt →
    Prog.stuffSafe (arbitrationTxLoop fuel i n l) last cnt
      fun r la c => r.2.1.tracksWrite la c := by
  induction fuel with
  | zero => intros; simp [arbitrationTxLoop, Prog.stuffSafe]
  | succ fuel ih =>
    intro i n l last cnt ht
    unfold arbitrationTxLoop
    split
    · simp only [Prog.bind_eq, Prog.pure_eq]
      apply safe_maybeWriteStuff _ _ _ _ _ ht
      intro w la c hw hc
      split
      · exact ih _ _ _ _ _ hw
      · rename_i hw1
        have hc4 : c ≤ 4 := hc (by simpa using hw1)
        apply safe_maybeReadStuff _ _ _ _ _ hw
        intro s hs
        split
        · exact hs
        · split
          · trivial
          · rename_i sent hsent
            apply safe_writeBit _ _ _ _ _ _ hs (by split <;> omega)
            intro n1 h1
            apply safe_readBit _ _ _ _ _ h1
            intro r hr
            split
            · exact hr
            · exact ih _ _ _ _ _ hr
    · exact ht

theorem dlcTxLoop_safe (fuel : Nat) : ∀ (i : Nat) (n : Node) (l : Locals) (last cnt : Nat),
    n.tracksWrite last cnt →
    Prog.stuffSafe (dlcTxLoop fuel i n l) last cnt fun r la c => r.2.1.tracksWrite la c := by
  induction fuel with
  | zero => intros; simp [dlcTxLoop, Prog.stuffSafe]
  | succ fuel ih =>
    intro i n l last cnt ht
    unfold dlcTxLoop
    split
    · simp only [Prog.bind_eq, Prog.pure_eq]
      apply safe_maybeWriteStuff _ _ _ _ _ ht
      intro w la c hw hc
      split
      · exact ih _ _ _ _ _ hw
      · rename_i hw1
        have hc4 : c ≤ 4 := hc (by simpa using hw1)
        apply safe_maybeReadStuff _ _ _ _ _ hw
        intro s hs
        split
        · exact hs
        · split
          · trivial
          · rename_i sent hsent
            apply safe_writeBit _ _ _ _ _ _ hs (by split <;> omega)
            intro n1 h1
            apply safe_readBit _ _ _ _ _ h1
            intro r hr
            split
            · exact hr
            · exact ih _ _ _ _ _ hr
    · exact ht

theorem dataTxLoop_safe (lastBitNum fuel : Nat) :
    ∀ (i : Nat) (n : Node) (l : Locals) (last cnt : Nat), n.tracksWrite last cnt →
    Prog.stuffSafe (dataTxLoop lastBitNum fuel i n l) last cnt
      fun r la c => r.2.1.tracksWrite la c := by
  induction fuel with
  | zero => intros; simp [dataTxLoop, Prog.stuffSafe]
  | succ fuel ih =>
    intro i n l last cnt ht
    unfold dataTxLoop
    split
    · simp only [Prog.bind_eq, Prog.pure_eq]
      apply safe_maybeWriteStuff _ _ _ _ _ ht
      intro w la c hw hc
      split
      · exact ih _ _ _ _ _ hw
      · rename_i hw1
        have hc4 : c ≤ 4 := hc (by simpa using hw1)
        apply safe_maybeReadStuff _ _ _ _ _ hw
        intro s hs
        split
        · exact hs
        · split
          · trivial
          · rename_i sent hsent
            apply safe_writeBit _ _ _ _ _ _ hs (by split <;> omega)
            intro n1 h1
            apply safe_readBit _ _ _ _ _ h1
            intro r hr
            split
            · exact hr
            · exact ih _ _ _ _ _ hr
    · exact ht

theorem arbitrationRxLoop_safe (k : Nat) : ∀ (n : Node) (l : Locals) (last cnt : Nat),
    n.tracksWrite last cnt →
    Prog.stuffSafe (arbitrationRxLoop k n l) last cnt fun r la c => r.1.tracksWrite la c := by
  induction k with
  | zero => intro n l last cnt ht; exact ht
  | succ k ih =>
    intro n l last cnt ht
    unfold arbitrationRxLoop
    simp only [Prog.bind_eq, Prog.pure_eq]
    apply safe_maybeReadStuff _ _ _ _ _ ht
    intro s hs
    split
    · exact hs
    · apply safe_readBit _ _ _ _ _ hs
      intro r hr
      exact ih _ _ _ _ hr

theorem dlcRxLoop_safe (k : Nat) : ∀ (i : Nat) (n : Node) (l : Locals) (last cnt : Nat),
    n.tracksWrite last cnt →
    Prog.stuffSafe (dlcRxLoop k i n l) last cnt fun r la c => r.1.tracksWrite la c := by
  induction k with
  | zero => intro i n l last cnt ht; exact ht
  | succ k ih =>
    intro i n l last cnt ht
    unfold dlcRxLoop
    simp only [Prog.bind_eq, Prog.pure_eq]
    apply safe_maybeReadStuff _ _ _ _ _ ht
    intro s hs
    split
    · exact hs
    · apply safe_readBit _ _ _ _ _ hs
      intro r hr
      exact ih _ _ _ _ _ hr

theorem dataRxByteLoop_safe (k : Nat) :
    ∀ (j : Nat) (n : Node) (l : Locals) (dataByte last cnt : Nat), n.tracksWrite last cnt →
    Prog.stuffSafe (dataRxByteLoop k j n l dataByte) last cnt
      fun r la c => r.2.1.tracksWrite la c := by
  induction k with
  | zero => intro j n l dataByte last cnt ht; exact ht
  | succ k ih =>
    intro j n l dataByte last cnt ht
    unfold dataRxByteLoop
    simp only [Prog.bind_eq, Prog.pure_eq]
    apply safe_maybeReadStuff _ _ _ _ _ ht
    intro s hs
    split
    · exact hs
    · apply safe_readBit _ _ _ _ _ hs
      intro r hr
      exact ih _ _ _ _ _ _ hr

theorem dataRxLoop_safe (k : Nat) :
    ∀ (n : Node) (l : Locals) (data : List Nat) (last cnt : Nat), n.tracksWrite last cnt →
    Prog.stuffSafe (dataRxLoop k n l data) last cnt fun r la c => r.2.1.tracksWrite la c := by
  induction k with
  | zero => intro n l data last cnt ht; exact ht
  | succ k ih =>
    intro n l data last cnt ht
    unfold dataRxLoop
    simp only [Prog.bind_eq, Prog.pure_eq]
    rw [Prog.stuffSafe_bind]
    apply Prog.stuffSafe_mono _ _ _ _ _ _ (dataRxByteLoop_safe 8 0 n l 0 last cnt ht)
    intro a la c ha
    exact ih _ _ _ _ _ ha

theorem stateArbitration_safe (n : Node) (l : Locals) (last cnt : Nat)
    (ht : n.tracksWrite last cnt) :
    Prog.stuffSafe (stateArbitration n l) last cnt
      fun r la c => r.1.tracksWrite la c ∧ r.2.currentState ≠ fsmBusIdle := by
  unfold stateArbitration
  cases l.currentRole with
  | roleReceiver =>
    simp only [Prog.bind_eq, Prog.pure_eq]
    rw [Prog.stuffSafe_bind]
    apply Prog.stuffSafe_mono _ _ _ _ _ _ (arbitrationRxLoop_safe 11 n l last cnt ht)
    intro a la c ha
    simp only [Prog.stuffSafe]
    refine ⟨ha, ?_⟩
    (repeat' split) <;> simp_all
  | roleTransmitter =>
    simp only [Prog.bind_eq, Prog.pure_eq, Prog.bind_assoc]
    rw [Prog.stuffSafe_bind]
    apply Prog.stuffSafe_mono _ _ _ _ _ _ (arbitrationTxLoop_safe 23 0 n l last cnt ht)
    intro t la c ha
    split
    · rw [Prog.stuffSafe_bind]
      apply Prog.stuffSafe_mono _ _ _ _ _ _ (arbitrationRxLoop_safe _ _ _ _ _ ha)
      intro a2 la2 c2 ha2
      simp only [Prog.stuffSafe]
      refine ⟨ha2, ?_⟩
      (repeat' split) <;> simp_all
    · simp only [Prog.done_bind, Prog.stuffSafe]
      refine ⟨ha, ?_⟩
      (repeat' split) <;> simp_all

theorem stateDLC_safe (n : Node) (l : Locals) (last cnt : Nat)
    (ht : n.tracksWrite last cnt) :
    Prog.stuffSafe (stateDLC n l) last cnt
      fun r la c => r.1.tracksWrite la c ∧ r.2.currentState ≠ fsmBusIdle := by
  unfold stateDLC
  cases l.currentRole with
  | roleReceiver =>
    simp only [Prog.bind_eq, Prog.pure_eq, Prog.bind_assoc, Prog.done_bind]
    rw [Prog.stuffSafe_bind]
    apply Prog.stuffSafe_mono _ _ _ _ _ _ (dlcRxLoop_safe 4 0 n _ last cnt ht)
    intro a la c ha
    simp only [Prog.stuffSafe]
    refine ⟨ha, ?_⟩
    (repeat' split) <;> simp_all
  | roleTransmitter =>
    simp only [Prog.bind_eq, Prog.pure_eq, Prog.bind_assoc, Prog.done_bind]
    rw [Prog.stuffSafe_bind]
    apply Prog.stuffSafe_mono _ _ _ _ _ _ (dlcTxLoop_safe 9 11 n _ last cnt ht)
    intro a la c ha
    simp only [Prog.stuffSafe]
    refine ⟨ha, ?_⟩
    (repeat' split) <;> simp_all

theorem stateData_safe (n : Node) (l : Locals) (last cnt : Nat)
    (ht : n.tracksWrite last cnt) :
    Prog.stuffSafe (stateData n l) last cnt
      fun r la c => r.1.tracksWrite la c ∧ r.2.currentState ≠ fsmBusIdle := by
  unfold stateData
  cases l.currentRole with
  | roleReceiver =>
    simp only [Prog.bind_eq, Prog.pure_eq, Prog.bind_assoc, Prog.done_bind]
    rw [Prog.stuffSafe_bind]
    apply Prog.stuffSafe_mono _ _ _ _ _ _ (dataRxLoop_safe _ n l [] last cnt ht)
    intro a la c ha
    simp only [Prog.stuffSafe]
    refine ⟨ha, ?_⟩
    (repeat' split) <;> simp_all
  | roleTransmitter =>
    simp only [Prog.bind_eq, Prog.pure_eq, Prog.bind_assoc, Prog.done_bind]
    rw [Prog.stuffSafe_bind]
    apply Prog.stuffSafe_mono _ _ _ _ _ _ (dataTxLoop_safe _ _ 15 n l last cnt ht)
    intro a la c ha
    split
    · simp only [Prog.done_bind, Prog.stuffSafe]
      refine ⟨ha, ?_⟩
      (repeat' split) <;> simp_all
    · split
      · simp only [Prog.done_bind, Prog.stuffSafe]
        refine ⟨ha, ?_⟩
        (repeat' split) <;> simp_all
      · simp only [Prog.done_bind, Prog.stuffSafe]
        refine ⟨ha, ?_⟩
        (repeat' split) <;> simp_all

theorem stateBusIdle_safe (n : Node) (l : Locals) (f : DataFrame) (q : List DataFrame)
    (last : Nat) (hq : n.queue = f :: q) (ht : n.tracksWrite last 0) :
    Prog.stuffSafe (stateBusIdle n l) last 0
      fun r la c => r.1.tracksWrite la c ∧ r.2.currentState ≠ fsmBusIdle := by
  unfold stateBusIdle
  simp only [Node.dequeue, hq, Prog.bind_eq, Prog.pure_eq]
  have ht2 : ({ n with queue := q } : Node).tracksWrite last 0 := ht
  apply safe_writeBit _ _ _ _ _ _ ht2 (by simp)
  intro n1 h1
  apply safe_readBit _ _ _ _ _ h1
  intro r hr
  exact ⟨hr, by simp⟩

theorem activateWhile_safe (k : Nat) : ∀ (n : Node) (l : Locals) (last cnt : Nat),
    n.tracksWrite last cnt → l.currentState ≠ fsmBusIdle →
    Prog.stuffSafe (activateWhile fsmState.inFrame 0 k n l) last cnt
      fun _ _ _ => True := by
  induction k with
  | zero => intros; trivial
  | succ k ih =>
    intro n l last cnt ht hs
    unfold activateWhile
    split
    · rename_i hin
      simp only [Prog.bind_eq]
      rw [Prog.stuffSafe_bind]
      have hstep : Prog.stuffSafe (fsmStep 0 n l) last cnt
          fun r la c => r.1.tracksWrite la c ∧ r.2.currentState ≠ fsmBusIdle := by
        unfold fsmStep
        cases hcs : l.currentState with
        | fsmIntermission => rw [hcs] at hin; simp [fsmState.inFrame] at hin
        | fsmSuspendTransmission => rw [hcs] at hin; simp [fsmState.inFrame] at hin
        | fsmBusIdle => exact absurd hcs hs
        | fsmArbitration => exact stateArbitration_safe n l last cnt ht
        | fsmDLC => exact stateDLC_safe n l last cnt ht
        | fsmData => exact stateData_safe n l last cnt ht
        | fsmEOF => rw [hcs] at hin; simp [fsmState.inFrame] at hin
        | fsmError => rw [hcs] at hin; simp [fsmState.inFrame] at hin
      apply Prog.stuffSafe_mono _ _ _ _ _ _ hstep
      intro a la c ha
      exact ih _ _ _ _ ha.1 ha.2
    · trivial

theorem frameStages_safe (n : Node) (l : Locals) (f : DataFrame) (q : List DataFrame)
    (hq : n.queue = f :: q) (hs : l.currentState = fsmBusIdle)
    (hw : n.samePolarityWriteCount = 0) (hst : n.state ≠ StateBusOff) :
    Prog.stuffSafe (n.frameStages l) n.lastBitWrite 0 fun _ _ _ => True := by
  unfold Node.frameStages activateWhile
  simp only [hs, fsmState.inFrame, if_true, Prog.bind_eq, fsmStep]
  rw [Prog.stuffSafe_bind]
  have ht : n.tracksWrite n.lastBitWrite 0 := ⟨rfl, hw, by omega, hst⟩
  apply Prog.stuffSafe_mono _ _ _ _ _ _ (stateBusIdle_safe n l f q _ hq ht)
  intro a la c ha
  exact activateWhile_safe 3 _ _ _ _ ha.1 ha.2

theorem writeCounts_cons (last cnt b : Nat) (w : List Nat) :
    writeCounts last cnt (b :: w) =
      (if cnt = 0 ∨ last = b then cnt + 1 else 1) ::
        writeCounts b (if cnt = 0 ∨ last = b then cnt + 1 else 1) w := rfl

theorem writeCounts_replicate (b : Nat) (post : List Nat) : ∀ (m cnt : Nat), 1 ≤ cnt →
    (∀ c ∈ writeCounts b cnt (List.replicate (m + 1) b ++ post), c ≤ 5) → cnt + (m + 1) ≤ 5 := by
  intro m
  induction m with
  | zero =>
    intro cnt hc h
    rw [List.replicate_succ, List.cons_append, writeCounts_cons] at h
    have hc1 : (if cnt = 0 ∨ b = b then cnt + 1 else 1) = cnt + 1 := by simp
    rw [hc1] at h
    have := h (cnt + 1) (List.mem_cons_self _ _)
    omega
  | succ m ih =>
    intro cnt hc h
    rw [List.replicate_succ, List.cons_append, writeCounts_cons] at h
    have hc1 : (if cnt = 0 ∨ b = b then cnt + 1 else 1) = cnt + 1 := by simp
    rw [hc1] at h
    have := ih (cnt + 1) (by omega) fun c hcm => h c (List.mem_cons_of_mem _ hcm)
    omega

/-- A list whose replayed write counter stays at most 5 has no run of six
equal bits. -/
theorem writeCounts_no_run (pre : List Nat) : ∀ (last cnt b : Nat) (post : List Nat),
    (∀ c ∈ writeCounts last cnt (pre ++ List.replicate 6 b ++ post), c ≤ 5) → False := by
  induction pre with
  | nil =>
    intro last cnt b post h
    rw [List.nil_append, List.replicate_succ, List.cons_append, writeCounts_cons] at h
    have := writeCounts_replicate b post 4 _ (by split <;> omega)
      fun c hcm => h c (List.mem_cons_of_mem _ hcm)
    split at this <;> omega
  | cons x pre ih =>
    intro last cnt b post h
    rw [List.cons_append, List.cons_append, writeCounts_cons] at h
    exact ih _ _ b post fun c hcm => h c (List.mem_cons_of_mem _ hcm)

/-- C3: when a node whose write tracker is reset dequeues a frame in BusIdle
and transmits it, then, whatever the bus returns to its reads, the bits it
writes from the SOF bit through the last data bit keep
`samePolarityWriteCount` at most 5 and contain no run of six equal bits. -/
theorem stuffing_invariant (n : Node) (l : Locals) (f : DataFrame) (q : List DataFrame)
    (hq : n.queue = f :: q) (hs : l.currentState = fsmBusIdle)
    (hw : n.samePolarityWriteCount = 0) (hst : n.state ≠ StateBusOff) (reads : List Nat) :
    (∀ c ∈ writeCounts n.lastBitWrite 0 ((n.frameStages l).writes reads), c ≤ 5) ∧
    (∀ pre b post, (n.frameStages l).writes reads ≠ pre ++ List.replicate 6 b ++ post) := by
  have h := Prog.stuffSafe_writes _ _ _ _ (frameStages_safe n l f q hq hs hw hst) reads
  refine ⟨h, ?_⟩
  intro pre b post heq
  rw [heq] at h
  exact writeCounts_no_run pre _ _ b post h

/-- Witness of `stuffing_invariant`: `frame00` sent by a fresh node that reads
back its own bits. -/
theorem stuffing_invariant_witness :
    (∀ c ∈ writeCounts txNode00.lastBitWrite 0
        ((txNode00.frameStages Locals.init).writes wire00), c ≤ 5) ∧
    (∀ pre b post,
      (txNode00.frameStages Locals.init).writes wire00 ≠ pre ++ List.replicate 6 b ++ post) :=
  stuffing_invariant txNode00 Locals.init frame00 [] (by decide) (by decide) (by decide)
    (by decide) wire00

/-! ## Queue accounting of a failed transmission -/

/-- C4 (code evaluated at the failing input): two nodes with identifier
`0x000` dequeue in the same bit period, one the frame with payload `[0x00]`
(DLC 1), the other the empty frame (DLC 0).  The first node detects a bit
error on the last DLC bit, the second a bit error on the first EOF bit.  When
their Error states have completed (`tec = 8`, next state Intermission) both
queues are empty: neither frame was pushed back. -/
theorem dlc_error_frame_not_requeued :
    NewDataFrame 0 [0] = .ok frame00 ∧ NewDataFrame 0 [] = .ok frameEmpty ∧
    (busRun 64 [txNode00.activate 16 4, txNodeEmpty.activate 16 6]).2.map Prog.observe =
      [some { queue := [], tec := 8, currentState := fsmIntermission,
              previousRole := roleTransmitter, currentFrame := some frame00,
              info := [LogEvent.dataFrameDequeue frame00, LogEvent.wonArbitration] },
       some { queue := [], tec := 8, currentState := fsmIntermission,
              previousRole := roleTransmitter, currentFrame := some frameEmpty,
              info := [LogEvent.dataFrameDequeue frameEmpty, LogEvent.wonArbitration,
                       LogEvent.sentDLC 0, LogEvent.sentData 0] }] :=
  ⟨rfl, rfl, by decide⟩

/-! ## Bus runs and listeners -/

theorem Runs.runs_trans {α : Type} {ps ps1 ps2 : List (Prog α)} {w1 w2 : List Nat}
    (h1 : Runs ps w1 ps1) (h2 : Runs ps1 w2 ps2) : Runs ps (w1 ++ w2) ps2 := by
  induction h1 with
  | refl ps => exact h2
  | step ps psa psb s w hl hp _ ih => exact Runs.step ps psa _ s _ hl hp (ih h2)

theorem Runs.busRun_eq {α : Type} {ps ps2 : List (Prog α)} {w : List Nat}
    (h : Runs ps w ps2) (hh : ps2.all Prog.halted = true) :
    ∀ t, w.length ≤ t → busRun t ps = (w, ps2) := by
  induction h with
  | refl ps =>
    intro t _
    cases t with
    | zero => rfl
    | succ t => simp [busRun, hh]
  | step ps psa psb s w hl hp _ ih =>
    intro t ht
    cases t with
    | zero => simp at ht
    | succ t =>
      have := ih hh t (by simpa using ht)
      simp [busRun, hl, hp, this]

theorem Listens.listens_trans {α : Type} {p q r : Prog α} {w1 w2 : List Nat}
    (h1 : Listens p w1 q) (h2 : Listens q w2 r) : Listens p (w1 ++ w2) r := by
  induction h1 with
  | refl p => exact h2
  | step k b w q _ ih => exact Listens.step k b _ _ (ih h2)

theorem Listens.listen_eq {α : Type} {p : Prog α} {w : List Nat} {a : α}
    (h : Listens p w (Prog.done a)) (rest : List Nat) :
    p.listen (w ++ rest) = some (a, rest) := by
  generalize hq : Prog.done a = q at h
  induction h with
  | refl p => subst hq; simp
  | step k b w q _ ih => simpa using ih hq

/-- One bit period of a single goroutine that writes and then reads. -/
theorem Runs.write_read {α : Type} (b : Nat) (k : Nat → Prog α) (hb : b < 2) :
    Runs [Prog.write b (Prog.read k)] [b] [k b] := by
  have hand : Recessive &&& b = b := by
    interval_cases b <;> rfl
  refine Runs.step _ [k b] _ b [] (by rfl) ?_ (Runs.refl _)
  simp [bitPeriod, writePhase, readPhase, hand]

/-- One bit period of a single goroutine that writes and then reads, followed
by the run of its continuation. -/
theorem Runs.write_read_cons {α : Type} (b : Nat) (k : Nat → Prog α) (hb : b < 2)
    (w : List Nat) (ps2 : List (Prog α)) (h : Runs [k b] w ps2) :
    Runs [Prog.write b (Prog.read k)] (b :: w) ps2 :=
  Runs.runs_trans (Runs.write_read b k hb) h

theorem Runs.runs_of_eq {α : Type} {ps ps1 ps2 : List (Prog α)} {w : List Nat}
    (h : Runs ps w ps1) (he : ps1 = ps2) : Runs ps w ps2 := he ▸ h

theorem Listens.listens_of_eq {α : Type} {p q1 q2 : Prog α} {w : List Nat}
    (h : Listens p w q1) (he : q1 = q2) : Listens p w q2 := he ▸ h

/-! ## Tracker normal form of the bus primitives -/

@[simp] theorem Node.withTrackers_state (n : Node) (rl rc wl wc : Nat) :
    (n.withTrackers rl rc wl wc).state = n.state := rfl

@[simp] theorem Node.withTrackers_wc (n : Node) (rl rc wl wc : Nat) :
    (n.withTrackers rl rc wl wc).samePolarityWriteCount = wc := rfl

@[simp] theorem Node.withTrackers_rc (n : Node) (rl rc wl wc : Nat) :
    (n.withTrackers rl rc wl wc).samePolarityReadCount = rc := rfl

@[simp] theorem Node.withTrackers_wl (n : Node) (rl rc wl wc : Nat) :
    (n.withTrackers rl rc wl wc).lastBitWrite = wl := rfl

@[simp] theorem Node.withTrackers_rl (n : Node) (rl rc wl wc : Nat) :
    (n.withTrackers rl rc wl wc).lastBitRead = rl := rfl

@[simp] theorem Node.withTrackers_queue (n : Node) (rl rc wl wc : Nat) :
    (n.withTrackers rl rc wl wc).queue = n.queue := rfl

@[simp] theorem Node.withTrackers_again (n : Node) (rl rc wl wc rl2 rc2 wl2 wc2 : Nat) :
    (n.withTrackers rl rc wl wc).withTrackers rl2 rc2 wl2 wc2
      = n.withTrackers rl2 rc2 wl2 wc2 := rfl

theorem Node.readBit_tracked (n : Node) (rl rc wl wc : Nat) :
    (n.withTrackers rl rc wl wc).readBit =
      Prog.read fun bit => Prog.done (bit, n.withTrackers bit (track rl rc bit) wl wc) := rfl

theorem Node.writeBit_tracked (n : Node) (rl rc wl wc b : Nat) (h : n.state ≠ StateBusOff) :
    (n.withTrackers rl rc wl wc).writeBit b =
      Prog.write b (Prog.done (n.withTrackers rl rc b (track wl wc b))) := by
  simp [Node.writeBit, Node.busWrite, h]
  rfl

theorem Node.maybeReadStuff_tracked (n : Node) (rl rc wl wc : Nat) :
    (n.withTrackers rl rc wl wc).maybeReadStuff =
      if rc = 5 then
        Prog.read fun bit =>
          Prog.done (decide (bit ≠ rl), n.withTrackers bit (track rl rc bit) wl wc)
      else Prog.done (true, n.withTrackers rl rc wl wc) := by
  unfold Node.maybeReadStuff
  simp only [Node.withTrackers_rc, Node.readBit_tracked]
  rfl

theorem Node.maybeWriteStuff_tracked (n : Node) (rl rc wl wc : Nat)
    (h : n.state ≠ StateBusOff) :
    (n.withTrackers rl rc wl wc).maybeWriteStuff =
      if wc = 5 then
        Prog.write (stuffBit wl)
          (Prog.done (true, n.withTrackers rl rc (stuffBit wl) (track wl wc (stuffBit wl))))
      else Prog.done (false, n.withTrackers rl rc wl wc) := by
  unfold Node.maybeWriteStuff
  simp only [Node.withTrackers_wc, Node.withTrackers_wl, Node.writeBit_tracked _ _ _ _ _ _ h]
  rfl

/-! ## A transmitter alone on the bus -/

theorem track_stuff (last : Nat) : track last 5 (stuffBit last) = 1 := by
  unfold track stuffBit
  rw [if_neg]
  rintro (h | h)
  · omega
  · exact stuffBit_ne last h

theorem stuffBit_lt (last : Nat) : stuffBit last < 2 := by
  unfold stuffBit
  rw [Nat.and_one_is_mod]
  omega

theorem dataTxLoop_solo {β : Type} (f : DataFrame) (N : Nat)
    (K : Nat × Node × Locals → Prog β) (n : Node) (l : Locals)
    (hst : n.state ≠ StateBusOff) (hf : l.currentFrame = some f) :
    ∀ (bits : List Nat) (fuel i last cnt : Nat),
    (∀ j, j < bits.length → f.Bit ((i + j : Nat) : Int) = bits[j]?) →
    (∀ b ∈ bits, b < 2) →
    N = i + bits.length → 2 * bits.length + 1 ≤ fuel →
    Runs [Prog.bind (dataTxLoop N fuel i (n.withTrackers last cnt last cnt) l) K]
      (stuffed last cnt bits)
      [K (N, n.withTrackers (trackEnd last cnt bits).1 (trackEnd last cnt bits).2
            (trackEnd last cnt bits).1 (trackEnd last cnt bits).2, l)] := by
  intro bits
  induction bits with
  | nil =>
    intro fuel i last cnt _ _ hN hfuel
    obtain ⟨fuel, rfl⟩ : ∃ k, fuel = k + 1 := ⟨fuel - 1, by omega⟩
    simp only [List.length_nil, Nat.add_zero] at hN
    subst hN
    simp only [dataTxLoop, Nat.lt_irrefl, if_false, Prog.pure_eq, Prog.done_bind, stuffed,
      trackEnd]
    exact Runs.refl _
  | cons b bs ih =>
    intro fuel i last cnt hbits hlt hN hfuel
    simp only [List.length_cons] at hN hfuel
    have hb : f.Bit ((i : Nat) : Int) = some b := by simpa using hbits 0 (by simp)
    have hb2 : b < 2 := hlt b (by simp)
    have hrest : ∀ j, j < bs.length → f.Bit (((i + 1) + j : Nat) : Int) = bs[j]? := by
      intro j hj
      have := hbits (j + 1) (by simpa using hj)
      simpa [Nat.add_assoc, Nat.add_comm 1 j] using this
    have hlt' : ∀ b ∈ bs, b < 2 := fun x hx => hlt x (by simp [hx])
    have hi : i < N := by omega
    by_cases h5 : cnt = 5
    · subst h5
      obtain ⟨fuel, rfl⟩ : ∃ k, fuel = k + 2 := ⟨fuel - 2, by omega⟩
      have hrec := ih fuel (i + 1) b (track (stuffBit last) 1 b) hrest hlt' (by omega) (by omega)
      simp only [stuffed, trackEnd, if_true]
      simp only [dataTxLoop, hi, if_true, Node.maybeWriteStuff_tracked _ _ _ _ _ hst,
        Node.maybeReadStuff_tracked, Node.writeBit_tracked _ _ _ _ _ _ hst, Node.readBit_tracked,
        Prog.bind_eq, Prog.pure_eq, Prog.write_bind, Prog.read_bind, Prog.done_bind,
        track_stuff, hf, Option.some_bind, hb, (by decide : ((1 : Nat) = 5) = False), if_false,
        Bool.false_eq_true, Bool.not_eq_true', decide_eq_false_iff_not, ne_eq, not_not]
      have hne : (stuffBit last = last) = False := eq_false fun h => stuffBit_ne last h.symm
      apply Runs.write_read_cons _ _ (stuffBit_lt last)
      simp only [hne, if_false, Option.some_bind, hb, Prog.write_bind, Prog.read_bind]
      apply Runs.write_read_cons _ _ hb2
      simp only [not_true_eq_false, if_false, track_stuff]
      exact hrec
    · obtain ⟨fuel, rfl⟩ : ∃ k, fuel = k + 1 := ⟨fuel - 1, by omega⟩
      have hrec := ih fuel (i + 1) b (track last cnt b) hrest hlt' (by omega) (by omega)
      simp only [stuffed, trackEnd, h5, if_false]
      simp only [dataTxLoop, hi, if_true, Node.maybeWriteStuff_tracked _ _ _ _ _ hst,
        Node.maybeReadStuff_tracked, Node.writeBit_tracked _ _ _ _ _ _ hst, Node.readBit_tracked,
        Prog.bind_eq, Prog.pure_eq, Prog.write_bind, Prog.read_bind, Prog.done_bind,
        hf, Option.some_bind, hb, h5, if_false,
        Bool.false_eq_true, Bool.not_eq_true', decide_eq_false_iff_not, ne_eq, not_not]
      apply Runs.write_read_cons _ _ hb2
      simp only [not_true_eq_false, if_false]
      exact hrec

theorem dlcTxLoop_solo {β : Type} (f : DataFrame)
    (K : Nat × Node × Locals → Prog β) (n : Node) (hst : n.state ≠ StateBusOff) :
    ∀ (bits : List Nat) (fuel i last cnt : Nat) (l : Locals), l.currentFrame = some f →
    (∀ j, j < bits.length → f.Bit ((i + j : Nat) : Int) = bits[j]?) →
    (∀ b ∈ bits, b < 2) →
    15 = i + bits.length → 2 * bits.length + 1 ≤ fuel →
    Runs [Prog.bind (dlcTxLoop fuel i (n.withTrackers last cnt last cnt) l) K]
      (stuffed last cnt bits)
      [K (15, n.withTrackers (trackEnd last cnt bits).1 (trackEnd last cnt bits).2
            (trackEnd last cnt bits).1 (trackEnd last cnt bits).2,
          { l with sentDLC := accum 14 i l.sentDLC bits })] := by
  intro bits
  induction bits with
  | nil =>
    intro fuel i last cnt l _ _ _ hN hfuel
    obtain ⟨fuel, rfl⟩ : ∃ k, fuel = k + 1 := ⟨fuel - 1, by omega⟩
    simp only [List.length_nil, Nat.add_zero] at hN
    subst hN
    simp only [dlcTxLoop, Nat.lt_irrefl, if_false, Prog.pure_eq, Prog.done_bind, stuffed,
      trackEnd, accum]
    exact Runs.refl _
  | cons b bs ih =>
    intro fuel i last cnt l hf hbits hlt hN hfuel
    simp only [List.length_cons] at hN hfuel
    have hb : f.Bit ((i : Nat) : Int) = some b := by simpa using hbits 0 (by simp)
    have hb2 : b < 2 := hlt b (by simp)
    have hrest : ∀ j, j < bs.length → f.Bit (((i + 1) + j : Nat) : Int) = bs[j]? := by
      intro j hj
      have := hbits (j + 1) (by simpa using hj)
      simpa [Nat.add_assoc, Nat.add_comm 1 j] using this
    have hlt' : ∀ b ∈ bs, b < 2 := fun x hx => hlt x (by simp [hx])
    have hi : i < 15 := by omega
    by_cases h5 : cnt = 5
    · subst h5
      obtain ⟨fuel, rfl⟩ : ∃ k, fuel = k + 2 := ⟨fuel - 2, by omega⟩
      have hrec := ih fuel (i + 1) b (track (stuffBit last) 1 b)
        { l with sentDLC := (l.sentDLC + (b <<< (14 - i)) % 256) % 256 } hf hrest hlt'
        (by omega) (by omega)
      simp only [stuffed, trackEnd, if_true, accum]
      simp only [dlcTxLoop, hi, if_true, Node.maybeWriteStuff_tracked _ _ _ _ _ hst,
        Node.maybeReadStuff_tracked, Node.writeBit_tracked _ _ _ _ _ _ hst, Node.readBit_tracked,
        Prog.bind_eq, Prog.pure_eq, Prog.write_bind, Prog.read_bind, Prog.done_bind,
        track_stuff, hf, Option.some_bind, hb, (by decide : ((1 : Nat) = 5) = False), if_false,
        Bool.false_eq_true, Bool.not_eq_true', decide_eq_false_iff_not, ne_eq, not_not]
      have hne : (stuffBit last = last) = False := eq_false fun h => stuffBit_ne last h.symm
      apply Runs.write_read_cons _ _ (stuffBit_lt last)
      simp only [hne, if_false, Option.some_bind, hb, Prog.write_bind, Prog.read_bind]
      apply Runs.write_read_cons _ _ hb2
      simp only [not_true_eq_false, if_false, track_stuff]
      simp only [hf] at hrec ⊢
      exact hrec
    · obtain ⟨fuel, rfl⟩ : ∃ k, fuel = k + 1 := ⟨fuel - 1, by omega⟩
      have hrec := ih fuel (i + 1) b (track last cnt b)
        { l with sentDLC := (l.sentDLC + (b <<< (14 - i)) % 256) % 256 } hf hrest hlt'
        (by omega) (by omega)
      simp only [stuffed, trackEnd, h5, if_false, accum]
      simp only [dlcTxLoop, hi, if_true, Node.maybeWriteStuff_tracked _ _ _ _ _ hst,
        Node.maybeReadStuff_tracked, Node.writeBit_tracked _ _ _ _ _ _ hst, Node.readBit_tracked,
        Prog.bind_eq, Prog.pure_eq, Prog.write_bind, Prog.read_bind, Prog.done_bind,
        hf, Option.some_bind, hb, h5, if_false,
        Bool.false_eq_true, Bool.not_eq_true', decide_eq_false_iff_not, ne_eq, not_not]
      apply Runs.write_read_cons _ _ hb2
      simp only [not_true_eq_false, if_false]
      simp only [hf] at hrec ⊢
      exact hrec

theorem arbitrationTxLoop_solo {β : Type} (f : DataFrame)
    (K : Nat × Node × Locals → Prog β) (n : Node) (hst : n.state ≠ StateBusOff) :
    ∀ (bits : List Nat) (fuel i last cnt : Nat) (l : Locals), l.currentFrame = some f →
    (∀ j, j < bits.length → f.Bit ((i + j : Nat) : Int) = bits[j]?) →
    (∀ b ∈ bits, b < 2) →
    11 = i + bits.length → 2 * bits.length + 1 ≤ fuel →
    Runs [Prog.bind (arbitrationTxLoop fuel i (n.withTrackers last cnt last cnt) l) K]
      (stuffed last cnt bits)
      [K (11, n.withTrackers (trackEnd last cnt bits).1 (trackEnd last cnt bits).2
            (trackEnd last cnt bits).1 (trackEnd last cnt bits).2,
          { l with idBits := l.idBits ++ bits })] := by
  intro bits
  induction bits with
  | nil =>
    intro fuel i last cnt l _ _ _ hN hfuel
    obtain ⟨fuel, rfl⟩ : ∃ k, fuel = k + 1 := ⟨fuel - 1, by omega⟩
    simp only [List.length_nil, Nat.add_zero] at hN
    subst hN
    simp only [arbitrationTxLoop, Nat.lt_irrefl, if_false, Prog.pure_eq, Prog.done_bind,
      stuffed, trackEnd, List.append_nil]
    exact Runs.refl _
  | cons b bs ih =>
    intro fuel i last cnt l hf hbits hlt hN hfuel
    simp only [List.length_cons] at hN hfuel
    have hb : f.Bit ((i : Nat) : Int) = some b := by simpa using hbits 0 (by simp)
    have hb2 : b < 2 := hlt b (by simp)
    have hrest : ∀ j, j < bs.length → f.Bit (((i + 1) + j : Nat) : Int) = bs[j]? := by
      intro j hj
      have := hbits (j + 1) (by simpa using hj)
      simpa [Nat.add_assoc, Nat.add_comm 1 j] using this
    have hlt' : ∀ b ∈ bs, b < 2 := fun x hx => hlt x (by simp [hx])
    have hi : i < 11 := by omega
    have happ : l.idBits ++ b :: bs = l.idBits ++ [b] ++ bs := by simp
    by_cases h5 : cnt = 5
    · subst h5
      obtain ⟨fuel, rfl⟩ : ∃ k, fuel = k + 2 := ⟨fuel - 2, by omega⟩
      have hrec := ih fuel (i + 1) b (track (stuffBit last) 1 b)
        { l with idBits := l.idBits ++ [b] } hf hrest hlt' (by omega) (by omega)
      simp only [stuffed, trackEnd, if_true, happ]
      simp only [arbitrationTxLoop, hi, if_true, Node.maybeWriteStuff_tracked _ _ _ _ _ hst,
        Node.maybeReadStuff_tracked, Node.writeBit_tracked _ _ _ _ _ _ hst, Node.readBit_tracked,
        Prog.bind_eq, Prog.pure_eq, Prog.write_bind, Prog.read_bind, Prog.done_bind,
        track_stuff, hf, Option.some_bind, hb, (by decide : ((1 : Nat) = 5) = False), if_false,
        Bool.false_eq_true, Bool.not_eq_true', decide_eq_false_iff_not, ne_eq, not_not]
      have hne : (stuffBit last = last) = False := eq_false fun h => stuffBit_ne last h.symm
      apply Runs.write_read_cons _ _ (stuffBit_lt last)
      simp only [hne, if_false, Option.some_bind, hb, Prog.write_bind, Prog.read_bind]
      apply Runs.write_read_cons _ _ hb2
      simp only [not_true_eq_false, if_false, track_stuff]
      simp only [hf] at hrec ⊢
      exact hrec
    · obtain ⟨fuel, rfl⟩ : ∃ k, fuel = k + 1 := ⟨fuel - 1, by omega⟩
      have hrec := ih fuel (i + 1) b (track last cnt b)
        { l with idBits := l.idBits ++ [b] } hf hrest hlt' (by omega) (by omega)
      simp only [stuffed, trackEnd, h5, if_false, happ]
      simp only [arbitrationTxLoop, hi, if_true, Node.maybeWriteStuff_tracked _ _ _ _ _ hst,
        Node.maybeReadStuff_tracked, Node.writeBit_tracked _ _ _ _ _ _ hst, Node.readBit_tracked,
        Prog.bind_eq, Prog.pure_eq, Prog.write_bind, Prog.read_bind, Prog.done_bind,
        hf, Option.some_bind, hb, h5, if_false,
        Bool.false_eq_true, Bool.not_eq_true', decide_eq_false_iff_not, ne_eq, not_not]
      apply Runs.write_read_cons _ _ hb2
      simp only [not_true_eq_false, if_false]
      simp only [hf] at hrec ⊢
      exact hrec

/-! ## A receiver listening to a stuffed wire -/

theorem stuffed_append (xs ys : List Nat) : ∀ (last cnt : Nat),
    stuffed last cnt (xs ++ ys) =
      stuffed last cnt xs ++ stuffed (trackEnd last cnt xs).1 (trackEnd last cnt xs).2 ys := by
  induction xs with
  | nil => intro last cnt; simp [stuffed, trackEnd]
  | cons x xs ih =>
    intro last cnt
    by_cases h5 : cnt = 5
    · simp [stuffed, trackEnd, h5, ih]
    · simp [stuffed, trackEnd, h5, ih]

theorem trackEnd_append (xs ys : List Nat) : ∀ (last cnt : Nat),
    trackEnd last cnt (xs ++ ys) =
      trackEnd (trackEnd last cnt xs).1 (trackEnd last cnt xs).2 ys := by
  induction xs with
  | nil => intro last cnt; simp [trackEnd]
  | cons x xs ih =>
    intro last cnt
    by_cases h5 : cnt = 5
    · simp [trackEnd, h5, ih]
    · simp [trackEnd, h5, ih]

theorem arbitrationRxLoop_listens {β : Type} (K : Node × Locals → Prog β) (n : Node)
    (wl wc : Nat) :
    ∀ (bits : List Nat) (rl rc : Nat) (l : Locals),
    Listens (Prog.bind (arbitrationRxLoop bits.length (n.withTrackers rl rc wl wc) l) K)
      (stuffed rl rc bits)
      (K (n.withTrackers (trackEnd rl rc bits).1 (trackEnd rl rc bits).2 wl wc,
          { l with idBits := l.idBits ++ bits })) := by
  intro bits
  induction bits with
  | nil =>
    intro rl rc l
    simp only [List.length_nil, arbitrationRxLoop, Prog.pure_eq, Prog.done_bind, stuffed,
      trackEnd, List.append_nil]
    exact Listens.refl _
  | cons b bs ih =>
    intro rl rc l
    have happ : l.idBits ++ b :: bs = l.idBits ++ [b] ++ bs := by simp
    by_cases h5 : rc = 5
    · subst h5
      have hrec := ih b (track (stuffBit rl) 1 b) { l with idBits := l.idBits ++ [b] }
      have hne : (stuffBit rl = rl) = False := eq_false fun h => stuffBit_ne rl h.symm
      simp only [stuffed, trackEnd, if_true, happ, List.length_cons, arbitrationRxLoop,
        Node.maybeReadStuff_tracked, Node.readBit_tracked, Prog.bind_eq, Prog.pure_eq,
        Prog.read_bind, Prog.done_bind]
      apply Listens.step
      simp only [hne, ne_eq, not_false_eq_true, decide_True, Bool.not_true, Bool.false_eq_true,
        if_false, Prog.read_bind, Prog.done_bind, track_stuff]
      apply Listens.step
      exact hrec
    · have hrec := ih b (track rl rc b) { l with idBits := l.idBits ++ [b] }
      simp only [stuffed, trackEnd, h5, if_false, happ, List.length_cons, arbitrationRxLoop,
        Node.maybeReadStuff_tracked, Node.readBit_tracked, Prog.bind_eq, Prog.pure_eq,
        Prog.read_bind, Prog.done_bind, Bool.not_true, Bool.false_eq_true]
      apply Listens.step
      exact hrec

theorem dlcRxLoop_listens {β : Type} (K : Node × Locals → Prog β) (n : Node)
    (wl wc : Nat) :
    ∀ (bits : List Nat) (i rl rc : Nat) (l : Locals),
    Listens (Prog.bind (dlcRxLoop bits.length i (n.withTrackers rl rc wl wc) l) K)
      (stuffed rl rc bits)
      (K (n.withTrackers (trackEnd rl rc bits).1 (trackEnd rl rc bits).2 wl wc,
          { l with receivedDLC := accum 3 i l.receivedDLC bits })) := by
  intro bits
  induction bits with
  | nil =>
    intro i rl rc l
    simp only [List.length_nil, dlcRxLoop, Prog.pure_eq, Prog.done_bind, stuffed,
      trackEnd, accum]
    exact Listens.refl _
  | cons b bs ih =>
    intro i rl rc l
    by_cases h5 : rc = 5
    · subst h5
      have hrec := ih (i + 1) b (track (stuffBit rl) 1 b)
        { l with receivedDLC := (l.receivedDLC + (b <<< (3 - i)) % 256) % 256 }
      have hne : (stuffBit rl = rl) = False := eq_false fun h => stuffBit_ne rl h.symm
      simp only [stuffed, trackEnd, if_true, accum, List.length_cons, dlcRxLoop,
        Node.maybeReadStuff_tracked, Node.readBit_tracked, Prog.bind_eq, Prog.pure_eq,
        Prog.read_bind, Prog.done_bind]
      apply Listens.step
      simp only [hne, ne_eq, not_false_eq_true, decide_True, Bool.not_true, Bool.false_eq_true,
        if_false, Prog.read_bind, Prog.done_bind, track_stuff]
      apply Listens.step
      exact hrec
    · have hrec := ih (i + 1) b (track rl rc b)
        { l with receivedDLC := (l.receivedDLC + (b <<< (3 - i)) % 256) % 256 }
      simp only [stuffed, trackEnd, h5, if_false, accum, List.length_cons, dlcRxLoop,
        Node.maybeReadStuff_tracked, Node.readBit_tracked, Prog.bind_eq, Prog.pure_eq,
        Prog.read_bind, Prog.done_bind, Bool.not_true, Bool.false_eq_true]
      apply Listens.step
      exact hrec

theorem dataRxByteLoop_listens {β : Type} (K : Nat × Node × Locals → Prog β) (n : Node)
    (l : Locals) (wl wc : Nat) :
    ∀ (bits : List Nat) (j rl rc dataByte : Nat),
    Listens (Prog.bind (dataRxByteLoop bits.length j (n.withTrackers rl rc wl wc) l dataByte) K)
      (stuffed rl rc bits)
      (K (accum 7 j dataByte bits,
          n.withTrackers (trackEnd rl rc bits).1 (trackEnd rl rc bits).2 wl wc, l)) := by
  intro bits
  induction bits with
  | nil =>
    intro j rl rc dataByte
    simp only [List.length_nil, dataRxByteLoop, Prog.pure_eq, Prog.done_bind, stuffed,
      trackEnd, accum]
    exact Listens.refl _
  | cons b bs ih =>
    intro j rl rc dataByte
    by_cases h5 : rc = 5
    · subst h5
      have hrec := ih (j + 1) b (track (stuffBit rl) 1 b)
        ((dataByte + (b <<< (7 - j)) % 256) % 256)
      have hne : (stuffBit rl = rl) = False := eq_false fun h => stuffBit_ne rl h.symm
      simp only [stuffed, trackEnd, if_true, accum, List.length_cons, dataRxByteLoop,
        Node.maybeReadStuff_tracked, Node.readBit_tracked, Prog.bind_eq, Prog.pure_eq,
        Prog.read_bind, Prog.done_bind]
      apply Listens.step
      simp only [hne, ne_eq, not_false_eq_true, decide_True, Bool.not_true, Bool.false_eq_true,
        if_false, Prog.read_bind, Prog.done_bind, track_stuff]
      apply Listens.step
      exact hrec
    · have hrec := ih (j + 1) b (track rl rc b) ((dataByte + (b <<< (7 - j)) % 256) % 256)
      simp only [stuffed, trackEnd, h5, if_false, accum, List.length_cons, dataRxByteLoop,
        Node.maybeReadStuff_tracked, Node.readBit_tracked, Prog.bind_eq, Prog.pure_eq,
        Prog.read_bind, Prog.done_bind, Bool.not_true, Bool.false_eq_true]
      apply Listens.step
      exact hrec

theorem byteBits_length (b : Nat) : (byteBits b).length = 8 := by simp [byteBits]

set_option maxRecDepth 100000 in
theorem accum_byteBits : ∀ b, b < 256 → accum 7 0 0 (byteBits b) = b := by
  decide

theorem accum_dlcBits : ∀ d, d < 16 → accum 3 0 0 (dlcBitsOf d) = d := by
  decide

theorem accum_dlcBits_tx : ∀ d, d < 16 → accum 14 11 0 (dlcBitsOf d) = d := by
  decide

theorem dataRxLoop_listens {β : Type} (K : List Nat × Node × Locals → Prog β) (n : Node)
    (l : Locals) (wl wc : Nat) :
    ∀ (bytes : List Nat) (rl rc : Nat) (acc : List Nat), (∀ b ∈ bytes, b < 256) →
    Listens (Prog.bind (dataRxLoop bytes.length (n.withTrackers rl rc wl wc) l acc) K)
      (stuffed rl rc (dataBitsOf bytes))
      (K (acc ++ bytes,
          n.withTrackers (trackEnd rl rc (dataBitsOf bytes)).1
            (trackEnd rl rc (dataBitsOf bytes)).2 wl wc, l)) := by
  intro bytes
  induction bytes with
  | nil =>
    intro rl rc acc _
    simp only [List.length_nil, dataRxLoop, Prog.pure_eq, Prog.done_bind, dataBitsOf, stuffed,
      trackEnd, List.append_nil]
    exact Listens.refl _
  | cons b bs ih =>
    intro rl rc acc hlt
    have hb : b < 256 := hlt b (by simp)
    have hrec := ih (trackEnd rl rc (byteBits b)).1 (trackEnd rl rc (byteBits b)).2
      (acc ++ [b]) fun x hx => hlt x (by simp [hx])
    have hbyte := dataRxByteLoop_listens
      (fun r => Prog.bind (dataRxLoop bs.length r.2.1 r.2.2 (acc ++ [r.1])) K)
      n l wl wc (byteBits b) 0 rl rc 0
    rw [byteBits_length, accum_byteBits b hb] at hbyte
    simp only [dataBitsOf, stuffed_append, trackEnd_append, List.length_cons, dataRxLoop,
      Prog.bind_eq, Prog.bind_assoc]
    have happ : acc ++ b :: bs = acc ++ [b] ++ bs := by simp
    rw [happ]
    exact Listens.listens_trans hbyte hrec

/-! ## The bits of a frame -/

theorem idBitsOf_get (id j : Nat) (hj : j < 11) :
    (idBitsOf id)[j]? = some ((id >>> (10 - j)) &&& 1) := by
  simp [idBitsOf, List.getElem?_range, hj]

theorem dlcBitsOf_get (d j : Nat) (hj : j < 4) :
    (dlcBitsOf d)[j]? = some ((d >>> (3 - j)) &&& 1) := by
  simp [dlcBitsOf, List.getElem?_range, hj]

theorem byteBits_get (b j : Nat) (hj : j < 8) :
    (byteBits b)[j]? = some ((b >>> (7 - j)) &&& 1) := by
  simp [byteBits, List.getElem?_range, hj]

theorem dataBitsOf_length (data : List Nat) : (dataBitsOf data).length = 8 * data.length := by
  induction data with
  | nil => rfl
  | cons b bs ih => simp [dataBitsOf, byteBits_length, ih]; omega

theorem dataBitsOf_get (data : List Nat) : ∀ (k r : Nat), r < 8 →
    (dataBitsOf data)[8 * k + r]? = (data.get? k).map fun b => (b >>> (7 - r)) &&& 1 := by
  induction data with
  | nil => intro k r _; simp [dataBitsOf]
  | cons b bs ih =>
    intro k r hr
    cases k with
    | zero =>
      simp only [dataBitsOf, Nat.mul_zero, Nat.zero_add, List.get?_cons_zero, Option.map_some']
      rw [List.getElem?_append_left (by rw [byteBits_length]; exact hr)]
      exact byteBits_get b r hr
    | succ k =>
      simp only [dataBitsOf, List.get?_cons_succ]
      rw [List.getElem?_append_right (by rw [byteBits_length]; omega), byteBits_length]
      have : 8 * (k + 1) + r - 8 = 8 * k + r := by omega
      rw [this]
      exact ih k r hr

theorem Bit_id (f : DataFrame) (j : Nat) (hj : j < 11) :
    f.Bit ((0 + j : Nat) : Int) = (idBitsOf f.id)[j]? := by
  rw [idBitsOf_get _ _ hj]
  have h1 : ((0 + j : Nat) : Int) < 11 := by omega
  have h2 : (10 - ((0 + j : Nat) : Int)).toNat = 10 - j := by omega
  simp only [DataFrame.Bit, h1, if_true, h2]

theorem Bit_dlc (f : DataFrame) (j : Nat) (hj : j < 4) :
    f.Bit ((11 + j : Nat) : Int) = (dlcBitsOf f.dlc)[j]? := by
  rw [dlcBitsOf_get _ _ hj]
  have h0 : ¬ ((11 + j : Nat) : Int) < 11 := by omega
  have h1 : ((11 + j : Nat) : Int) < 15 := by omega
  have h2 : (14 - ((11 + j : Nat) : Int)).toNat = 3 - j := by omega
  simp only [DataFrame.Bit, h0, h1, if_true, if_false, h2]

theorem Bit_data_aux (f : DataFrame) (k r : Nat) (hk : k < f.data.length)
    (hd : f.dlc = f.data.length) (hlen : f.data.length ≤ 8) (hr : r < 8) :
    f.Bit ((15 + (8 * k + r) : Nat) : Int)
      = (f.data.get? k).map fun b => (b >>> (7 - r)) &&& 1 := by
  have hk8 : k < 8 := by omega
  unfold DataFrame.Bit
  interval_cases k <;>
    (repeat (first | rw [if_pos (by omega)] | rw [if_neg (by omega)])) <;>
    (unfold DataFrame.dataBit; congr 1; funext b; congr 2; omega)

theorem Bit_data (f : DataFrame) (hd : f.dlc = f.data.length) (hlen : f.data.length ≤ 8)
    (j : Nat) (hj : j < (dataBitsOf f.data).length) :
    f.Bit ((15 + j : Nat) : Int) = (dataBitsOf f.data)[j]? := by
  rw [dataBitsOf_length] at hj
  have hjr : j = 8 * (j / 8) + j % 8 := by omega
  rw [hjr, dataBitsOf_get _ _ _ (by omega)]
  exact Bit_data_aux f (j / 8) (j % 8) (by omega) hd hlen (by omega)

theorem and_one_lt (x : Nat) : x &&& 1 < 2 := by
  rw [Nat.and_one_is_mod]; omega

theorem idBitsOf_lt (id : Nat) : ∀ b ∈ idBitsOf id, b < 2 := by
  intro b hb
  simp only [idBitsOf, List.mem_map] at hb
  obtain ⟨i, _, rfl⟩ := hb
  exact and_one_lt _

theorem dlcBitsOf_lt (d : Nat) : ∀ b ∈ dlcBitsOf d, b < 2 := by
  intro b hb
  simp only [dlcBitsOf, List.mem_map] at hb
  obtain ⟨i, _, rfl⟩ := hb
  exact and_one_lt _

theorem dataBitsOf_lt (data : List Nat) : ∀ b ∈ dataBitsOf data, b < 2 := by
  induction data with
  | nil => intro b hb; simp [dataBitsOf] at hb
  | cons x xs ih =>
    intro b hb
    simp only [dataBitsOf, List.mem_append] at hb
    rcases hb with hb | hb
    · simp only [byteBits, List.mem_map] at hb
      obtain ⟨i, _, rfl⟩ := hb
      exact and_one_lt _
    · exact ih b hb

theorem stuffed_length_le (bits : List Nat) : ∀ (last cnt : Nat),
    (stuffed last cnt bits).length ≤ 2 * bits.length := by
  induction bits with
  | nil => intro last cnt; simp [stuffed]
  | cons b bs ih =>
    intro last cnt
    by_cases h5 : cnt = 5
    · have := ih b (track (stuffBit last) 1 b)
      simp [stuffed, h5]; omega
    · have := ih b (track last cnt b)
      simp [stuffed, h5]; omega

/-! ## The stages of a frame: transmitter alone, receiver listening -/

theorem idBitsOf_length (id : Nat) : (idBitsOf id).length = 11 := by simp [idBitsOf]

theorem dlcBitsOf_length (d : Nat) : (dlcBitsOf d).length = 4 := by simp [dlcBitsOf]

theorem stateArbitration_solo {β : Type} (f : DataFrame) (K : Node × Locals → Prog β)
    (n : Node) (hst : n.state ≠ StateBusOff) (l : Locals) (last cnt : Nat)
    (hf : l.currentFrame = some f) (hr : l.currentRole = roleTransmitter)
    (hs : l.currentState = fsmArbitration) :
    Runs [Prog.bind (stateArbitration (n.withTrackers last cnt last cnt) l) K]
      (stuffed last cnt (idBitsOf f.id))
      [K (n.withTrackers (trackEnd last cnt (idBitsOf f.id)).1
            (trackEnd last cnt (idBitsOf f.id)).2 (trackEnd last cnt (idBitsOf f.id)).1
            (trackEnd last cnt (idBitsOf f.id)).2,
          { l with idBits := l.idBits ++ idBitsOf f.id,
                   info := l.info ++ [LogEvent.wonArbitration],
                   currentState := fsmDLC })] := by
  simp only [stateArbitration, hr, Prog.bind_eq, Prog.pure_eq, Prog.bind_assoc]
  refine Runs.runs_of_eq (arbitrationTxLoop_solo f _ n hst (idBitsOf f.id) 23 0 last cnt l hf
    (fun j hj => Bit_id f j (by rw [idBitsOf_length] at hj; exact hj)) (idBitsOf_lt _)
    (by rw [idBitsOf_length]) (by rw [idBitsOf_length])) ?_
  simp [hs, hr, arbitrationRxLoop]

theorem stateDLC_solo {β : Type} (f : DataFrame) (K : Node × Locals → Prog β)
    (n : Node) (hst : n.state ≠ StateBusOff) (l : Locals) (last cnt : Nat)
    (hf : l.currentFrame = some f) (hr : l.currentRole = roleTransmitter)
    (hs : l.currentState = fsmDLC) (hd : f.dlc < 16) :
    Runs [Prog.bind (stateDLC (n.withTrackers last cnt last cnt) l) K]
      (stuffed last cnt (dlcBitsOf f.dlc))
      [K (n.withTrackers (trackEnd last cnt (dlcBitsOf f.dlc)).1
            (trackEnd last cnt (dlcBitsOf f.dlc)).2 (trackEnd last cnt (dlcBitsOf f.dlc)).1
            (trackEnd last cnt (dlcBitsOf f.dlc)).2,
          { l with sentDLC := f.dlc,
                   info := l.info ++ [LogEvent.sentDLC f.dlc],
                   currentState := fsmData })] := by
  obtain ⟨pr, cs, cr, cf, rd, sd, eu, inf, ib⟩ := l
  simp only at hf hr hs
  subst hf hr hs
  simp only [stateDLC, Prog.bind_eq, Prog.pure_eq, Prog.bind_assoc]
  refine Runs.runs_of_eq (dlcTxLoop_solo f _ n hst (dlcBitsOf f.dlc) 9 11 last cnt
    (Locals.mk pr fsmDLC roleTransmitter (some f) rd 0 eu inf ib) rfl
    (fun j hj => Bit_dlc f j (by rw [dlcBitsOf_length] at hj; exact hj)) (dlcBitsOf_lt _)
    (by rw [dlcBitsOf_length]) (by rw [dlcBitsOf_length])) ?_
  simp [accum_dlcBits_tx f.dlc hd]

theorem stateData_solo {β : Type} (f : DataFrame) (K : Node × Locals → Prog β)
    (n : Node) (hst : n.state ≠ StateBusOff) (l : Locals) (last cnt : Nat)
    (hf : l.currentFrame = some f) (hr : l.currentRole = roleTransmitter)
    (hs : l.currentState = fsmData) (hd : f.dlc = f.data.length) (hlen : f.data.length ≤ 8)
    (hsd : l.sentDLC = f.dlc) :
    Runs [Prog.bind (stateData (n.withTrackers last cnt last cnt) l) K]
      (stuffed last cnt (dataBitsOf f.data))
      [K (n.withTrackers (trackEnd last cnt (dataBitsOf f.data)).1
            (trackEnd last cnt (dataBitsOf f.data)).2 (trackEnd last cnt (dataBitsOf f.data)).1
            (trackEnd last cnt (dataBitsOf f.data)).2,
          { l with info := l.info ++ [LogEvent.sentData n.queue.length],
                   currentState := fsmEOF })] := by
  obtain ⟨pr, cs, cr, cf, rd, sd, eu, inf, ib⟩ := l
  simp only at hf hr hs hsd
  subst hf hr hs hsd
  have hN : (15 + 8 * f.dlc % 256) % 256 = 15 + (dataBitsOf f.data).length := by
    rw [dataBitsOf_length, hd]; omega
  simp only [stateData, Prog.bind_eq, Prog.pure_eq, Prog.bind_assoc, hN]
  refine Runs.runs_of_eq (dataTxLoop_solo f _ _ n _ hst rfl (dataBitsOf f.data) _ 15 last cnt
    (fun j hj => Bit_data f hd hlen j hj) (dataBitsOf_lt _) rfl (by omega)) ?_
  simp

theorem stateArbitration_listens {β : Type} (id : Nat) (K : Node × Locals → Prog β)
    (n : Node) (l : Locals) (rl rc wl wc : Nat)
    (hr : l.currentRole = roleReceiver) (hs : l.currentState = fsmArbitration) :
    Listens (Prog.bind (stateArbitration (n.withTrackers rl rc wl wc) l) K)
      (stuffed rl rc (idBitsOf id))
      (K (n.withTrackers (trackEnd rl rc (idBitsOf id)).1 (trackEnd rl rc (idBitsOf id)).2
            wl wc,
          { l with idBits := l.idBits ++ idBitsOf id, currentState := fsmDLC })) := by
  obtain ⟨pr, cs, cr, cf, rd, sd, eu, inf, ib⟩ := l
  simp only at hr hs
  subst hr hs
  simp only [stateArbitration, Prog.bind_eq, Prog.pure_eq, Prog.bind_assoc]
  have h := fun K => arbitrationRxLoop_listens (β := β) K n wl wc (idBitsOf id) rl rc
    (Locals.mk pr fsmArbitration roleReceiver cf rd sd eu inf ib)
  rw [idBitsOf_length] at h
  refine Listens.listens_of_eq (h _) ?_
  simp

theorem stateDLC_listens {β : Type} (d : Nat) (hd : d < 16) (K : Node × Locals → Prog β)
    (n : Node) (l : Locals) (rl rc wl wc : Nat)
    (hr : l.currentRole = roleReceiver) (hs : l.currentState = fsmDLC) :
    Listens (Prog.bind (stateDLC (n.withTrackers rl rc wl wc) l) K)
      (stuffed rl rc (dlcBitsOf d))
      (K (n.withTrackers (trackEnd rl rc (dlcBitsOf d)).1 (trackEnd rl rc (dlcBitsOf d)).2
            wl wc,
          { l with receivedDLC := d, info := l.info ++ [LogEvent.readDLC d],
                   currentState := fsmData })) := by
  obtain ⟨pr, cs, cr, cf, rd, sd, eu, inf, ib⟩ := l
  simp only at hr hs
  subst hr hs
  simp only [stateDLC, Prog.bind_eq, Prog.pure_eq, Prog.bind_assoc]
  have h := fun K => dlcRxLoop_listens (β := β) K n wl wc (dlcBitsOf d) 0 rl rc
    (Locals.mk pr fsmDLC roleReceiver cf 0 sd eu inf ib)
  rw [dlcBitsOf_length] at h
  refine Listens.listens_of_eq (h _) ?_
  simp [accum_dlcBits d hd]

theorem stateData_listens {β : Type} (bytes : List Nat) (hb : ∀ b ∈ bytes, b < 256)
    (K : Node × Locals → Prog β) (n : Node) (l : Locals) (rl rc wl wc : Nat)
    (hr : l.currentRole = roleReceiver) (hs : l.currentState = fsmData)
    (hd : l.receivedDLC = bytes.length) :
    Listens (Prog.bind (stateData (n.withTrackers rl rc wl wc) l) K)
      (stuffed rl rc (dataBitsOf bytes))
      (K (n.withTrackers (trackEnd rl rc (dataBitsOf bytes)).1
            (trackEnd rl rc (dataBitsOf bytes)).2 wl wc,
          { l with info := l.info ++ [LogEvent.readData bytes], currentState := fsmEOF })) := by
  obtain ⟨pr, cs, cr, cf, rd, sd, eu, inf, ib⟩ := l
  simp only at hr hs hd
  subst hr hs hd
  simp only [stateData, Prog.bind_eq, Prog.pure_eq, Prog.bind_assoc]
  refine Listens.listens_of_eq (dataRxLoop_listens _ n _ wl wc bytes rl rc [] hb) ?_
  simp

/-! ## From BusIdle through Data -/

theorem activateWhile_succ (p : fsmState → Bool) (fuel k : Nat) (n : Node) (l : Locals)
    (h : p l.currentState = true) :
    activateWhile p fuel (k + 1) n l =
      Prog.bind (fsmStep fuel n l) fun r => activateWhile p fuel k r.1 r.2 := by
  simp [activateWhile, h]

theorem Node.withTrackers_self (n : Node) :
    n.withTrackers n.lastBitRead n.samePolarityReadCount n.lastBitWrite
      n.samePolarityWriteCount = n := rfl

theorem track_sof (rl rc : Nat) (h : rc = 0 ∨ rl ≠ Dominant) : track rl rc Dominant = 1 := by
  unfold track
  rcases h with h | h
  · simp [h]
  · by_cases hc : rc = 0
    · simp [hc]
    · simp [hc, h]

theorem frameStages_solo (tx : Node) (l : Locals) (f : DataFrame) (q : List DataFrame)
    (hq : tx.queue = f :: q) (hst : tx.state ≠ StateBusOff)
    (hw : tx.samePolarityWriteCount = 0)
    (hrd : tx.samePolarityReadCount = 0 ∨ tx.lastBitRead ≠ Dominant)
    (hs : l.currentState = fsmBusIdle)
    (hd : f.dlc = f.data.length) (hlen : f.data.length ≤ 8) :
    Runs [tx.frameStages l] (Dominant :: stuffed Dominant 1 (frameBits f))
      [Prog.done
        (({ tx with queue := q } : Node).withTrackers
            (trackEnd Dominant 1 (frameBits f)).1 (trackEnd Dominant 1 (frameBits f)).2
            (trackEnd Dominant 1 (frameBits f)).1 (trackEnd Dominant 1 (frameBits f)).2,
         { l with currentFrame := some f, currentRole := roleTransmitter, sentDLC := f.dlc,
                  idBits := l.idBits ++ idBitsOf f.id,
                  info := l.info ++ [LogEvent.dataFrameDequeue f, LogEvent.wonArbitration,
                    LogEvent.sentDLC f.dlc, LogEvent.sentData q.length],
                  currentState := fsmEOF })] := by
  obtain ⟨pr, cs, cr, cf, rd, sd, eu, inf, ib⟩ := l
  simp only at hs
  subst hs
  have hst2 : ({ tx with queue := q } : Node).state ≠ StateBusOff := hst
  have hbus : stateBusIdle tx (Locals.mk pr fsmBusIdle cr cf rd sd eu inf ib) =
      Prog.write Dominant (Prog.read fun bit => Prog.done
        (({ tx with queue := q } : Node).withTrackers bit
            (track tx.lastBitRead tx.samePolarityReadCount bit) Dominant 1,
         Locals.mk pr fsmArbitration roleTransmitter (some f) rd sd eu
           (inf ++ [LogEvent.dataFrameDequeue f]) ib)) := by
    simp [stateBusIdle, Node.dequeue, hq, Node.writeBit, Node.busWrite, Node.readBit,
      Node.busRead, hst, hw, track, Node.withTrackers]
  unfold Node.frameStages
  rw [activateWhile_succ _ _ _ _ _ rfl]
  simp only [fsmStep, hbus, Prog.write_bind, Prog.read_bind, Prog.done_bind, frameBits,
    stuffed_append, trackEnd_append, List.append_assoc]
  apply Runs.write_read_cons _ _ (by decide)
  rw [track_sof _ _ hrd, activateWhile_succ _ _ _ _ _ rfl]
  simp only [fsmStep]
  refine Runs.runs_trans (stateArbitration_solo f _ _ hst2 _ Dominant 1 rfl rfl rfl) ?_
  rw [activateWhile_succ _ _ _ _ _ rfl]
  simp only [fsmStep]
  refine Runs.runs_trans (stateDLC_solo f _ _ hst2 _ _ _ rfl rfl rfl (by omega)) ?_
  rw [activateWhile_succ _ _ _ _ _ rfl]
  simp only [fsmStep]
  refine Runs.runs_of_eq (stateData_solo f _ _ hst2 _ _ _ rfl rfl rfl hd hlen rfl) ?_
  simp [activateWhile]

theorem frameStages_listens (rx : Node) (l : Locals) (id : Nat) (data : List Nat)
    (hq : rx.queue = [])
    (hrd : rx.samePolarityReadCount = 0 ∨ rx.lastBitRead ≠ Dominant)
    (hs : l.currentState = fsmBusIdle)
    (hlen : data.length < 16) (hb : ∀ b ∈ data, b < 256) :
    Listens (rx.frameStages l)
      (Dominant :: stuffed Dominant 1 (idBitsOf id ++ dlcBitsOf data.length ++ dataBitsOf data))
      (Prog.done
        (rx.withTrackers
            (trackEnd Dominant 1
              (idBitsOf id ++ dlcBitsOf data.length ++ dataBitsOf data)).1
            (trackEnd Dominant 1
              (idBitsOf id ++ dlcBitsOf data.length ++ dataBitsOf data)).2
            rx.lastBitWrite rx.samePolarityWriteCount,
         { l with currentFrame := none, currentRole := roleReceiver,
                  receivedDLC := data.length,
                  idBits := l.idBits ++ idBitsOf id,
                  info := l.info ++ [LogEvent.readDLC data.length, LogEvent.readData data],
                  currentState := fsmEOF })) := by
  obtain ⟨pr, cs, cr, cf, rd, sd, eu, inf, ib⟩ := l
  simp only at hs
  subst hs
  have hbus : stateBusIdle rx (Locals.mk pr fsmBusIdle cr cf rd sd eu inf ib) =
      Prog.read fun bit =>
        if bit = Dominant then
          Prog.done (rx.withTrackers bit (track rx.lastBitRead rx.samePolarityReadCount bit)
              rx.lastBitWrite rx.samePolarityWriteCount,
            Locals.mk pr fsmArbitration roleReceiver none rd sd eu inf ib)
        else
          Prog.done (rx.withTrackers bit (track rx.lastBitRead rx.samePolarityReadCount bit)
              rx.lastBitWrite rx.samePolarityWriteCount,
            Locals.mk pr fsmBusIdle cr none rd sd eu inf ib) := by
    simp only [stateBusIdle, Node.dequeue, hq, Node.readBit, Node.busRead, Prog.bind_eq,
      Prog.pure_eq, Prog.read_bind, Prog.done_bind, track, Node.withTrackers]
  unfold Node.frameStages
  rw [activateWhile_succ _ _ _ _ _ rfl]
  simp only [fsmStep, hbus, Prog.read_bind, stuffed_append, trackEnd_append,
    List.append_assoc]
  apply Listens.step
  rw [if_pos rfl, track_sof _ _ hrd, Prog.done_bind, activateWhile_succ _ _ _ _ _ rfl]
  simp only [fsmStep]
  refine Listens.listens_trans (stateArbitration_listens id _ _ _ _ _ _ _ rfl rfl) ?_
  rw [activateWhile_succ _ _ _ _ _ rfl]
  simp only [fsmStep]
  refine Listens.listens_trans (stateDLC_listens data.length hlen _ _ _ _ _ _ _ rfl rfl) ?_
  rw [activateWhile_succ _ _ _ _ _ rfl]
  simp only [fsmStep]
  refine Listens.listens_of_eq (stateData_listens data hb _ _ _ _ _ _ _ rfl rfl rfl) ?_
  simp [activateWhile]

/-- C1: one transmitter sends `NewDataFrame(id, data)` from BusIdle with nothing
else driving the bus; the wire is the sequence of bus states until it has left
Data.  The transmitter finishes in EOF, and a receiver that starts in BusIdle
and reads exactly that wire reads the 11 identifier bits of `id`, obtains
`receivedDLC = len(data)`, logs exactly the bytes of `data`, and ends in EOF
with no error recorded. -/
theorem frame_round_trip (id : Nat) (data : List Nat) (f : DataFrame)
    (hf : NewDataFrame id data = .ok f) (hb : ∀ b ∈ data, b < 256)
    (tx rx : Node) (ltx lrx : Locals) (q : List DataFrame)
    (htq : tx.queue = f :: q) (htst : tx.state ≠ StateBusOff)
    (htw : tx.samePolarityWriteCount = 0)
    (htr : tx.samePolarityReadCount = 0 ∨ tx.lastBitRead ≠ Dominant)
    (hts : ltx.currentState = fsmBusIdle)
    (hrq : rx.queue = [])
    (hrr : rx.samePolarityReadCount = 0 ∨ rx.lastBitRead ≠ Dominant)
    (hrs : lrx.currentState = fsmBusIdle) :
    ∃ ntx ltx2 nrx lrx2,
      (busRun 256 [tx.frameStages ltx]).2 = [Prog.done (ntx, ltx2)] ∧
      ltx2.currentState = fsmEOF ∧
      (rx.frameStages lrx).listen (busWire [tx.frameStages ltx]) = some ((nrx, lrx2), []) ∧
      lrx2.idBits = lrx.idBits ++ idBitsOf id ∧
      lrx2.receivedDLC = data.length ∧
      lrx2.info = lrx.info ++ [LogEvent.readDLC data.length, LogEvent.readData data] ∧
      lrx2.currentState = fsmEOF ∧ lrx2.errorUpdate = lrx.errorUpdate ∧
      nrx.rec_ = rx.rec_ := by
  obtain ⟨hfid, hfdata, hidlt, hdlc, hdlc8⟩ := NewDataFrame_ok id data f hf
  have hlen8 : f.data.length ≤ 8 := by omega
  have hrun := frameStages_solo tx ltx f q htq htst htw htr hts hdlc hlen8
  have hlen : (Dominant :: stuffed Dominant 1 (frameBits f)).length ≤ 256 := by
    have h1 := stuffed_length_le (frameBits f) Dominant 1
    have h2 : (frameBits f).length = 15 + 8 * f.data.length := by
      simp only [frameBits, List.length_append, idBitsOf_length, dlcBitsOf_length,
        dataBitsOf_length]
    simp only [List.length_cons]
    omega
  have hbus := Runs.busRun_eq hrun (by rfl) 256 hlen
  have hlis := frameStages_listens rx lrx id data hrq hrr hrs (by rw [← hfdata]; omega) hb
  have hbits : frameBits f = idBitsOf id ++ dlcBitsOf data.length ++ dataBitsOf data := by
    rw [frameBits, hdlc, hfid, hfdata]
  have hl := Listens.listen_eq hlis []
  rw [List.append_nil] at hl
  refine ⟨({ tx with queue := q } : Node).withTrackers
      (trackEnd Dominant 1 (frameBits f)).1 (trackEnd Dominant 1 (frameBits f)).2
      (trackEnd Dominant 1 (frameBits f)).1 (trackEnd Dominant 1 (frameBits f)).2,
    { ltx with currentFrame := some f, currentRole := roleTransmitter, sentDLC := f.dlc,
               idBits := ltx.idBits ++ idBitsOf f.id,
               info := ltx.info ++ [LogEvent.dataFrameDequeue f, LogEvent.wonArbitration,
                 LogEvent.sentDLC f.dlc, LogEvent.sentData q.length],
               currentState := fsmEOF },
    rx.withTrackers
      (trackEnd Dominant 1 (idBitsOf id ++ dlcBitsOf data.length ++ dataBitsOf data)).1
      (trackEnd Dominant 1 (idBitsOf id ++ dlcBitsOf data.length ++ dataBitsOf data)).2
      rx.lastBitWrite rx.samePolarityWriteCount,
    { lrx with currentFrame := none, currentRole := roleReceiver,
               receivedDLC := data.length,
               idBits := lrx.idBits ++ idBitsOf id,
               info := lrx.info ++ [LogEvent.readDLC data.length, LogEvent.readData data],
               currentState := fsmEOF },
    ?_, rfl, ?_, rfl, rfl, rfl, rfl, rfl, rfl⟩
  · rw [hbus]
  · rw [busWire, hbus, hbits]
    exact hl

/-- Witness of `frame_round_trip`: `id = 0x000`, `data = [0x00]`, fresh
nodes. -/
theorem frame_round_trip_witness :
    ∃ ntx ltx2 nrx lrx2,
      (busRun 256 [txNode00.frameStages Locals.init]).2 = [Prog.done (ntx, ltx2)] ∧
      ltx2.currentState = fsmEOF ∧
      (rxNode00.frameStages Locals.init).listen (busWire [txNode00.frameStages Locals.init])
        = some ((nrx, lrx2), []) ∧
      lrx2.idBits = Locals.init.idBits ++ idBitsOf 0 ∧
      lrx2.receivedDLC = [0].length ∧
      lrx2.info = Locals.init.info ++ [LogEvent.readDLC [0].length, LogEvent.readData [0]] ∧
      lrx2.currentState = fsmEOF ∧ lrx2.errorUpdate = Locals.init.errorUpdate ∧
      nrx.rec_ = rxNode00.rec_ :=
  frame_round_trip 0 [0] frame00 rfl (by decide) txNode00 rxNode00 Locals.init Locals.init []
    rfl (by decide) rfl (by decide) rfl rfl (by decide) rfl

/-! ## Two nodes on the bus -/

/-- One bit period of two goroutines that both write and then read. -/
theorem Runs.write_read_both {α : Type} (x y s : Nat) (ka kb : Nat → Prog α)
    (hs : Recessive &&& x &&& y = s) (w : List Nat) (ps2 : List (Prog α))
    (h : Runs [ka s, kb s] w ps2) :
    Runs [Prog.write x (Prog.read ka), Prog.write y (Prog.read kb)] (s :: w) ps2 := by
  refine Runs.step _ _ _ _ _ (by rfl) ?_ h
  simp [bitPeriod, writePhase, readPhase, hs]

theorem and_same (x : Nat) (hx : x < 2) : Recessive &&& x &&& x = x := by
  interval_cases x <;> rfl

theorem bitPeriod_single_length {α : Type} (p : Prog α) :
    ∃ p1, (bitPeriod [p]).2 = [p1] := by
  cases p <;> simp [bitPeriod, writePhase, readPhase]
  rename_i b k
  cases k <;> simp [readPhase]

theorem bitPeriod_with_listener {α : Type} (p : Prog α) (k : Nat → Prog α) :
    bitPeriod [p, Prog.read k] =
      ((bitPeriod [p]).1, (bitPeriod [p]).2 ++ [k (bitPeriod [p]).1]) := by
  cases p with
  | write b kp => cases kp <;> simp [bitPeriod, writePhase, readPhase]
  | done a => simp [bitPeriod, writePhase, readPhase]
  | read kp => simp [bitPeriod, writePhase, readPhase]
  | crash => simp [bitPeriod, writePhase, readPhase]
  | spin => simp [bitPeriod, writePhase, readPhase]

/-- A goroutine that only listens can be put next to a goroutine that runs
alone on the bus: it sees the same wire. -/
theorem Runs.with_listener {α : Type} {ps ps2 : List (Prog α)} {w : List Nat}
    (h : Runs ps w ps2) :
    ∀ (p p2 q q2 : Prog α), ps = [p] → ps2 = [p2] → Listens q w q2 →
      Runs [p, q] w [p2, q2] := by
  induction h with
  | refl ps =>
    intro p p2 q q2 h1 h2 hl
    cases hl
    rw [h1] at h2
    cases h2
    exact Runs.refl _
  | step ps psa psb s w hlive hp _ ih =>
    intro p p2 q q2 h1 h2 hl
    subst h1
    cases hl with
    | step k b w q2 hl2 =>
      obtain ⟨p1, hp1⟩ := bitPeriod_single_length p
      have hpa : psa = [p1] := by rw [← hp1, hp]
      have hs : (bitPeriod [p]).1 = s := by rw [hp]
      refine Runs.step _ [p1, k s] _ s _ (by simp [Prog.halted]) ?_ (ih p1 p2 (k s) q2 hpa h2 hl2)
      rw [bitPeriod_with_listener, hp1, hs]
      rfl

/-! ## The first identifier bit in which two identifiers differ -/

theorem shiftRight_and_one (x k : Nat) : (x >>> k) &&& 1 = (x.testBit k).toNat := by
  rw [Nat.and_one_is_mod, Nat.shiftRight_eq_div_pow, Nat.toNat_testBit]

theorem idBitsOf_get_testBit (id j : Nat) (hj : j < 11) :
    (idBitsOf id)[j]? = some (id.testBit (10 - j)).toNat := by
  rw [idBitsOf_get id j hj, shiftRight_and_one]

/-- For `a < b < 2^11` the identifiers agree on a most significant segment,
after which `a` has a Dominant bit and `b` a Recessive one. -/
theorem first_differing_bit (a b : Nat) (hab : a < b) (hb : b < 2 ^ 11) :
    ∃ i, i < 11 ∧ (∀ j, j < i → (idBitsOf a)[j]? = (idBitsOf b)[j]?) ∧
      (idBitsOf a)[i]? = some Dominant ∧ (idBitsOf b)[i]? = some Recessive := by
  have hne : a ^^^ b ≠ 0 := by
    intro h
    have := Nat.xor_eq_zero.mp h
    omega
  obtain ⟨k, hk, hkmax⟩ := Nat.exists_most_significant_bit hne
  have hdiff : a.testBit k ≠ b.testBit k := by
    intro h
    rw [Nat.testBit_xor, h] at hk
    simp at hk
  have hsame : ∀ j, k < j → a.testBit j = b.testBit j := by
    intro j hj
    have := hkmax j hj
    rw [Nat.testBit_xor] at this
    cases ha : a.testBit j <;> cases hb' : b.testBit j <;> simp_all
  have hak : a.testBit k = false ∧ b.testBit k = true := by
    cases ha : a.testBit k <;> cases hb' : b.testBit k
    · exact absurd (ha.trans hb'.symm) hdiff
    · exact ⟨rfl, rfl⟩
    · exfalso
      have := Nat.lt_of_testBit k hb' ha fun j hj => (hsame j hj).symm
      omega
    · exact absurd (ha.trans hb'.symm) hdiff
  have hk11 : k < 11 := by
    by_contra hge
    have h2 : b < 2 ^ k := lt_of_lt_of_le hb (Nat.pow_le_pow_right (by omega) (by omega))
    have := Nat.testBit_lt_two_pow h2
    rw [hak.2] at this
    exact Bool.noConfusion this
  refine ⟨10 - k, by omega, ?_, ?_, ?_⟩
  · intro j hj
    rw [idBitsOf_get_testBit a j (by omega), idBitsOf_get_testBit b j (by omega),
      hsame (10 - j) (by omega)]
  · rw [idBitsOf_get_testBit a _ (by omega)]
    have : 10 - (10 - k) = k := by omega
    rw [this, hak.1]
    rfl
  · rw [idBitsOf_get_testBit b _ (by omega)]
    have : 10 - (10 - k) = k := by omega
    rw [this, hak.2]
    rfl

/-! ## Two transmitters in arbitration -/

theorem arbitrationTxLoop_lockstep {β : Type} (fa fb : DataFrame)
    (Ka Kb : Nat × Node × Locals → Prog β) (na nb : Node)
    (hsa : na.state ≠ StateBusOff) (hsb : nb.state ≠ StateBusOff) :
    ∀ (common : List Nat) (fuel i last cnt : Nat) (la lb : Locals),
    la.currentFrame = some fa → lb.currentFrame = some fb →
    (∀ j, j < common.length → fa.Bit ((i + j : Nat) : Int) = common[j]?) →
    (∀ j, j < common.length → fb.Bit ((i + j : Nat) : Int) = common[j]?) →
    fa.Bit ((i + common.length : Nat) : Int) = some Dominant →
    fb.Bit ((i + common.length : Nat) : Int) = some Recessive →
    (∀ b ∈ common, b < 2) →
    i + common.length < 11 → 2 * (common.length + 1) ≤ fuel →
    ∃ fuel2 wl wc, fuel ≤ fuel2 + 2 * (common.length + 1) ∧
      Runs [Prog.bind (arbitrationTxLoop fuel i (na.withTrackers last cnt last cnt) la) Ka,
            Prog.bind (arbitrationTxLoop fuel i (nb.withTrackers last cnt last cnt) lb) Kb]
        (stuffed last cnt (common ++ [Dominant]))
        [Prog.bind (arbitrationTxLoop fuel2 (i + common.length + 1)
            (na.withTrackers (trackEnd last cnt (common ++ [Dominant])).1
              (trackEnd last cnt (common ++ [Dominant])).2
              (trackEnd last cnt (common ++ [Dominant])).1
              (trackEnd last cnt (common ++ [Dominant])).2)
            { la with idBits := la.idBits ++ (common ++ [Dominant]) }) Ka,
         Kb (i + common.length,
            nb.withTrackers (trackEnd last cnt (common ++ [Dominant])).1
              (trackEnd last cnt (common ++ [Dominant])).2 wl wc,
            { lb with idBits := lb.idBits ++ (common ++ [Dominant]),
                      info := lb.info ++ [LogEvent.lostArbitration (i + common.length)],
                      currentRole := roleReceiver })] := by
  intro common
  induction common with
  | nil =>
    intro fuel i last cnt la lb hfa hfb _ _ hba hbb _ hi hfuel
    simp only [List.length_nil, Nat.add_zero] at hba hbb hi hfuel ⊢
    have hi11 : i < 11 := hi
    by_cases h5 : cnt = 5
    · subst h5
      obtain ⟨fuel, rfl⟩ : ∃ k, fuel = k + 2 := ⟨fuel - 2, by omega⟩
      refine ⟨fuel, Recessive, track (stuffBit last) 1 Recessive, by omega, ?_⟩
      simp only [List.nil_append, stuffed, trackEnd, if_true]
      simp only [arbitrationTxLoop, hi11, if_true, Node.maybeWriteStuff_tracked _ _ _ _ _ hsa,
        Node.maybeWriteStuff_tracked _ _ _ _ _ hsb,
        Node.maybeReadStuff_tracked, Node.writeBit_tracked _ _ _ _ _ _ hsa,
        Node.writeBit_tracked _ _ _ _ _ _ hsb, Node.readBit_tracked,
        Prog.bind_eq, Prog.pure_eq, Prog.write_bind, Prog.read_bind, Prog.done_bind,
        track_stuff, hfa, hfb, Option.some_bind, hba, hbb,
        (by decide : ((1 : Nat) = 5) = False), if_false,
        Bool.false_eq_true, Bool.not_eq_true', decide_eq_false_iff_not, ne_eq, not_not]
      have hne : (stuffBit last = last) = False := eq_false fun h => stuffBit_ne last h.symm
      apply Runs.write_read_both _ _ _ _ _ (and_same _ (stuffBit_lt last))
      simp only [hne, if_false, Option.some_bind, hba, hbb, Prog.write_bind, Prog.read_bind]
      apply Runs.write_read_both _ _ Dominant _ _ (by decide)
      simp only [not_true_eq_false, if_false, track_stuff,
        (by decide : (Dominant = Recessive) = False), not_false_eq_true, if_true,
        Prog.done_bind]
      exact Runs.refl _
    · obtain ⟨fuel, rfl⟩ : ∃ k, fuel = k + 1 := ⟨fuel - 1, by omega⟩
      refine ⟨fuel, Recessive, track last cnt Recessive, by omega, ?_⟩
      simp only [List.nil_append, stuffed, trackEnd, h5, if_false]
      simp only [arbitrationTxLoop, hi11, if_true, Node.maybeWriteStuff_tracked _ _ _ _ _ hsa,
        Node.maybeWriteStuff_tracked _ _ _ _ _ hsb,
        Node.maybeReadStuff_tracked, Node.writeBit_tracked _ _ _ _ _ _ hsa,
        Node.writeBit_tracked _ _ _ _ _ _ hsb, Node.readBit_tracked,
        Prog.bind_eq, Prog.pure_eq, Prog.write_bind, Prog.read_bind, Prog.done_bind,
        hfa, hfb, Option.some_bind, hba, hbb, h5, if_false,
        Bool.false_eq_true, Bool.not_eq_true', decide_eq_false_iff_not, ne_eq, not_not]
      apply Runs.write_read_both _ _ Dominant _ _ (by decide)
      simp only [not_true_eq_false, if_false,
        (by decide : (Dominant = Recessive) = False), not_false_eq_true, if_true,
        Prog.done_bind]
      exact Runs.refl _
  | cons c cs ih =>
    intro fuel i last cnt la lb hfa hfb hca hcb hba hbb hlt hi hfuel
    simp only [List.length_cons] at hba hbb hi hfuel
    have hi11 : i < 11 := by omega
    have hc2 : c < 2 := hlt c (by simp)
    have ha0 : fa.Bit ((i : Nat) : Int) = some c := by simpa using hca 0 (by simp)
    have hb0 : fb.Bit ((i : Nat) : Int) = some c := by simpa using hcb 0 (by simp)
    have hca' : ∀ j, j < cs.length → fa.Bit (((i + 1) + j : Nat) : Int) = cs[j]? := by
      intro j hj
      have := hca (j + 1) (by simpa using hj)
      simpa [Nat.add_assoc, Nat.add_comm 1 j] using this
    have hcb' : ∀ j, j < cs.length → fb.Bit (((i + 1) + j : Nat) : Int) = cs[j]? := by
      intro j hj
      have := hcb (j + 1) (by simpa using hj)
      simpa [Nat.add_assoc, Nat.add_comm 1 j] using this
    have hidx : i + 1 + cs.length = i + (cs.length + 1) := by omega
    have hba' : fa.Bit (((i + 1) + cs.length : Nat) : Int) = some Dominant := by
      rw [hidx]; exact hba
    have hbb' : fb.Bit (((i + 1) + cs.length : Nat) : Int) = some Recessive := by
      rw [hidx]; exact hbb
    have hlt' : ∀ b ∈ cs, b < 2 := fun x hx => hlt x (by simp [hx])
    have happa : ∀ xs : List Nat,
        xs ++ c :: (cs ++ [Dominant]) = xs ++ [c] ++ (cs ++ [Dominant]) := by
      intro xs; simp
    by_cases h5 : cnt = 5
    · subst h5
      obtain ⟨fuel, rfl⟩ : ∃ k, fuel = k + 2 := ⟨fuel - 2, by omega⟩
      obtain ⟨fuel2, wl, wc, hf2, hrec⟩ := ih fuel (i + 1) c (track (stuffBit last) 1 c)
        { la with idBits := la.idBits ++ [c] } { lb with idBits := lb.idBits ++ [c] }
        hfa hfb hca' hcb' hba' hbb' hlt' (by omega) (by omega)
      refine ⟨fuel2, wl, wc, by simp only [List.length_cons]; omega, ?_⟩
      simp only [List.cons_append, stuffed, trackEnd, if_true, List.length_cons]
      simp only [arbitrationTxLoop, hi11, if_true, Node.maybeWriteStuff_tracked _ _ _ _ _ hsa,
        Node.maybeWriteStuff_tracked _ _ _ _ _ hsb,
        Node.maybeReadStuff_tracked, Node.writeBit_tracked _ _ _ _ _ _ hsa,
        Node.writeBit_tracked _ _ _ _ _ _ hsb, Node.readBit_tracked,
        Prog.bind_eq, Prog.pure_eq, Prog.write_bind, Prog.read_bind, Prog.done_bind,
        track_stuff, hfa, hfb, Option.some_bind, ha0, hb0,
        (by decide : ((1 : Nat) = 5) = False), if_false,
        Bool.false_eq_true, Bool.not_eq_true', decide_eq_false_iff_not, ne_eq, not_not]
      have hne : (stuffBit last = last) = False := eq_false fun h => stuffBit_ne last h.symm
      apply Runs.write_read_both _ _ _ _ _ (and_same _ (stuffBit_lt last))
      simp only [hne, if_false, Option.some_bind, ha0, hb0, Prog.write_bind, Prog.read_bind]
      apply Runs.write_read_both _ _ _ _ _ (and_same _ hc2)
      simp only [not_true_eq_false, if_false, track_stuff]
      rw [← hidx]
      simp only [hfa, hfb, List.append_eq, happa] at hrec ⊢
      exact hrec
    · obtain ⟨fuel, rfl⟩ : ∃ k, fuel = k + 1 := ⟨fuel - 1, by omega⟩
      obtain ⟨fuel2, wl, wc, hf2, hrec⟩ := ih fuel (i + 1) c (track last cnt c)
        { la with idBits := la.idBits ++ [c] } { lb with idBits := lb.idBits ++ [c] }
        hfa hfb hca' hcb' hba' hbb' hlt' (by omega) (by omega)
      refine ⟨fuel2, wl, wc, by simp only [List.length_cons]; omega, ?_⟩
      simp only [List.cons_append, stuffed, trackEnd, h5, if_false, List.length_cons]
      simp only [arbitrationTxLoop, hi11, if_true, Node.maybeWriteStuff_tracked _ _ _ _ _ hsa,
        Node.maybeWriteStuff_tracked _ _ _ _ _ hsb,
        Node.maybeReadStuff_tracked, Node.writeBit_tracked _ _ _ _ _ _ hsa,
        Node.writeBit_tracked _ _ _ _ _ _ hsb, Node.readBit_tracked,
        Prog.bind_eq, Prog.pure_eq, Prog.write_bind, Prog.read_bind, Prog.done_bind,
        hfa, hfb, Option.some_bind, ha0, hb0, h5, if_false,
        Bool.false_eq_true, Bool.not_eq_true', decide_eq_false_iff_not, ne_eq, not_not]
      apply Runs.write_read_both _ _ _ _ _ (and_same _ hc2)
      simp only [not_true_eq_false, if_false]
      rw [← hidx]
      simp only [hfa, hfb, List.append_eq, happa] at hrec ⊢
      exact hrec

theorem stateArbitration_pair {β : Type} (fa fb : DataFrame)
    (Ka Kb : Node × Locals → Prog β) (na nb : Node)
    (hsa : na.state ≠ StateBusOff) (hsb : nb.state ≠ StateBusOff)
    (la lb : Locals) (last cnt : Nat) (common rest : List Nat)
    (hfa : la.currentFrame = some fa) (hfb : lb.currentFrame = some fb)
    (hra : la.currentRole = roleTransmitter) (hrb : lb.currentRole = roleTransmitter)
    (hca : la.currentState = fsmArbitration) (hcb : lb.currentState = fsmArbitration)
    (hdec : idBitsOf fa.id = common ++ [Dominant] ++ rest)
    (hbc : ∀ j, j < common.length → fb.Bit ((0 + j : Nat) : Int) = common[j]?)
    (hbl : fb.Bit ((0 + common.length : Nat) : Int) = some Recessive) :
    ∃ wl wc,
      Runs [Prog.bind (stateArbitration (na.withTrackers last cnt last cnt) la) Ka,
            Prog.bind (stateArbitration (nb.withTrackers last cnt last cnt) lb) Kb]
        (stuffed last cnt (idBitsOf fa.id))
        [Ka (na.withTrackers (trackEnd last cnt (idBitsOf fa.id)).1
              (trackEnd last cnt (idBitsOf fa.id)).2 (trackEnd last cnt (idBitsOf fa.id)).1
              (trackEnd last cnt (idBitsOf fa.id)).2,
            { la with idBits := la.idBits ++ idBitsOf fa.id,
                      info := la.info ++ [LogEvent.wonArbitration],
                      currentState := fsmDLC }),
         Kb (nb.withTrackers (trackEnd last cnt (idBitsOf fa.id)).1
              (trackEnd last cnt (idBitsOf fa.id)).2 wl wc,
            { lb with idBits := lb.idBits ++ idBitsOf fa.id,
                      info := lb.info ++ [LogEvent.lostArbitration common.length],
                      currentRole := roleReceiver,
                      currentState := fsmDLC })] := by
  obtain ⟨pra, csa, cra, cfa, rda, sda, eua, infa, iba⟩ := la
  obtain ⟨prb, csb, crb, cfb, rdb, sdb, eub, infb, ibb⟩ := lb
  simp only at hfa hfb hra hrb hca hcb
  subst hfa hfb hra hrb hca hcb
  have hlen : common.length + 1 + rest.length = 11 := by
    have := congrArg List.length hdec
    simp only [idBitsOf_length, List.length_append, List.length_singleton] at this
    omega
  have hbits : ∀ b ∈ idBitsOf fa.id, b < 2 := idBitsOf_lt _
  have hlt : ∀ b ∈ common, b < 2 := fun x hx => hbits x (by rw [hdec]; simp [hx])
  have hltr : ∀ b ∈ rest, b < 2 := fun x hx => hbits x (by rw [hdec]; simp [hx])
  have hac : ∀ j, j < common.length → fa.Bit ((0 + j : Nat) : Int) = common[j]? := by
    intro j hj
    rw [Bit_id fa j (by omega), hdec, List.append_assoc,
      List.getElem?_append_left hj]
  have hal : fa.Bit ((0 + common.length : Nat) : Int) = some Dominant := by
    rw [Bit_id fa _ (by omega), hdec, List.append_assoc,
      List.getElem?_append_right (Nat.le_refl _)]
    simp
  have har : ∀ j, j < rest.length →
      fa.Bit ((0 + common.length + 1 + j : Nat) : Int) = rest[j]? := by
    intro j hj
    have e : 0 + common.length + 1 + j = 0 + (common.length + 1 + j) := by omega
    rw [e, Bit_id fa _ (by omega), hdec,
      List.getElem?_append_right (by simp)]
    simp
  simp only [stateArbitration, Prog.bind_eq, Prog.pure_eq, Prog.bind_assoc]
  obtain ⟨fuel2, wl, wc, hf2, hlock⟩ := arbitrationTxLoop_lockstep fa fb _ _ na nb hsa hsb
    common 23 0 last cnt
    (Locals.mk pra fsmArbitration roleTransmitter (some fa) rda sda eua infa iba)
    (Locals.mk prb fsmArbitration roleTransmitter (some fb) rdb sdb eub infb ibb)
    rfl rfl hac hbc hal hbl hlt (by omega) (by omega)
  refine ⟨wl, wc, ?_⟩
  rw [hdec, stuffed_append]
  refine Runs.runs_trans hlock ?_
  have hne11 : ¬ (0 + common.length = 11) := by omega
  have h11 : 11 - (0 + common.length + 1) = rest.length := by omega
  simp only [ne_eq, reduceCtorEq, not_false_eq_true, if_true, hne11, if_false, h11,
    Prog.bind_assoc]
  refine Runs.runs_of_eq (Runs.with_listener
    (arbitrationTxLoop_solo fa _ na hsa rest fuel2 _ _ _ _ rfl har hltr (by omega) (by omega))
    _ _ _ _ rfl rfl (arbitrationRxLoop_listens _ nb wl wc rest _ _ _)) ?_
  have h12 : 11 - (11 + 1) = 0 := rfl
  rw [trackEnd_append (common ++ [Dominant]) rest]
  simp [arbitrationRxLoop, h12]

theorem stateBusIdle_tx (n : Node) (f : DataFrame) (q : List DataFrame) (l : Locals)
    (hq : n.queue = f :: q) (hst : n.state ≠ StateBusOff)
    (hw : n.samePolarityWriteCount = 0) :
    stateBusIdle n l =
      Prog.write Dominant (Prog.read fun bit => Prog.done
        (({ n with queue := q } : Node).withTrackers bit
            (track n.lastBitRead n.samePolarityReadCount bit) Dominant 1,
         { l with currentFrame := some f,
                  info := l.info ++ [LogEvent.dataFrameDequeue f],
                  currentRole := roleTransmitter,
                  currentState := fsmArbitration })) := by
  simp [stateBusIdle, Node.dequeue, hq, Node.writeBit, Node.busWrite, Node.readBit,
    Node.busRead, hst, hw, track, Node.withTrackers]

theorem activateLoop_succ (fuel k : Nat) (n : Node) (l : Locals) :
    activateLoop fuel (k + 1) n l =
      Prog.bind (fsmStep fuel n l) fun r => activateLoop fuel k r.1 r.2 := rfl

/-- C2: two nodes dequeue frames with identifiers `a < b < 2^11` in the same
bit period and both transmit from SOF.  When both have left Arbitration, the
node with identifier `a` is still Transmitter, has logged that it won and has
read back exactly the identifier bits it sent; the node with identifier `b`
has logged that it lost at index `i`, the first index at which `a` has a
Dominant and `b` a Recessive bit, is Receiver, and every identifier bit it
read (in particular those of positions `i+1..10`) is the bit of `a`. -/
theorem arbitration_lowest_id_wins (a b : Nat) (hab : a < b) (hb : b < 2 ^ 11)
    (fa fb : DataFrame) (hia : fa.id = a) (hib : fb.id = b)
    (na nb : Node) (la lb : Locals) (qa qb : List DataFrame)
    (hqa : na.queue = fa :: qa) (hqb : nb.queue = fb :: qb)
    (hsa : na.state ≠ StateBusOff) (hsb : nb.state ≠ StateBusOff)
    (hwa : na.samePolarityWriteCount = 0) (hwb : nb.samePolarityWriteCount = 0)
    (hra : na.samePolarityReadCount = 0 ∨ na.lastBitRead ≠ Dominant)
    (hrb : nb.samePolarityReadCount = 0 ∨ nb.lastBitRead ≠ Dominant)
    (hla : la.currentState = fsmBusIdle) (hlb : lb.currentState = fsmBusIdle) :
    ∃ i na2 la2 nb2 lb2,
      i < 11 ∧ (idBitsOf a)[i]? = some Dominant ∧ (idBitsOf b)[i]? = some Recessive ∧
      (∀ j, j < i → ¬ ((idBitsOf a)[j]? = some Dominant ∧ (idBitsOf b)[j]? = some Recessive)) ∧
      (busRun 64 [na.contend la, nb.contend lb]).2
        = [Prog.done (na2, la2), Prog.done (nb2, lb2)] ∧
      la2.currentRole = roleTransmitter ∧ la2.currentState = fsmDLC ∧
      la2.info = la.info ++ [LogEvent.dataFrameDequeue fa, LogEvent.wonArbitration] ∧
      la2.idBits = la.idBits ++ idBitsOf a ∧
      lb2.currentRole = roleReceiver ∧ lb2.currentState = fsmDLC ∧
      lb2.info = lb.info ++ [LogEvent.dataFrameDequeue fb, LogEvent.lostArbitration i] ∧
      lb2.idBits = lb.idBits ++ idBitsOf a := by
  obtain ⟨i, hi, hsame, hai, hbi⟩ := first_differing_bit a b hab hb
  subst hia hib
  have hlenA : (idBitsOf fa.id).length = 11 := idBitsOf_length _
  have hiA : i < (idBitsOf fa.id).length := by omega
  have hgetA : (idBitsOf fa.id)[i] = Dominant := by
    have := List.getElem?_eq_getElem hiA
    rw [hai] at this
    exact (Option.some.inj this).symm
  have hdec : idBitsOf fa.id
      = (idBitsOf fa.id).take i ++ [Dominant] ++ (idBitsOf fa.id).drop (i + 1) := by
    have h1 := (List.take_append_drop i (idBitsOf fa.id)).symm
    rw [List.drop_eq_getElem_cons hiA, hgetA] at h1
    simpa using h1
  have hclen : ((idBitsOf fa.id).take i).length = i := by
    rw [List.length_take]; omega
  have hbc : ∀ j, j < ((idBitsOf fa.id).take i).length →
      fb.Bit ((0 + j : Nat) : Int) = ((idBitsOf fa.id).take i)[j]? := by
    intro j hj
    rw [hclen] at hj
    rw [Bit_id fb j (by omega), ← hsame j hj, List.getElem?_take_of_lt hj]
  have hbl : fb.Bit ((0 + ((idBitsOf fa.id).take i).length : Nat) : Int) = some Recessive := by
    rw [hclen, Bit_id fb i hi, hbi]
  obtain ⟨pra, csa, cra, cfa, rda, sda, eua, infa, iba⟩ := la
  obtain ⟨prb, csb, crb, cfb, rdb, sdb, eub, infb, ibb⟩ := lb
  simp only at hla hlb
  subst hla hlb
  have hsa2 : ({ na with queue := qa } : Node).state ≠ StateBusOff := hsa
  have hsb2 : ({ nb with queue := qb } : Node).state ≠ StateBusOff := hsb
  obtain ⟨wl, wc, hpair⟩ := stateArbitration_pair fa fb
    (fun r => activateLoop 0 0 r.1 r.2) (fun r => activateLoop 0 0 r.1 r.2)
    { na with queue := qa } { nb with queue := qb } hsa2 hsb2
    (Locals.mk pra fsmArbitration roleTransmitter (some fa) rda sda eua
      (infa ++ [LogEvent.dataFrameDequeue fa]) iba)
    (Locals.mk prb fsmArbitration roleTransmitter (some fb) rdb sdb eub
      (infb ++ [LogEvent.dataFrameDequeue fb]) ibb)
    Dominant 1 _ _ rfl rfl rfl rfl rfl rfl hdec hbc hbl
  have hrun : Runs
      [na.contend (Locals.mk pra fsmBusIdle cra cfa rda sda eua infa iba),
       nb.contend (Locals.mk prb fsmBusIdle crb cfb rdb sdb eub infb ibb)]
      (Dominant :: stuffed Dominant 1 (idBitsOf fa.id))
      [Prog.done (({ na with queue := qa } : Node).withTrackers
          (trackEnd Dominant 1 (idBitsOf fa.id)).1 (trackEnd Dominant 1 (idBitsOf fa.id)).2
          (trackEnd Dominant 1 (idBitsOf fa.id)).1 (trackEnd Dominant 1 (idBitsOf fa.id)).2,
          Locals.mk pra fsmDLC roleTransmitter (some fa) rda sda eua
            (infa ++ [LogEvent.dataFrameDequeue fa] ++ [LogEvent.wonArbitration])
            (iba ++ idBitsOf fa.id)),
       Prog.done (({ nb with queue := qb } : Node).withTrackers
          (trackEnd Dominant 1 (idBitsOf fa.id)).1 (trackEnd Dominant 1 (idBitsOf fa.id)).2
          wl wc,
          Locals.mk prb fsmDLC roleReceiver (some fb) rdb sdb eub
            (infb ++ [LogEvent.dataFrameDequeue fb] ++
              [LogEvent.lostArbitration ((idBitsOf fa.id).take i).length])
            (ibb ++ idBitsOf fa.id))] := by
    unfold Node.contend
    rw [activateLoop_succ, activateLoop_succ]
    simp only [fsmStep, stateBusIdle_tx na fa qa _ hqa hsa hwa,
      stateBusIdle_tx nb fb qb _ hqb hsb hwb, Prog.write_bind, Prog.read_bind, Prog.done_bind]
    apply Runs.write_read_both _ _ Dominant _ _ (by decide)
    rw [track_sof _ _ hra, track_sof _ _ hrb, activateLoop_succ, activateLoop_succ]
    simp only [fsmStep]
    exact Runs.runs_of_eq hpair rfl
  have hlen : (Dominant :: stuffed Dominant 1 (idBitsOf fa.id)).length ≤ 64 := by
    have h1 := stuffed_length_le (idBitsOf fa.id) Dominant 1
    simp only [List.length_cons]
    omega
  have hbus := Runs.busRun_eq hrun (by rfl) 64 hlen
  rw [hclen] at hbus
  refine ⟨i,
    ({ na with queue := qa } : Node).withTrackers
      (trackEnd Dominant 1 (idBitsOf fa.id)).1 (trackEnd Dominant 1 (idBitsOf fa.id)).2
      (trackEnd Dominant 1 (idBitsOf fa.id)).1 (trackEnd Dominant 1 (idBitsOf fa.id)).2,
    Locals.mk pra fsmDLC roleTransmitter (some fa) rda sda eua
      (infa ++ [LogEvent.dataFrameDequeue fa] ++ [LogEvent.wonArbitration])
      (iba ++ idBitsOf fa.id),
    ({ nb with queue := qb } : Node).withTrackers
      (trackEnd Dominant 1 (idBitsOf fa.id)).1 (trackEnd Dominant 1 (idBitsOf fa.id)).2
      wl wc,
    Locals.mk prb fsmDLC roleReceiver (some fb) rdb sdb eub
      (infb ++ [LogEvent.dataFrameDequeue fb] ++ [LogEvent.lostArbitration i])
      (ibb ++ idBitsOf fa.id),
    hi, hai, hbi, ?_, ?_, rfl, rfl, ?_, rfl, rfl, rfl, ?_, rfl⟩
  · intro j hj hcon
    rw [hsame j hj, hcon.2] at hcon
    exact absurd (Option.some.inj hcon.1) (by decide)
  · rw [hbus]
  · simp
  · simp

/-- Witness of `arbitration_lowest_id_wins`: identifiers `0x123` and `0x124`,
fresh nodes. -/
theorem arbitration_lowest_id_wins_witness :
    ∃ i na2 la2 nb2 lb2,
      i < 11 ∧ (idBitsOf 0x123)[i]? = some Dominant ∧
      (idBitsOf 0x124)[i]? = some Recessive ∧
      (∀ j, j < i →
        ¬ ((idBitsOf 0x123)[j]? = some Dominant ∧ (idBitsOf 0x124)[j]? = some Recessive)) ∧
      (busRun 64 [nodeA.contend Locals.init, nodeB.contend Locals.init]).2
        = [Prog.done (na2, la2), Prog.done (nb2, lb2)] ∧
      la2.currentRole = roleTransmitter ∧ la2.currentState = fsmDLC ∧
      la2.info = Locals.init.info ++
        [LogEvent.dataFrameDequeue frameA, LogEvent.wonArbitration] ∧
      la2.idBits = Locals.init.idBits ++ idBitsOf 0x123 ∧
      lb2.currentRole = roleReceiver ∧ lb2.currentState = fsmDLC ∧
      lb2.info = Locals.init.info ++
        [LogEvent.dataFrameDequeue frameB, LogEvent.lostArbitration i] ∧
      lb2.idBits = Locals.init.idBits ++ idBitsOf 0x123 :=
  arbitration_lowest_id_wins 0x123 0x124 (by decide) (by decide) frameA frameB rfl rfl
    nodeA nodeB Locals.init Locals.init [] [] rfl rfl (by decide) (by decide) rfl rfl
    (by decide) (by decide) rfl rfl

/-! ## Bit addressing -/

theorem msbFirst_append_singleton (bs : List Nat) (b : Nat) :
    msbFirst (bs ++ [b]) = 2 * msbFirst bs + b := by
  simp [msbFirst, List.foldl_append]

/-- Reading the `k` low bits of `n`, most significant first, gives `n mod 2^k`. -/
theorem msbFirst_bits (k : Nat) : ∀ n : Nat,
    msbFirst ((List.range k).map fun i => (n >>> (k - 1 - i)) &&& 1) = n % 2 ^ k := by
  induction k with
  | zero => intro n; simp [msbFirst, Nat.mod_one]
  | succ k ih =>
    intro n
    rw [List.range_succ, List.map_append, List.map_singleton, msbFirst_append_singleton]
    have hmap : ((List.range k).map fun i => (n >>> (k + 1 - 1 - i)) &&& 1)
        = (List.range k).map fun i => ((n / 2) >>> (k - 1 - i)) &&& 1 := by
      apply List.map_congr_left
      intro i hi
      have hik : i < k := List.mem_range.mp hi
      have : k + 1 - 1 - i = (k - 1 - i) + 1 := by omega
      rw [this, Nat.shiftRight_eq_div_pow, Nat.shiftRight_eq_div_pow, Nat.pow_succ,
        Nat.mul_comm, Nat.div_div_eq_div_mul]
    rw [hmap, ih (n / 2)]
    have h0 : k + 1 - 1 - k = 0 := by omega
    rw [h0, Nat.shiftRight_zero, Nat.and_one_is_mod, Nat.pow_succ]
    rw [Nat.mul_comm (2 ^ k) 2, Nat.mod_mul]
    omega

theorem DataFrame.field_eq_map (f : DataFrame) (start len : Nat) (g : Nat → Nat)
    (h : ∀ j, j < len → f.Bit ((start + j : Nat) : Int) = some (g j)) :
    f.field start len = (List.range len).map g := by
  unfold DataFrame.field
  rw [← List.filterMap_eq_map]
  apply List.filterMap_congr
  intro j hj
  exact h j (List.mem_range.mp hj)

/-- C11: for a frame built by `NewDataFrame(id, data)`, `Size() = 15 + 8·len(data)`;
`Bit(i)` is bit `10 − i` of the identifier for `i < 11`, bit `14 − i` of the
DLC for `11 ≤ i < 15`, and bit `7 − ((i − 15) mod 8)` of `data[(i − 15) / 8]`
for `15 ≤ i < Size()`; read most significant bit first, the three fields give
back the identifier, the DLC and every data byte. -/
theorem Bit_addressing (id : Nat) (data : List Nat) (f : DataFrame)
    (hf : NewDataFrame id data = .ok f) (hb : ∀ b ∈ data, b < 256) :
    f.Size = 15 + 8 * (data.length : Int) ∧
    (∀ i : Nat, i < 11 → f.Bit (i : Int) = some (id.testBit (10 - i)).toNat) ∧
    (∀ i : Nat, 11 ≤ i → i < 15 →
      f.Bit (i : Int) = some (f.dlc.testBit (14 - i)).toNat) ∧
    (∀ i : Nat, 15 ≤ i → (i : Int) < f.Size →
      ∃ b, data[(i - 15) / 8]? = some b ∧
        f.Bit (i : Int) = some (b.testBit (7 - (i - 15) % 8)).toNat) ∧
    msbFirst (f.field 0 11) = id ∧
    msbFirst (f.field 11 4) = f.dlc ∧ f.dlc = data.length ∧
    (∀ k b, data[k]? = some b → msbFirst (f.field (15 + 8 * k) 8) = b) := by
  obtain ⟨hfid, hfdata, hidlt, hdlc, hdlc8⟩ := NewDataFrame_ok id data f hf
  have hlen8 : f.data.length ≤ 8 := by omega
  have hsize : f.Size = 15 + 8 * (data.length : Int) := by
    unfold DataFrame.Size
    rw [hdlc, hfdata] at *
    have : 8 * data.length % 256 = 8 * data.length := Nat.mod_eq_of_lt (by omega)
    rw [this]
    push_cast
    ring
  have hI : ∀ j : Nat, j < 11 → f.Bit ((0 + j : Nat) : Int) = some ((id >>> (10 - j)) &&& 1) := by
    intro j hj
    rw [Bit_id f j hj, idBitsOf_get _ _ hj, hfid]
  have hD : ∀ j : Nat, j < 4 →
      f.Bit ((11 + j : Nat) : Int) = some ((f.dlc >>> (3 - j)) &&& 1) := by
    intro j hj
    rw [Bit_dlc f j hj, dlcBitsOf_get _ _ hj]
  have hB : ∀ k b, data[k]? = some b → ∀ r, r < 8 →
      f.Bit ((15 + 8 * k + r : Nat) : Int) = some ((b >>> (7 - r)) &&& 1) := by
    intro k b hkb r hr
    have hk : k < f.data.length := by
      rw [hfdata]
      by_contra hcon
      rw [List.getElem?_eq_none (by omega)] at hkb
      cases hkb
    have := Bit_data_aux f k r hk hdlc hlen8 hr
    rw [Nat.add_assoc, this, hfdata, List.get?_eq_getElem?, hkb]
    rfl
  refine ⟨hsize, ?_, ?_, ?_, ?_, ?_, by rw [hdlc, hfdata], ?_⟩
  · intro i hi
    have := hI i hi
    rw [Nat.zero_add] at this
    rw [this, shiftRight_and_one]
  · intro i h1 h2
    obtain ⟨j, rfl⟩ : ∃ j, i = 11 + j := ⟨i - 11, by omega⟩
    rw [hD j (by omega), shiftRight_and_one]
    have : 14 - (11 + j) = 3 - j := by omega
    rw [this]
  · intro i h1 h2
    rw [hsize] at h2
    have hk : (i - 15) / 8 < data.length := by omega
    refine ⟨data[(i - 15) / 8], List.getElem?_eq_getElem hk, ?_⟩
    have := hB ((i - 15) / 8) _ (List.getElem?_eq_getElem hk) ((i - 15) % 8) (by omega)
    have hi : 15 + 8 * ((i - 15) / 8) + (i - 15) % 8 = i := by omega
    rw [hi] at this
    rw [this, shiftRight_and_one]
  · rw [f.field_eq_map 0 11 _ hI]
    have := msbFirst_bits 11 id
    simp only [Nat.add_one_sub_one] at this
    rw [this]
    exact Nat.mod_eq_of_lt (hfid ▸ hidlt)
  · rw [f.field_eq_map 11 4 _ hD]
    have := msbFirst_bits 4 f.dlc
    simp only [Nat.add_one_sub_one] at this
    rw [this]
    exact Nat.mod_eq_of_lt (by omega)
  · intro k b hkb
    rw [f.field_eq_map (15 + 8 * k) 8 _ (hB k b hkb)]
    have := msbFirst_bits 8 b
    simp only [Nat.add_one_sub_one] at this
    rw [this]
    exact Nat.mod_eq_of_lt (hb b (List.getElem?_mem hkb))

/-- Witness of `Bit_addressing`: the frame `NewDataFrame(0x7FF, [0xFF])`. -/
theorem Bit_addressing_witness :
    frameOnes.Size = 15 + 8 * (([0xFF] : List Nat).length : Int) ∧
    (∀ i : Nat, i < 11 → frameOnes.Bit (i : Int) = some (Nat.testBit 0x7FF (10 - i)).toNat) ∧
    (∀ i : Nat, 11 ≤ i → i < 15 →
      frameOnes.Bit (i : Int) = some (frameOnes.dlc.testBit (14 - i)).toNat) ∧
    (∀ i : Nat, 15 ≤ i → (i : Int) < frameOnes.Size →
      ∃ b, ([0xFF] : List Nat)[(i - 15) / 8]? = some b ∧
        frameOnes.Bit (i : Int) = some (b.testBit (7 - (i - 15) % 8)).toNat) ∧
    msbFirst (frameOnes.field 0 11) = 0x7FF ∧
    msbFirst (frameOnes.field 11 4) = frameOnes.dlc ∧
    frameOnes.dlc = ([0xFF] : List Nat).length ∧
    (∀ k b, ([0xFF] : List Nat)[k]? = some b →
      msbFirst (frameOnes.field (15 + 8 * k) 8) = b) :=
  Bit_addressing 0x7FF [0xFF] frameOnes rfl (by decide)

/-! ## Bit indices outside the frame -/

/-- C12 (the code on out-of-range indices): for a frame built by
`NewDataFrame`, `Bit(i)` panics for every `i ≥ Size()`; for a negative index
it does not panic but returns Dominant (stated for `i ≥ −2^63 + 11`, where the
shift count `10 − i` is still an `int`). -/
theorem Bit_negative_index_returns (id : Nat) (data : List Nat) (f : DataFrame)
    (hf : NewDataFrame id data = .ok f) :
    (∀ i : Int, f.Size ≤ i → f.Bit i = none) ∧
    (∀ i : Int, -(2 ^ 63) + 11 ≤ i → i < 0 → f.Bit i = some Dominant) := by
  obtain ⟨hfid, hfdata, hidlt, hdlc, hdlc8⟩ := NewDataFrame_ok id data f hf
  refine ⟨?_, ?_⟩
  · intro i hi
    unfold DataFrame.Size at hi
    have hm : 8 * f.dlc % 256 = 8 * f.dlc := Nat.mod_eq_of_lt (by omega)
    rw [hm] at hi
    unfold DataFrame.Bit
    rw [if_neg (by omega), if_neg (by omega)]
    by_cases h23 : i < 23
    · rw [if_pos h23, if_pos (by omega)]
    rw [if_neg h23]
    by_cases h31 : i < 31
    · rw [if_pos h31, if_pos (by omega)]
    rw [if_neg h31]
    by_cases h39 : i < 39
    · rw [if_pos h39, if_pos (by omega)]
    rw [if_neg h39]
    by_cases h47 : i < 47
    · rw [if_pos h47, if_pos (by omega)]
    rw [if_neg h47]
    by_cases h55 : i < 55
    · rw [if_pos h55, if_pos (by omega)]
    rw [if_neg h55]
    by_cases h63 : i < 63
    · rw [if_pos h63, if_pos (by omega)]
    rw [if_neg h63]
    by_cases h71 : i < 71
    · rw [if_pos h71, if_pos (by omega)]
    rw [if_neg h71]
    by_cases h79 : i < 79
    · rw [if_pos h79, if_pos (by omega)]
    rw [if_neg h79]
  · intro i hlo hi
    clear hlo
    have h11 : i < 11 := by omega
    simp only [DataFrame.Bit, h11, if_true]
    obtain ⟨k, hk⟩ : ∃ k : Nat, (10 - i).toNat = 11 + k := ⟨(10 - i).toNat - 11, by omega⟩
    rw [hk, Nat.shiftRight_eq_div_pow]
    have hpow : 2 ^ 11 ≤ 2 ^ (11 + k) := Nat.pow_le_pow_right (by decide) (by omega)
    rw [Nat.div_eq_of_lt (Nat.lt_of_lt_of_le hidlt hpow)]
    simp [Dominant]

/-- Witness of `Bit_negative_index_returns`: on the frame
`NewDataFrame(0x7FF, [0xFF])`, none of whose bits is Dominant, `Bit(23)`
panics and `Bit(-1)` returns Dominant. -/
theorem Bit_negative_index_returns_witness :
    frameOnes.Bit 23 = none ∧ frameOnes.Bit (-1) = some Dominant :=
  ⟨(Bit_negative_index_returns 0x7FF [0xFF] frameOnes rfl).1 23 (by decide),
   (Bit_negative_index_returns 0x7FF [0xFF] frameOnes rfl).2 (-1) (by decide) (by decide)⟩

/-! ## Wired-AND -/

theorem Bus.foldlM_Write (bits : List Nat) : ∀ b : Bus, b.active = true →
    bits.foldlM (fun b1 bit => b1.Write bit) b
      = some { b with state := bits.foldl (fun s bit => s &&& bit) b.state } := by
  induction bits with
  | nil => intro b _; rfl
  | cons x xs ih =>
    intro b hb
    rw [List.foldlM_cons]
    have hw : b.Write x = some { b with state := b.state &&& x } := by simp [Bus.Write, hb]
    rw [hw]
    exact ih _ hb

theorem Bus.resetAndWrite_eq (b : Bus) (hact : b.active = true) (bits : List Nat) :
    b.resetAndWrite bits
      = some { b with state := bits.foldl (fun s bit => s &&& bit) Recessive } :=
  Bus.foldlM_Write bits { b with state := Recessive } hact

theorem foldl_and_bits (bits : List Nat) (h01 : ∀ x ∈ bits, x = Dominant ∨ x = Recessive) :
    ∀ s, s = Dominant ∨ s = Recessive →
    bits.foldl (fun s bit => s &&& bit) s
      = if s = Dominant ∨ Dominant ∈ bits then Dominant else Recessive := by
  induction bits with
  | nil =>
    intro s hs
    rcases hs with rfl | rfl <;> simp [Dominant, Recessive]
  | cons x xs ih =>
    intro s hs
    have hx := h01 x (List.mem_cons_self _ _)
    have hxs : ∀ y ∈ xs, y = Dominant ∨ y = Recessive :=
      fun y hy => h01 y (List.mem_cons_of_mem _ hy)
    rw [List.foldl_cons]
    rcases hs with rfl | rfl <;> rcases hx with rfl | rfl
    · rw [ih hxs _ (Or.inl (by decide))]; simp [Dominant]
    · rw [ih hxs _ (Or.inl (by decide))]; simp [Dominant, Recessive]
    · rw [ih hxs _ (Or.inl (by decide))]; simp [Dominant, Recessive]
    · rw [ih hxs _ (Or.inr (by decide))]; simp [Dominant, Recessive]

theorem writePhase_state {α : Type} : ∀ (ps : List (Prog α)) (s : Nat),
    (writePhase s ps).1 = (pendingWrites ps).foldl (fun s bit => s &&& bit) s := by
  intro ps
  induction ps with
  | nil => intro s; rfl
  | cons p ps ih =>
    intro s
    cases p <;> simp [writePhase, pendingWrites, ih]

/-- C13: on an active bus, after the reset to Recessive and the `Write` calls
`bits` (each Dominant or Recessive) of one write phase, the state is Dominant
if some written bit is Dominant and Recessive otherwise, Recessive when nobody
writes, and the same for every order of the calls; the write phase of the
bit-period loop computes this state from the goroutines blocked on `Write`. -/
theorem wired_and_state (b : Bus) (hact : b.active = true) (bits : List Nat)
    (h01 : ∀ x ∈ bits, x = Dominant ∨ x = Recessive) :
    (∃ b2, b.resetAndWrite bits = some b2 ∧
      b2.state = (if Dominant ∈ bits then Dominant else Recessive) ∧
      b2.state = bits.foldl (fun s bit => s &&& bit) Recessive ∧
      b2.nodes = b.nodes ∧ b2.active = b.active ∧
      ∀ bits2, bits2.Perm bits → b.resetAndWrite bits2 = some b2) ∧
    (b.resetAndWrite []).map (fun b2 => b2.state) = some Recessive ∧
    (∀ (α : Type) (ps : List (Prog α)), pendingWrites ps = bits →
      (writePhase Recessive ps).1 = if Dominant ∈ bits then Dominant else Recessive) := by
  have hfold := foldl_and_bits bits h01 Recessive (Or.inr rfl)
  have hR : ¬ Recessive = Dominant := by decide
  simp only [hR, false_or] at hfold
  refine ⟨⟨_, Bus.resetAndWrite_eq b hact bits, hfold, rfl, rfl, rfl, ?_⟩, rfl, ?_⟩
  · intro bits2 hperm
    rw [Bus.resetAndWrite_eq b hact bits2]
    have h01b : ∀ x ∈ bits2, x = Dominant ∨ x = Recessive :=
      fun x hx => h01 x (hperm.mem_iff.mp hx)
    have h2 := foldl_and_bits bits2 h01b Recessive (Or.inr rfl)
    simp only [hR, false_or] at h2
    simp only [hfold, h2, hperm.mem_iff]
  · intro α ps hps
    rw [writePhase_state, hps, hfold]

/-- Witness of `wired_and_state`: three writers, one of them Dominant. -/
theorem wired_and_state_witness :
    (∃ b2, activeBus.resetAndWrite [Recessive, Dominant, Recessive] = some b2 ∧
      b2.state = (if Dominant ∈ [Recessive, Dominant, Recessive] then Dominant else Recessive) ∧
      b2.state = [Recessive, Dominant, Recessive].foldl (fun s bit => s &&& bit) Recessive ∧
      b2.nodes = activeBus.nodes ∧ b2.active = activeBus.active ∧
      ∀ bits2, bits2.Perm [Recessive, Dominant, Recessive] →
        activeBus.resetAndWrite bits2 = some b2) ∧
    (activeBus.resetAndWrite []).map (fun b2 => b2.state) = some Recessive ∧
    (∀ (α : Type) (ps : List (Prog α)), pendingWrites ps = [Recessive, Dominant, Recessive] →
      (writePhase Recessive ps).1
        = if Dominant ∈ [Recessive, Dominant, Recessive] then Dominant else Recessive) :=
  wired_and_state activeBus rfl [Recessive, Dominant, Recessive] (by decide)

/-! ## Attaching nodes -/

theorem NewNode_inactive (b : Bus) (hb : b.active = false) (id : Nat) :
    NewNode b id = (.ok (Node.fresh b.nodes.length id),
      { b with nodes := b.nodes ++ [Node.fresh b.nodes.length id] }) := by
  simp [NewNode, Bus.Attach, hb]

theorem newNodes_inactive : ∀ (ids : List Nat) (b : Bus), b.active = false →
    newNodes b ids = ((freshNodes b.nodes.length ids).map .ok,
      { b with nodes := b.nodes ++ freshNodes b.nodes.length ids }) := by
  intro ids
  induction ids with
  | nil => intro b _; simp [newNodes, freshNodes]
  | cons id ids ih =>
    intro b hb
    simp only [newNodes, NewNode_inactive b hb, freshNodes, List.map_cons]
    rw [ih { b with nodes := b.nodes ++ [Node.fresh b.nodes.length id] } hb]
    simp

theorem freshNodes_length : ∀ (ids : List Nat) (start : Nat),
    (freshNodes start ids).length = ids.length := by
  intro ids
  induction ids with
  | nil => intro _; rfl
  | cons id ids ih => intro start; simp [freshNodes, ih]

theorem freshNodes_get : ∀ (ids : List Nat) (start k : Nat) (id : Nat), ids[k]? = some id →
    (freshNodes start ids)[k]? = some (Node.fresh (start + k) id) := by
  intro ids
  induction ids with
  | nil => intro _ k id h; simp at h
  | cons x xs ih =>
    intro start k id h
    cases k with
    | zero =>
      simp only [List.getElem?_cons_zero, Option.some.injEq] at h
      simp [freshNodes, h]
    | succ k =>
      simp only [List.getElem?_cons_succ] at h
      simp only [freshNodes, List.getElem?_cons_succ]
      rw [ih (start + 1) k id h]
      congr 2
      omega

/-- C14: `Attach` on an inactive bus returns the number of nodes attached
before and appends exactly that node, so successive `NewNode` calls return
nodes whose unique ids count up from that number in attachment order, and
`nodes[uid]` is the node with that uid; `Attach` on an active bus returns an
error and leaves the bus unchanged, and `NewNode` fails. -/
theorem Attach_spec (b : Bus) (node : Node) :
    (b.active = false →
      b.Attach node = (.ok b.nodes.length, { b with nodes := b.nodes ++ [node] }) ∧
      ∀ ids : List Nat, ∃ ns : List Node,
        newNodes b ids = (ns.map .ok, { b with nodes := b.nodes ++ ns }) ∧
        ns.length = ids.length ∧
        ∀ k id, ids[k]? = some id →
          ∃ n, ns[k]? = some n ∧ n.uid = b.nodes.length + k ∧ n.id = id ∧
            (b.nodes ++ ns)[n.uid]? = some n) ∧
    (b.active = true →
      b.Attach node = (.error .busIsActive, b) ∧
      ∀ id, NewNode b id = (.error .busIsActive, b)) := by
  refine ⟨?_, ?_⟩
  · intro hb
    refine ⟨by simp [Bus.Attach, hb], ?_⟩
    intro ids
    refine ⟨freshNodes b.nodes.length ids, newNodes_inactive ids b hb,
      freshNodes_length ids _, ?_⟩
    intro k id hk
    have hget := freshNodes_get ids b.nodes.length k id hk
    refine ⟨_, hget, rfl, rfl, ?_⟩
    show (b.nodes ++ freshNodes b.nodes.length ids)[b.nodes.length + k]? = _
    rw [List.getElem?_append_right (by omega)]
    simpa using hget
  · intro hb
    refine ⟨by simp [Bus.Attach, hb], ?_⟩
    intro id
    simp [NewNode, Bus.Attach, hb]

/-- Instance of `Attach_spec`: two `NewNode` calls on a new bus return the
unique ids 0 and 1, and `Attach` on an active bus fails. -/
theorem Attach_spec_witness :
    (∃ ns : List Node,
      newNodes NewBus [0x123, 0x124] = (ns.map .ok, { NewBus with nodes := NewBus.nodes ++ ns }) ∧
      ns.length = [0x123, 0x124].length ∧
      ∀ k id, [0x123, 0x124][k]? = some id →
        ∃ n, ns[k]? = some n ∧ n.uid = NewBus.nodes.length + k ∧ n.id = id ∧
          (NewBus.nodes ++ ns)[n.uid]? = some n) ∧
    activeBus.Attach (Node.fresh 0 0x125) = (.error .busIsActive, activeBus) ∧
    NewNode activeBus 0x125 = (.error .busIsActive, activeBus) :=
  ⟨((Attach_spec NewBus (Node.fresh 0 0x123)).1 rfl).2 [0x123, 0x124],
   ((Attach_spec activeBus (Node.fresh 0 0x125)).2 rfl).1,
   ((Attach_spec activeBus (Node.fresh 0 0x125)).2 rfl).2 0x125⟩

/-! ## A node in bus-off -/

/-- C15: `busWrite` of a node in BusOff performs no bus operation, so the bus
state of the write phase is the one the other goroutines produce, whatever the
bit; `busRead` returns the bus state in every node state; `busWrite(bit)` of a
node that is not in BusOff ANDs `bit` into the bus state. -/
theorem busOff_muted (n : Node) (bit s : Nat) (qs : List (Prog Nat)) :
    (n.state = StateBusOff →
      n.busWrite bit = Prog.done () ∧
      writePhase s [n.busWrite bit] = (s, [Prog.done ()]) ∧
      bitPeriod (Prog.bind (n.busWrite bit) (fun _ => n.busRead) :: qs)
        = ((bitPeriod qs).1, Prog.done (bitPeriod qs).1 :: (bitPeriod qs).2)) ∧
    (n.state ≠ StateBusOff →
      writePhase s [n.busWrite bit] = (s &&& bit, [Prog.done ()]) ∧
      (bitPeriod (Prog.bind (n.busWrite bit) (fun _ => n.busRead) :: qs)).1
        = (writePhase (Recessive &&& bit) qs).1 ∧
      (bitPeriod (Prog.bind (n.busWrite bit) (fun _ => n.busRead) :: qs)).2.head?
        = some (Prog.done (writePhase (Recessive &&& bit) qs).1)) ∧
    readPhase s [n.busRead] = [Prog.done s] := by
  refine ⟨?_, ?_, rfl⟩
  · intro h
    have hw : n.busWrite bit = Prog.done () := by simp [Node.busWrite, h]
    refine ⟨hw, by rw [hw]; rfl, ?_⟩
    rw [hw]
    rfl
  · intro h
    have hw : n.busWrite bit = Prog.write bit (Prog.done ()) := by simp [Node.busWrite, h]
    rw [hw]
    exact ⟨rfl, rfl, rfl⟩

/-- Instance of `busOff_muted`: a node in BusOff that calls `busWrite(Dominant)`
next to a node writing Recessive leaves the bus Recessive and reads
Recessive; a fresh node doing the same makes the bus Dominant. -/
theorem busOff_muted_witness :
    bitPeriod (Prog.bind (busOffNode.busWrite Dominant) (fun _ => busOffNode.busRead)
        :: [Prog.write Recessive (Prog.read Prog.done)])
      = (Recessive, [Prog.done Recessive, Prog.done Recessive]) ∧
    (bitPeriod (Prog.bind ((Node.fresh 0 0).busWrite Dominant)
        (fun _ => (Node.fresh 0 0).busRead)
        :: [Prog.write Recessive (Prog.read Prog.done)])).1 = Dominant :=
  ⟨((busOff_muted busOffNode Dominant Recessive
      [Prog.write Recessive (Prog.read Prog.done)]).1 rfl).2.2,
   ((busOff_muted (Node.fresh 0 0) Dominant Recessive
      [Prog.write Recessive (Prog.read Prog.done)]).2.1 (by decide)).2.1⟩

/-! ## The reachable states of fault confinement -/

theorem CounterUpdate.apply_confined (u : CounterUpdate) (n : Node) (h : n.confined) :
    (u.apply n).confined := by
  cases n with
  | mk uid id tec rec_ state bof calls queue lr lw cr cw =>
    unfold Node.confined at h ⊢
    cases u <;> cases state <;>
      simp only [CounterUpdate.apply, Node.tecAdd8, Node.recInc, Node.recAdd8, Node.rule7,
        Node.rule8, Node.updateState, uintSize] at h ⊢ <;>
      (repeat' split) <;> simp_all <;> omega

theorem CounterUpdate.apply_busOff (u : CounterUpdate) (n : Node) (h : n.state = StateBusOff) :
    (u.apply n).state = StateBusOff := by
  cases n with
  | mk uid id tec rec_ state bof calls queue lr lw cr cw =>
    simp only at h
    subst h
    cases u <;>
      simp only [CounterUpdate.apply, Node.tecAdd8, Node.recInc, Node.recAdd8, Node.rule7,
        Node.rule8, Node.updateState] <;>
      (repeat' split) <;> rfl

theorem Node.updates_confined (us : List CounterUpdate) : ∀ n : Node, n.confined →
    (n.updates us).confined := by
  induction us with
  | nil => intro n h; exact h
  | cons u us ih => intro n h; exact ih _ (u.apply_confined n h)

/-- C19: every node state reached from (ErrorActive, `tec = 0`, `rec = 0`) by
counter updates of the code, each followed by `updateState`, satisfies: outside
BusOff, `tec ≤ 255` and the node is ErrorActive exactly when `tec ≤ 127` and
`rec ≤ 127`; and no update leaves BusOff. -/
theorem fault_confinement_invariant (n0 : Node) (hs : n0.state = StateErrorActive)
    (ht : n0.tec = 0) (hr : n0.rec_ = 0) (us : List CounterUpdate) :
    ((n0.updates us).state ≠ StateBusOff →
      (n0.updates us).tec ≤ 255 ∧
      ((n0.updates us).state = StateErrorActive ↔
        (n0.updates us).tec ≤ 127 ∧ (n0.updates us).rec_ ≤ 127)) ∧
    ((n0.updates us).state = StateBusOff →
      ∀ u : CounterUpdate, (u.apply (n0.updates us)).state = StateBusOff) := by
  refine ⟨?_, fun h u => u.apply_busOff _ h⟩
  apply Node.updates_confined us n0
  intro _
  rw [hs, ht, hr]
  simp

/-- Witness of `fault_confinement_invariant`: a fresh node after the updates
`sampleUpdates`. -/
theorem fault_confinement_invariant_witness :
    (((Node.fresh 0 0).updates sampleUpdates).state ≠ StateBusOff →
      ((Node.fresh 0 0).updates sampleUpdates).tec ≤ 255 ∧
      (((Node.fresh 0 0).updates sampleUpdates).state = StateErrorActive ↔
        ((Node.fresh 0 0).updates sampleUpdates).tec ≤ 127 ∧
        ((Node.fresh 0 0).updates sampleUpdates).rec_ ≤ 127)) ∧
    (((Node.fresh 0 0).updates sampleUpdates).state = StateBusOff →
      ∀ u : CounterUpdate,
        (u.apply ((Node.fresh 0 0).updates sampleUpdates)).state = StateBusOff) :=
  fault_confinement_invariant (Node.fresh 0 0) rfl rfl rfl sampleUpdates

/-! ## Rule 2 in the passive error flag -/

set_option maxRecDepth 100000 in
/-- C16 (code evaluated at the failing input): an ErrorPassive receiver with
`rec = 128` emits its passive error flag after a stuff error while the rest
of the bus drives Recessive in the first bit period of the flag and Dominant
in the second.  The node ends the Error state with `rec = 137`: the Dominant
of the second bit period was charged 8, on top of the 1 of the stuff error. -/
theorem passive_flag_late_dominant_charged :
    passiveRx.state = StateErrorPassive ∧ passiveRx.rec_ = 128 ∧
    (busRun 64 [stateError 16 passiveRx rxErrorLocals,
        busDriver (passiveRx, rxErrorLocals) [Recessive, Dominant]]).1
      = [Recessive, Dominant] ++ List.replicate 14 Recessive ∧
    ((busRun 64 [stateError 16 passiveRx rxErrorLocals,
        busDriver (passiveRx, rxErrorLocals) [Recessive, Dominant]]).2.head?.bind
          Prog.observeRx)
      = some { rec_ := 137, state := StateErrorPassive, currentState := fsmIntermission,
               info := [] } := by
  decide

/-! ## Stuff error in the data field of a receiver -/

set_option maxRecDepth 100000 in
/-- C18 (code evaluated at the failing input): a receiver listens from
BusIdle to a frame with DLC 2 whose first data byte contains the sixth
Dominant bit in a row.  After that bit the receiver is still reading: it
takes exactly eight further bus bits as the second data byte, logs
`[0x00, 0xAA]` as the data read, and only then is in the Error state; the
first bit of its error flag is written after those eight reads, not before. -/
theorem data_stuff_error_reads_on :
    (rxNode00.frameStages Locals.init).listen stuffErrorWire = none ∧
    (rxNode00.frameStages Locals.init).listen (stuffErrorWire ++ [1, 0, 1, 0, 1, 0, 1]) = none ∧
    ((rxNode00.frameStages Locals.init).listen
        (stuffErrorWire ++ [1, 0, 1, 0, 1, 0, 1, 0] ++ [1, 1, 1])).map
      (fun r => (Prog.observeRx (Prog.done r.1), r.2))
      = some (some { rec_ := 0, state := StateErrorActive, currentState := fsmError,
                     info := [LogEvent.readDLC 2, LogEvent.readData [0x00, 0xAA]] },
              [1, 1, 1]) ∧
    (rxNode00.activate 16 5).writes stuffErrorWire = [] ∧
    (rxNode00.activate 16 5).writes (stuffErrorWire ++ [1, 0, 1, 0, 1, 0, 1]) = [] ∧
    (rxNode00.activate 16 5).writes (stuffErrorWire ++ [1, 0, 1, 0, 1, 0, 1, 0]) = [Dominant] := by
  decide

/-! ## Runs of one goroutine against given bus states -/

theorem Prog.always_bind {α β : Type} (m : Prog α) (f : α → Prog β) (post : β → Prop) :
    Prog.always (Prog.bind m f) post ↔ Prog.always m fun a => Prog.always (f a) post := by
  induction m with
  | done a => simp [Prog.always]
  | write b k ih => simp [Prog.always, ih]
  | read k ih => simp [Prog.always, ih]
  | crash => simp [Prog.always]
  | spin => simp [Prog.always]

theorem Prog.always_mono {α : Type} (m : Prog α) (post post2 : α → Prop)
    (h : ∀ a, post a → post2 a) : Prog.always m post → Prog.always m post2 := by
  induction m with
  | done a => exact h a
  | write b k ih => exact ih
  | read k ih => exact fun hm r => ih r (hm r)
  | crash => exact id
  | spin => exact id

theorem Prog.always_replay {α : Type} (m : Prog α) (post : α → Prop) (h : Prog.always m post) :
    ∀ (reads : List Nat) (a : α) (rest : List Nat), m.replay reads = some (a, rest) → post a := by
  induction m with
  | done a =>
    intro reads a2 rest hr
    simp only [Prog.replay, Option.some.injEq, Prod.mk.injEq] at hr
    exact hr.1 ▸ h
  | write b k ih => exact fun reads a rest hr => ih h reads a rest hr
  | read k ih =>
    intro reads a rest hr
    cases reads with
    | nil => simp [Prog.replay] at hr
    | cons r rs => exact ih r (h r) rs a rest hr
  | crash => intro reads a rest hr; simp [Prog.replay] at hr
  | spin => intro reads a rest hr; simp [Prog.replay] at hr

theorem Prog.always_bind_unit {β : Type} (m : Prog Unit) (f : Unit → Prog β) (post : β → Prop)
    (h : Prog.always (f ()) post) : Prog.always (Prog.bind m f) post := by
  rw [Prog.always_bind]
  induction m with
  | done a => exact h
  | write b k ih => exact ih
  | read k ih => exact fun r => ih r
  | crash => trivial
  | spin => trivial

@[simp] theorem Prog.replay_busWrite_bind {β : Type} (n : Node) (b : Nat) (f : Unit → Prog β)
    (reads : List Nat) :
    (Prog.bind (n.busWrite b) f).replay reads = (f ()).replay reads := by
  unfold Node.busWrite
  split <;> rfl

@[simp] theorem Prog.replay_busRead_bind {β : Type} (n : Node) (f : Nat → Prog β)
    (r : Nat) (reads : List Nat) :
    (Prog.bind n.busRead f).replay (r :: reads) = (f r).replay reads := rfl

@[simp] theorem Prog.replay_busRead_nil {β : Type} (n : Node) (f : Nat → Prog β) :
    (Prog.bind n.busRead f).replay [] = none := rfl

/-! ## Intermission and suspend transmission -/

theorem intermissionLoop_clean {β : Type} (fuel : Nat) (n : Node) (f : Unit → Prog β)
    (w : List Nat) :
    (Prog.bind (intermissionLoop (fuel + 4) 0 n) f).replay (List.replicate 3 Recessive ++ w)
      = (f ()).replay w := by
  simp [intermissionLoop, List.replicate, Prog.bind_assoc, Recessive, Dominant]

theorem suspendLoop_quiet {β : Type} (n : Node) (f : Bool × Node → Prog β) (w : List Nat) :
    ∀ k, (Prog.bind (suspendLoop k n) f).replay (List.replicate k Recessive ++ w)
      = (f (false, n)).replay w := by
  intro k
  induction k with
  | zero => simp [suspendLoop]
  | succ k ih =>
    simp only [suspendLoop, Prog.bind_eq, Prog.bind_assoc, Prog.replay_busWrite_bind,
      List.replicate_succ, List.cons_append, Prog.replay_busRead_bind]
    simpa [Recessive, Dominant] using ih

theorem suspendLoop_waiting {β : Type} (n : Node) (f : Bool × Node → Prog β) :
    ∀ k j, j < k → (Prog.bind (suspendLoop k n) f).replay (List.replicate j Recessive) = none := by
  intro k
  induction k with
  | zero => intro j hj; omega
  | succ k ih =>
    intro j hj
    cases j with
    | zero =>
      simp only [suspendLoop, Prog.bind_eq, Prog.bind_assoc, Prog.replay_busWrite_bind,
        List.replicate_zero, Prog.replay_busRead_nil]
    | succ j =>
      simp only [suspendLoop, Prog.bind_eq, Prog.bind_assoc, Prog.replay_busWrite_bind,
        List.replicate_succ, Prog.replay_busRead_bind]
      simpa [Recessive, Dominant] using ih j (by omega)

theorem suspendLoop_dominant {β : Type} (n : Node) (f : Bool × Node → Prog β) (w : List Nat) :
    ∀ k j, j < k →
      (Prog.bind (suspendLoop k n) f).replay (List.replicate j Recessive ++ Dominant :: w)
        = (f (true,
            { n with
              samePolarityReadCount :=
                if n.samePolarityReadCount = 0 ∨ n.lastBitRead = Dominant then
                  n.samePolarityReadCount + 1
                else 1,
              lastBitRead := Dominant })).replay w := by
  intro k
  induction k with
  | zero => intro j hj; omega
  | succ k ih =>
    intro j hj
    cases j with
    | zero =>
      simp [suspendLoop, Prog.bind_assoc]
    | succ j =>
      simp only [suspendLoop, Prog.bind_eq, Prog.bind_assoc, Prog.replay_busWrite_bind,
        List.replicate_succ, List.cons_append, Prog.replay_busRead_bind]
      simpa [Recessive, Dominant] using ih j (by omega)

theorem suspendLoop_bus {β : Type} (n : Node) (hst : n.state ≠ StateBusOff) (a : β)
    (f : Bool × Node → Prog β) :
    ∀ k, Runs [Prog.bind (suspendLoop k n) f, busDriver a (List.replicate k Recessive)]
      (List.replicate k Recessive) [f (false, n), Prog.done a] := by
  intro k
  induction k with
  | zero => exact Runs.refl _
  | succ k ih =>
    have hw : n.busWrite Recessive = Prog.write Recessive (Prog.done ()) := by
      simp [Node.busWrite, hst]
    simp only [suspendLoop, hw, Node.busRead, Prog.bind_eq, Prog.pure_eq, Prog.write_bind,
      Prog.read_bind, Prog.done_bind, List.replicate_succ, busDriver]
    refine Runs.write_read_both Recessive Recessive Recessive _ _ (by decide) _ _ ?_
    have hR : ¬ Recessive = Dominant := by decide
    simp only [hR, if_false]
    exact ih

/-- C17: after Intermission the node enters SuspendTransmission exactly when
it is ErrorPassive and its previous role was Transmitter, and BusIdle
otherwise.  In SuspendTransmission, eight Recessive reads lead to BusIdle
after exactly eight bit periods with the node (and its queue) untouched, and
not earlier; a first Dominant at the `(j+1)`-th read, `j < 8`, leads at once
to Arbitration as Receiver with the read tracker `readBit` would have
produced: `lastBitRead = Dominant`, `samePolarityReadCount = 1`. -/
theorem suspend_transmission (fuel : Nat) (n : Node) (l : Locals)
    (hs : l.currentState = fsmIntermission) (w : List Nat) :
    (∀ reads n1 l1 rest, (fsmStep fuel n l).replay reads = some ((n1, l1), rest) →
      (l1.currentState = fsmSuspendTransmission ↔
        n.state = StateErrorPassive ∧ l.previousRole = roleTransmitter) ∧
      (l1.currentState ≠ fsmSuspendTransmission → l1.currentState = fsmBusIdle) ∧
      n1 = n.resetStuffingCounters) ∧
    (∃ l1, (fsmStep (fuel + 4) n l).replay (List.replicate 3 Recessive ++ w)
        = some ((n.resetStuffingCounters, l1), w)) ∧
    (∀ l1 : Locals, l1.currentState = fsmSuspendTransmission →
      (fsmStep fuel n.resetStuffingCounters l1).replay (List.replicate 8 Recessive ++ w)
        = some ((n.resetStuffingCounters, { l1 with currentState := fsmBusIdle }), w) ∧
      (∀ j, j < 8 →
        (fsmStep fuel n.resetStuffingCounters l1).replay (List.replicate j Recessive) = none) ∧
      (∀ j, j < 8 →
        (fsmStep fuel n.resetStuffingCounters l1).replay
            (List.replicate j Recessive ++ Dominant :: w)
          = some (({ n.resetStuffingCounters with
                      lastBitRead := Dominant, samePolarityReadCount := 1 },
                   { l1 with currentRole := roleReceiver, currentState := fsmArbitration }),
                  w)) ∧
      n.resetStuffingCounters.readBit.replay [Dominant]
        = some ((Dominant, { n.resetStuffingCounters with
                      lastBitRead := Dominant, samePolarityReadCount := 1 }), []) ∧
      (n.state = StateErrorPassive →
        busRun 64 [fsmStep fuel n.resetStuffingCounters l1,
                   busDriver (n, l1) (List.replicate 8 Recessive)]
          = (List.replicate 8 Recessive,
             [Prog.done (n.resetStuffingCounters, { l1 with currentState := fsmBusIdle }),
              Prog.done (n, l1)]))) := by
  refine ⟨?_, ?_, ?_⟩
  · intro reads n1 l1 rest hrun
    have hall : Prog.always (fsmStep fuel n l) fun r =>
        (r.2.currentState = fsmSuspendTransmission ↔
          n.state = StateErrorPassive ∧ l.previousRole = roleTransmitter) ∧
        (r.2.currentState ≠ fsmSuspendTransmission → r.2.currentState = fsmBusIdle) ∧
        r.1 = n.resetStuffingCounters := by
      simp only [fsmStep, hs, stateIntermission, Prog.bind_eq, Prog.pure_eq]
      apply Prog.always_bind_unit
      split
      · rename_i h
        simp [Prog.always, h, Node.resetStuffingCounters] at h ⊢
        exact h
      · rename_i h
        simp [Prog.always, Node.resetStuffingCounters] at h ⊢
        exact h
    exact Prog.always_replay _ _ hall reads (n1, l1) rest hrun
  · simp only [fsmStep, hs, stateIntermission, Prog.bind_eq, Prog.pure_eq,
      intermissionLoop_clean]
    split <;> exact ⟨_, rfl⟩
  · intro l1 hl1
    have hq := fun (f : Bool × Node → Prog (Node × Locals)) =>
      suspendLoop_quiet n.resetStuffingCounters f w 8
    have hwt := fun (f : Bool × Node → Prog (Node × Locals)) =>
      suspendLoop_waiting n.resetStuffingCounters f 8
    have hd := fun (f : Bool × Node → Prog (Node × Locals)) =>
      suspendLoop_dominant n.resetStuffingCounters f w 8
    refine ⟨?_, ?_, ?_, ?_, ?_⟩
    · simp only [fsmStep, hl1, stateSuspendTransmission, Prog.bind_eq, Prog.pure_eq, hq]
      rfl
    · intro j hj
      simp only [fsmStep, hl1, stateSuspendTransmission, Prog.bind_eq, Prog.pure_eq, hwt _ j hj]
    · intro j hj
      simp only [fsmStep, hl1, stateSuspendTransmission, Prog.bind_eq, Prog.pure_eq, hd _ j hj]
      rfl
    · rfl
    · intro hst
      have hne : n.resetStuffingCounters.state ≠ StateBusOff := by
        simp [Node.resetStuffingCounters, hst]
      have hrun := suspendLoop_bus n.resetStuffingCounters hne (n, l1)
        (fun r => if r.1 = true then
            Prog.done (r.2, { l1 with currentRole := roleReceiver, currentState := fsmArbitration })
          else Prog.done (r.2, { l1 with currentState := fsmBusIdle })) 8
      simp only [fsmStep, hl1, stateSuspendTransmission, Prog.bind_eq, Prog.pure_eq]
      exact Runs.busRun_eq hrun (by rfl) 64 (by simp)

/-- Witness of `suspend_transmission`: the ErrorPassive node `passiveTx`, whose
previous role was Transmitter, in Intermission. -/
theorem suspend_transmission_witness :
    (∀ reads n1 l1 rest,
      (fsmStep 0 passiveTx passiveTxLocals).replay reads = some ((n1, l1), rest) →
      (l1.currentState = fsmSuspendTransmission ↔
        passiveTx.state = StateErrorPassive ∧ passiveTxLocals.previousRole = roleTransmitter) ∧
      (l1.currentState ≠ fsmSuspendTransmission → l1.currentState = fsmBusIdle) ∧
      n1 = passiveTx.resetStuffingCounters) ∧
    (∃ l1, (fsmStep (0 + 4) passiveTx passiveTxLocals).replay (List.replicate 3 Recessive ++ [])
        = some ((passiveTx.resetStuffingCounters, l1), [])) ∧
    (∀ l1 : Locals, l1.currentState = fsmSuspendTransmission →
      (fsmStep 0 passiveTx.resetStuffingCounters l1).replay (List.replicate 8 Recessive ++ [])
        = some ((passiveTx.resetStuffingCounters, { l1 with currentState := fsmBusIdle }), []) ∧
      (∀ j, j < 8 →
        (fsmStep 0 passiveTx.resetStuffingCounters l1).replay (List.replicate j Recessive)
          = none) ∧
      (∀ j, j < 8 →
        (fsmStep 0 passiveTx.resetStuffingCounters l1).replay
            (List.replicate j Recessive ++ Dominant :: [])
          = some (({ passiveTx.resetStuffingCounters with
                      lastBitRead := Dominant, samePolarityReadCount := 1 },
                   { l1 with currentRole := roleReceiver, currentState := fsmArbitration }),
                  [])) ∧
      passiveTx.resetStuffingCounters.readBit.replay [Dominant]
        = some ((Dominant, { passiveTx.resetStuffingCounters with
                      lastBitRead := Dominant, samePolarityReadCount := 1 }), []) ∧
      (passiveTx.state = StateErrorPassive →
        busRun 64 [fsmStep 0 passiveTx.resetStuffingCounters l1,
                   busDriver (passiveTx, l1) (List.replicate 8 Recessive)]
          = (List.replicate 8 Recessive,
             [Prog.done (passiveTx.resetStuffingCounters, { l1 with currentState := fsmBusIdle }),
              Prog.done (passiveTx, l1)]))) :=
  suspend_transmission 0 passiveTx passiveTxLocals rfl []

/-! ## The queue of a node that lost arbitration -/

@[simp] theorem Node.updateState_queue (n : Node) : n.updateState.queue = n.queue := by
  cases n with
  | mk uid id tec rec_ state bof calls queue lr lw cr cw =>
    cases state <;> simp only [Node.updateState] <;> (repeat' split) <;> rfl

@[simp] theorem Node.recInc_queue (n : Node) : n.recInc.queue = n.queue := by
  simp [Node.recInc]

@[simp] theorem Node.recAdd8_queue (n : Node) : n.recAdd8.queue = n.queue := by
  simp [Node.recAdd8]

@[simp] theorem Node.tecAdd8_queue (n : Node) : n.tecAdd8.queue = n.queue := by
  simp [Node.tecAdd8]

@[simp] theorem Node.rule7_queue (n : Node) : n.rule7.queue = n.queue := by
  simp [Node.rule7]

@[simp] theorem Node.rule8_queue (n : Node) : n.rule8.queue = n.queue := by
  simp [Node.rule8]

@[simp] theorem ErrorUpdate.apply_queue (u : ErrorUpdate) (n : Node) :
    (u.apply n).queue = n.queue := by
  cases u <;> simp [ErrorUpdate.apply]

theorem always_busRead {α : Type} (n : Node) (K : Nat → Prog α) (post : α → Prop)
    (hK : ∀ b, Prog.always (K b) post) : Prog.always (Prog.bind n.busRead K) post := by
  simp only [Node.busRead, Prog.read_bind, Prog.done_bind, Prog.always]
  exact hK

theorem always_readBit {α : Type} (n : Node) (K : Nat × Node → Prog α) (post : α → Prop)
    (hK : ∀ r : Nat × Node, r.2.queue = n.queue → Prog.always (K r) post) :
    Prog.always (Prog.bind n.readBit K) post := by
  simp only [Node.readBit, Node.busRead, Prog.bind_eq, Prog.pure_eq, Prog.read_bind,
    Prog.done_bind, Prog.always]
  intro r
  exact hK _ rfl

theorem always_maybeReadStuff {α : Type} (n : Node) (K : Bool × Node → Prog α)
    (post : α → Prop)
    (hK : ∀ r : Bool × Node, r.2.queue = n.queue → Prog.always (K r) post) :
    Prog.always (Prog.bind n.maybeReadStuff K) post := by
  unfold Node.maybeReadStuff
  split
  · simp only [Prog.bind_eq, Prog.pure_eq, Prog.bind_assoc, Prog.done_bind]
    exact always_readBit n _ post fun r hr => hK _ hr
  · simp only [Prog.pure_eq, Prog.done_bind]
    exact hK _ rfl

theorem always_writeBit {α : Type} (n : Node) (b : Nat) (K : Node → Prog α) (post : α → Prop)
    (hK : ∀ n1 : Node, n1.queue = n.queue → Prog.always (K n1) post) :
    Prog.always (Prog.bind (n.writeBit b) K) post := by
  simp only [Node.writeBit, Prog.bind_eq, Prog.pure_eq, Prog.bind_assoc, Prog.done_bind]
  apply Prog.always_bind_unit
  exact hK _ rfl

theorem always_maybeWriteStuff {α : Type} (n : Node) (K : Bool × Node → Prog α)
    (post : α → Prop)
    (hK : ∀ r : Bool × Node, r.2.queue = n.queue → Prog.always (K r) post) :
    Prog.always (Prog.bind n.maybeWriteStuff K) post := by
  unfold Node.maybeWriteStuff
  split
  · simp only [Prog.bind_eq, Prog.pure_eq, Prog.bind_assoc, Prog.done_bind]
    exact always_writeBit n _ _ post fun n1 h1 => hK _ h1
  · simp only [Prog.pure_eq, Prog.done_bind]
    exact hK _ rfl

theorem arbitrationRxLoop_keeps (q : List DataFrame) (cf : Option DataFrame) (role : nodeRole)
    (inf : List LogEvent) (k : Nat) : ∀ (n : Node) (l : Locals),
    n.queue = q → l.currentFrame = cf → l.currentRole = role → l.info = inf →
    Prog.always (arbitrationRxLoop k n l) fun r =>
      r.1.queue = q ∧ r.2.currentFrame = cf ∧ r.2.currentRole = role ∧ r.2.info = inf := by
  induction k with
  | zero => intro n l h1 h2 h3 h4; exact ⟨h1, h2, h3, h4⟩
  | succ k ih =>
    intro n l h1 h2 h3 h4
    unfold arbitrationRxLoop
    simp only [Prog.bind_eq, Prog.pure_eq]
    apply always_maybeReadStuff
    intro s hs
    split
    · exact ⟨hs.trans h1, h2, h3, h4⟩
    · apply always_readBit
      intro r hr
      exact ih _ _ (hr.trans (hs.trans h1)) h2 h3 h4

theorem dlcRxLoop_keeps (q : List DataFrame) (cf : Option DataFrame) (role : nodeRole)
    (k : Nat) : ∀ (i : Nat) (n : Node) (l : Locals),
    n.queue = q → l.currentFrame = cf → l.currentRole = role →
    Prog.always (dlcRxLoop k i n l) fun r =>
      r.1.queue = q ∧ r.2.currentFrame = cf ∧ r.2.currentRole = role := by
  induction k with
  | zero => intro i n l h1 h2 h3; exact ⟨h1, h2, h3⟩
  | succ k ih =>
    intro i n l h1 h2 h3
    unfold dlcRxLoop
    simp only [Prog.bind_eq, Prog.pure_eq]
    apply always_maybeReadStuff
    intro s hs
    split
    · exact ⟨hs.trans h1, h2, h3⟩
    · apply always_readBit
      intro r hr
      exact ih _ _ _ (hr.trans (hs.trans h1)) h2 h3

theorem dataRxByteLoop_keeps (q : List DataFrame) (cf : Option DataFrame) (role : nodeRole)
    (k : Nat) : ∀ (j : Nat) (n : Node) (l : Locals) (dataByte : Nat),
    n.queue = q → l.currentFrame = cf → l.currentRole = role →
    Prog.always (dataRxByteLoop k j n l dataByte) fun r =>
      r.2.1.queue = q ∧ r.2.2.currentFrame = cf ∧ r.2.2.currentRole = role := by
  induction k with
  | zero => intro j n l d h1 h2 h3; exact ⟨h1, h2, h3⟩
  | succ k ih =>
    intro j n l d h1 h2 h3
    unfold dataRxByteLoop
    simp only [Prog.bind_eq, Prog.pure_eq]
    apply always_maybeReadStuff
    intro s hs
    split
    · exact ⟨hs.trans h1, h2, h3⟩
    · apply always_readBit
      intro r hr
      exact ih _ _ _ _ (hr.trans (hs.trans h1)) h2 h3

theorem dataRxLoop_keeps (q : List DataFrame) (cf : Option DataFrame) (role : nodeRole)
    (k : Nat) : ∀ (n : Node) (l : Locals) (data : List Nat),
    n.queue = q → l.currentFrame = cf → l.currentRole = role →
    Prog.always (dataRxLoop k n l data) fun r =>
      r.2.1.queue = q ∧ r.2.2.currentFrame = cf ∧ r.2.2.currentRole = role := by
  induction k with
  | zero => intro n l d h1 h2 h3; exact ⟨h1, h2, h3⟩
  | succ k ih =>
    intro n l d h1 h2 h3
    unfold dataRxLoop
    simp only [Prog.bind_eq, Prog.pure_eq]
    rw [Prog.always_bind]
    apply Prog.always_mono _ _ _ _ (dataRxByteLoop_keeps q cf role 8 0 n l 0 h1 h2 h3)
    intro a ha
    exact ih _ _ _ ha.1 ha.2.1 ha.2.2

theorem eofRxLoop_keeps (q : List DataFrame) (cf : Option DataFrame) (role : nodeRole)
    (k : Nat) : ∀ (n : Node) (l : Locals),
    n.queue = q → l.currentFrame = cf → l.currentRole = role →
    Prog.always (eofRxLoop k n l) fun r =>
      r.1.queue = q ∧ r.2.currentFrame = cf ∧ r.2.currentRole = role := by
  induction k with
  | zero => intro n l h1 h2 h3; exact ⟨h1, h2, h3⟩
  | succ k ih =>
    intro n l h1 h2 h3
    unfold eofRxLoop
    simp only [Prog.bind_eq, Prog.pure_eq]
    apply always_busRead
    intro b
    split
    · exact ⟨h1, h2, h3⟩
    · exact ih _ _ h1 h2 h3

theorem arbitrationTxLoop_keeps (q : List DataFrame) (cf : Option DataFrame)
    (inf : List LogEvent) (fuel : Nat) : ∀ (i : Nat) (n : Node) (l : Locals),
    n.queue = q → l.currentFrame = cf → l.currentRole = roleTransmitter → l.info = inf →
    Prog.always (arbitrationTxLoop fuel i n l) fun r =>
      r.2.1.queue = q ∧ r.2.2.currentFrame = cf ∧
      ((r.2.2.currentRole = roleTransmitter ∧ r.2.2.info = inf) ∨
       (r.2.2.currentRole = roleReceiver ∧ r.1 < 11 ∧
         ∃ j, r.2.2.info = inf ++ [LogEvent.lostArbitration j])) := by
  induction fuel with
  | zero => intros; simp [arbitrationTxLoop, Prog.always]
  | succ fuel ih =>
    intro i n l h1 h2 h3 h4
    unfold arbitrationTxLoop
    split
    · rename_i hi
      simp only [Prog.bind_eq, Prog.pure_eq]
      apply always_maybeWriteStuff
      intro w hw
      split
      · exact ih _ _ _ (hw.trans h1) h2 h3 h4
      · apply always_maybeReadStuff
        intro s hs
        split
        · exact ⟨hs.trans (hw.trans h1), h2, Or.inl ⟨h3, h4⟩⟩
        · split
          · trivial
          · apply always_writeBit
            intro n1 hn1
            apply always_readBit
            intro r hr
            have hq := hr.trans (hn1.trans (hs.trans (hw.trans h1)))
            split
            · exact ⟨hq, h2, Or.inr ⟨rfl, hi, i, by simp [h4]⟩⟩
            · exact ih _ _ _ hq h2 h3 h4
    · exact ⟨h1, h2, Or.inl ⟨h3, h4⟩⟩

theorem errorFlagActive_keeps (charge : Node → Node) (hc : ∀ m, (charge m).queue = m.queue)
    (k : Nat) : ∀ n : Node, Prog.always (errorFlagActive charge k n) fun n1 =>
      n1.queue = n.queue := by
  induction k with
  | zero => intro n; rfl
  | succ k ih =>
    intro n
    unfold errorFlagActive
    simp only [Prog.bind_eq]
    apply Prog.always_bind_unit
    apply always_busRead
    intro b
    apply Prog.always_mono _ _ _ _ (ih _)
    intro n1 h1
    rw [h1]
    split
    · exact hc n
    · rfl

theorem errorFlagPassiveRx_keeps (fuel : Nat) : ∀ (i : Nat) (first : Bool) (n : Node),
    Prog.always (errorFlagPassiveRx fuel i first n) fun n1 => n1.queue = n.queue := by
  induction fuel with
  | zero => intros; simp [errorFlagPassiveRx, Prog.always]
  | succ fuel ih =>
    intro i first n
    unfold errorFlagPassiveRx
    split
    · simp only [Prog.bind_eq]
      apply Prog.always_bind_unit
      apply always_busRead
      intro b
      split
      · split
        · apply Prog.always_mono _ _ _ _ (ih _ _ _)
          intro n1 h1
          rw [h1, Node.recAdd8_queue]
        · exact ih _ _ _
      · exact ih _ _ _
    · rfl

theorem errorFlagPassiveTx_keeps (fuel : Nat) : ∀ (i : Nat) (n : Node),
    Prog.always (errorFlagPassiveTx fuel i n) fun n1 => n1.queue = n.queue := by
  induction fuel with
  | zero => intros; simp [errorFlagPassiveTx, Prog.always]
  | succ fuel ih =>
    intro i n
    unfold errorFlagPassiveTx
    split
    · simp only [Prog.bind_eq]
      apply Prog.always_bind_unit
      apply always_busRead
      intro b
      split
      · exact ih _ _
      · exact ih _ _
    · rfl

theorem suspendLoop_keeps (k : Nat) : ∀ n : Node,
    Prog.always (suspendLoop k n) fun r => r.2.queue = n.queue := by
  induction k with
  | zero => intro n; rfl
  | succ k ih =>
    intro n
    unfold suspendLoop
    simp only [Prog.bind_eq, Prog.pure_eq]
    apply Prog.always_bind_unit
    apply always_busRead
    intro b
    split
    · rfl
    · exact ih n

theorem receiving_of (q : List DataFrame) (n : Node) (l : Locals) (hq : n.queue = q)
    (hr : l.currentRole = roleReceiver)
    (hs : l.currentState ≠ fsmSuspendTransmission ∧ l.currentState ≠ fsmBusIdle) :
    receiving q (n, l) :=
  ⟨hq, hr, fun h => by rcases h with h | h <;> simp_all⟩

theorem stateArbitration_receiving (q : List DataFrame) (n : Node) (l : Locals)
    (hq : n.queue = q) (hr : l.currentRole = roleReceiver) :
    Prog.always (stateArbitration n l) (receiving q) := by
  simp only [stateArbitration, hr, Prog.bind_eq, Prog.pure_eq]
  rw [Prog.always_bind]
  refine Prog.always_mono _ _ _ ?_
    (arbitrationRxLoop_keeps q l.currentFrame roleReceiver l.info 11 n _ hq rfl hr rfl)
  intro r hk
  simp only [Prog.always]
  unfold receiving
  (repeat' split) <;> simp_all

theorem stateDLC_receiving (q : List DataFrame) (n : Node) (l : Locals)
    (hq : n.queue = q) (hr : l.currentRole = roleReceiver) :
    Prog.always (stateDLC n l) (receiving q) := by
  simp only [stateDLC, hr, Prog.bind_eq, Prog.pure_eq, Prog.bind_assoc, Prog.done_bind]
  rw [Prog.always_bind]
  refine Prog.always_mono _ _ _ ?_
    (dlcRxLoop_keeps q l.currentFrame roleReceiver 4 0 n _ hq rfl rfl)
  intro r hk
  simp only [Prog.always]
  unfold receiving
  (repeat' split) <;> simp_all

theorem stateData_receiving (q : List DataFrame) (n : Node) (l : Locals)
    (hq : n.queue = q) (hr : l.currentRole = roleReceiver) :
    Prog.always (stateData n l) (receiving q) := by
  simp only [stateData, hr, Prog.bind_eq, Prog.pure_eq, Prog.bind_assoc, Prog.done_bind]
  rw [Prog.always_bind]
  refine Prog.always_mono _ _ _ ?_
    (dataRxLoop_keeps q l.currentFrame roleReceiver l.receivedDLC n _ [] hq rfl hr)
  intro r hk
  simp only [Prog.always]
  unfold receiving
  (repeat' split) <;> simp_all

theorem stateEOF_receiving (q : List DataFrame) (n : Node) (l : Locals)
    (hq : n.queue = q) (hr : l.currentRole = roleReceiver) :
    Prog.always (stateEOF n l) (receiving q) := by
  simp only [stateEOF, hr, Prog.bind_eq, Prog.pure_eq, Prog.bind_assoc, Prog.done_bind]
  rw [Prog.always_bind]
  refine Prog.always_mono _ _ _ ?_
    (eofRxLoop_keeps q l.currentFrame roleReceiver 7 n _ hq rfl hr)
  intro r hk
  unfold receiving
  (repeat' split) <;> simp_all [Prog.always]

theorem stateError_receiving (q : List DataFrame) (fuel : Nat) (n : Node) (l : Locals)
    (hq : n.queue = q) (hr : l.currentRole = roleReceiver) :
    Prog.always (stateError fuel n l) (receiving q) := by
  have htail : ∀ n1 : Node, n1.queue = n.queue →
      Prog.always
        ((errorDelimiterWait fuel n1).bind fun _ =>
          (errorDelimiterRest 7 n1).bind fun _ =>
            Prog.done
              ((match l.errorUpdate with
                | some u => u.apply n1
                | none => n1),
               { l with previousRole := l.currentRole, currentState := fsmIntermission }))
        (receiving q) := by
    intro n1 h1
    apply Prog.always_bind_unit
    apply Prog.always_bind_unit
    simp only [Prog.always]
    refine receiving_of q _ _ ?_ hr ⟨by simp, by simp⟩
    split
    · simp [h1, hq]
    · simp [h1, hq]
  simp only [stateError, Prog.bind_eq, Prog.pure_eq]
  split
  · rw [Prog.always_bind]
    exact Prog.always_mono _ _ _ htail (errorFlagActive_keeps _ Node.recAdd8_queue 6 n)
  · rw [Prog.always_bind]
    exact Prog.always_mono _ _ _ htail (errorFlagPassiveRx_keeps fuel 0 true n)
  · rw [Prog.always_bind]
    exact Prog.always_mono _ _ _ htail (errorFlagActive_keeps _ Node.tecAdd8_queue 6 n)
  · rw [Prog.always_bind]
    exact Prog.always_mono _ _ _ htail (errorFlagPassiveTx_keeps fuel 0 n)
  · exact htail n rfl

theorem stateIntermission_receiving (q : List DataFrame) (fuel : Nat) (n : Node) (l : Locals)
    (hq : n.queue = q) (hr : l.currentRole = roleReceiver) :
    Prog.always (stateIntermission fuel n l) (receiving q) := by
  simp only [stateIntermission, Prog.bind_eq, Prog.pure_eq]
  apply Prog.always_bind_unit
  split <;> exact ⟨hq, hr, fun _ => rfl⟩

theorem stateSuspendTransmission_receiving (q : List DataFrame) (n : Node) (l : Locals)
    (hq : n.queue = q) (hr : l.currentRole = roleReceiver) (hcf : l.currentFrame = none) :
    Prog.always (stateSuspendTransmission n l) (receiving q) := by
  simp only [stateSuspendTransmission, Prog.bind_eq, Prog.pure_eq]
  rw [Prog.always_bind]
  apply Prog.always_mono _ _ _ _ (suspendLoop_keeps 8 n)
  intro r h1
  split
  · exact ⟨h1.trans hq, rfl, fun _ => hcf⟩
  · exact ⟨h1.trans hq, hr, fun _ => hcf⟩

theorem fsmStep_receiving (q : List DataFrame) (fuel : Nat) (n : Node) (l : Locals)
    (h : receiving q (n, l)) (hs : l.currentState ≠ fsmBusIdle) :
    Prog.always (fsmStep fuel n l) (receiving q) := by
  obtain ⟨hq, hr, hcf⟩ := h
  simp only at hq hr hcf
  unfold fsmStep
  split
  · exact stateIntermission_receiving q fuel n l hq hr
  · rename_i h1
    exact stateSuspendTransmission_receiving q n l hq hr (hcf (Or.inl h1))
  · rename_i h1
    exact absurd h1 hs
  · exact stateArbitration_receiving q n l hq hr
  · exact stateDLC_receiving q n l hq hr
  · exact stateData_receiving q n l hq hr
  · exact stateEOF_receiving q n l hq hr
  · exact stateError_receiving q fuel n l hq hr

theorem activateWhile_receiving (q : List DataFrame) (fuel k : Nat) : ∀ (n : Node) (l : Locals),
    receiving q (n, l) →
    Prog.always (activateWhile fsmState.inProgress fuel k n l) (receiving q) := by
  induction k with
  | zero => intro n l h; exact h
  | succ k ih =>
    intro n l h
    unfold activateWhile
    split
    · rename_i hp
      have hs : l.currentState ≠ fsmBusIdle := by
        intro hb
        rw [hb] at hp
        cases hp
      simp only [Prog.bind_eq]
      rw [Prog.always_bind]
      apply Prog.always_mono _ _ _ _ (fsmStep_receiving q fuel n l h hs)
      intro r hr
      exact ih _ _ hr
    · exact h

theorem stateArbitration_contended (q : List DataFrame) (f : DataFrame) (inf : List LogEvent)
    (n : Node) (l : Locals) (hq : n.queue = q) (hcf : l.currentFrame = some f)
    (hr : l.currentRole = roleTransmitter) (hinf : l.info = inf) :
    Prog.always (stateArbitration n l) (contended q f inf) := by
  simp only [stateArbitration, hr, Prog.bind_eq, Prog.pure_eq, Prog.bind_assoc]
  rw [Prog.always_bind]
  refine Prog.always_mono _ _ _ ?_ (arbitrationTxLoop_keeps q (some f) inf 23 0 n l hq hcf hr hinf)
  intro t ht
  obtain ⟨htq, htf, hrole⟩ := ht
  split
  · rename_i hne
    rw [Prog.always_bind]
    split
    · rename_i h11
      refine Prog.always_mono _ _ _ ?_
        (arbitrationRxLoop_keeps q (some f) t.2.2.currentRole
          (t.2.2.info ++ [LogEvent.wonArbitration]) _ t.2.1 _ htq htf rfl rfl)
      intro r hk
      simp only [Prog.done_bind, Prog.always]
      unfold contended
      rcases hrole with ⟨h1, h2⟩ | ⟨h1, h2, h3⟩
      · (repeat' split) <;> simp_all
      · omega
    · refine Prog.always_mono _ _ _ ?_
        (arbitrationRxLoop_keeps q (some f) t.2.2.currentRole t.2.2.info _ t.2.1 _ htq htf
          rfl rfl)
      intro r hk
      simp only [Prog.done_bind, Prog.always]
      unfold contended
      rcases hrole with ⟨h1, h2⟩ | ⟨h1, h2, h3⟩
      · (repeat' split) <;> simp_all
      · (repeat' split) <;> simp_all
  · rename_i hne
    simp only [Prog.done_bind, Prog.always]
    unfold contended
    rcases hrole with ⟨h1, h2⟩ | ⟨h1, h2, h3⟩
    · (repeat' split) <;> simp_all
    · (repeat' split) <;> simp_all

theorem contend_contended (q : List DataFrame) (f : DataFrame) (n : Node) (l : Locals)
    (hq : n.queue = f :: q) (hs : l.currentState = fsmBusIdle) :
    Prog.always (n.contend l) (contended q f (l.info ++ [LogEvent.dataFrameDequeue f])) := by
  unfold Node.contend
  simp only [activateLoop, Prog.bind_eq, Prog.pure_eq, Prog.bind_done]
  rw [Prog.always_bind]
  have h1 : fsmStep 0 n l = stateBusIdle n l := by simp [fsmStep, hs]
  rw [h1]
  simp only [stateBusIdle, Node.dequeue, hq, Prog.bind_eq, Prog.pure_eq]
  apply always_writeBit
  intro n1 hn1
  apply always_readBit
  intro r hr
  simp only [Prog.always, fsmStep]
  rw [Prog.always_bind]
  refine Prog.always_mono _ _ _ (fun a ha => ha) ?_
  refine stateArbitration_contended q f _ r.2 _ ?_ ?_ ?_ ?_
  · exact hr.trans hn1
  · rfl
  · rfl
  · rfl

/-- C20: a node that dequeued `f` in BusIdle, leaving the queue `q`, and lost
arbitration (it left Arbitration as Receiver, which is the case exactly when
it logged "Lost arbitration") still has the queue `q`; on every run from there
up to its return to BusIdle, cut after any number of iterations of the loop of
`activate`, the queue is `q` and the node is Receiver, and at BusIdle the frame
reference is cleared: `f` was not put back. -/
theorem lost_arbitration_drops_frame (fuel : Nat) (n : Node) (l : Locals) (f : DataFrame)
    (q : List DataFrame) (hq : n.queue = f :: q) (hs : l.currentState = fsmBusIdle) :
    ∀ reads n1 l1 rest, (n.contend l).replay reads = some ((n1, l1), rest) →
      n1.queue = q ∧ l1.currentFrame = some f ∧
      (l1.currentRole = roleReceiver ↔
        ∃ i, l1.info = l.info ++ [LogEvent.dataFrameDequeue f, LogEvent.lostArbitration i]) ∧
      (l1.currentRole = roleReceiver →
        ∀ k reads2 n2 l2 rest2,
          (activateWhile fsmState.inProgress fuel k n1 l1).replay reads2
            = some ((n2, l2), rest2) →
          n2.queue = q ∧ l2.currentRole = roleReceiver ∧
          (l2.currentState = fsmBusIdle → l2.currentFrame = none)) := by
  intro reads n1 l1 rest hrun
  have hc := Prog.always_replay _ _ (contend_contended q f n l hq hs) reads (n1, l1) rest hrun
  obtain ⟨h1, h2, h3, h4, h5⟩ := hc
  simp only at h1 h2 h3 h4 h5
  refine ⟨h1, h2, ?_, ?_⟩
  · constructor
    · intro hr
      rcases h3 with ⟨ht, _⟩ | ⟨_, j, hj⟩
      · rw [hr] at ht
        cases ht
      · exact ⟨j, by rw [hj]; simp⟩
    · rintro ⟨i, hi⟩
      rcases h3 with ⟨_, ht | ht⟩ | ⟨hr, _⟩
      · rw [hi] at ht
        have := congrArg List.length ht
        simp at this
      · rw [hi] at ht
        simp at ht
      · exact hr
  · intro hr k reads2 n2 l2 rest2 hrun2
    have hrec : receiving q (n1, l1) := receiving_of q n1 l1 h1 hr ⟨h4, h5⟩
    have := Prog.always_replay _ _ (activateWhile_receiving q fuel k n1 l1 hrec)
      reads2 (n2, l2) rest2 hrun2
    exact ⟨this.1, this.2.1, fun hb => this.2.2 (Or.inr hb)⟩

set_option maxRecDepth 100000 in
/-- Witness of `lost_arbitration_drops_frame`: `nodeB` (identifier `0x124`)
contends with `nodeA` (identifier `0x123`).  On the bus, `nodeB` loses
arbitration at index 8, receives the frame of `nodeA` and is back in BusIdle
after Intermission with an empty queue and no frame reference. -/
theorem lost_arbitration_drops_frame_witness :
    (∀ reads n1 l1 rest, (nodeB.contend Locals.init).replay reads = some ((n1, l1), rest) →
      n1.queue = [] ∧ l1.currentFrame = some frameB ∧
      (l1.currentRole = roleReceiver ↔
        ∃ i, l1.info = Locals.init.info ++
          [LogEvent.dataFrameDequeue frameB, LogEvent.lostArbitration i]) ∧
      (l1.currentRole = roleReceiver →
        ∀ k reads2 n2 l2 rest2,
          (activateWhile fsmState.inProgress 16 k n1 l1).replay reads2
            = some ((n2, l2), rest2) →
          n2.queue = [] ∧ l2.currentRole = roleReceiver ∧
          (l2.currentState = fsmBusIdle → l2.currentFrame = none))) ∧
    ((busRun 256 [nodeA.activate 16 6, nodeB.activate 16 6]).2.map Prog.observe)[1]?
      = some (some { queue := [], tec := 0, currentState := fsmBusIdle,
                     previousRole := roleReceiver, currentFrame := none,
                     info := [LogEvent.dataFrameDequeue frameB, LogEvent.lostArbitration 8,
                              LogEvent.readDLC 1, LogEvent.readData [0xAA]] }) :=
  ⟨lost_arbitration_drops_frame 16 nodeB Locals.init frameB [] rfl rfl, by decide⟩

end Can
